import Mathlib

/-!
# DataHub APK website script: a verification development

Shallow embedding of `assets/js/main.js`: the helpers of `utils` (`formatNumber`, `throttle`,
`debounce`, `isPartiallyInViewport`, `randomNumber`), the FAQ accordion of `faq.handleToggle`
and `toggleFAQ`, the statistic counters of `animations.animateStats`, the handlers of
`navigation` and `accessibility` over the element registry, the scroll-depth tracking of
`analytics.trackUserEngagement`, and the download flow of `download.startDownload`.

Numbers are binary64 where rounding, `NaN` or the text of a Number matter (`formatNumber`,
`randomNumber`, the statistic counters): a finite Number is a rational of the form
`m * 2 ^ e`, and an operation rounds its exact result to a nearest Number, ties to even.
Elsewhere numbers are exact integers and rationals (pixel geometry, percentages, and the
interpolation of the counters, which is stated for exact arithmetic). Time is in milliseconds.
Timers and DOM state are explicit state; handlers are functions on that state.
-/

namespace DataHub

/-! ### Numbers: binary64 rounding -/

/-- The finite Numbers of JavaScript (binary64): `m * 2^e` with `|m| < 2^53` and
`-1074 ≤ e ≤ 971`. -/
def IsNumber (q : ℚ) : Prop :=
  ∃ m e : ℤ, |m| < 2 ^ 53 ∧ -1074 ≤ e ∧ e ≤ 971 ∧ q = (m : ℚ) * (2 : ℚ) ^ e

/-- The integer nearest to `k`; on a tie the even one. -/
def roundHalfEven (k : ℚ) : ℤ :=
  let f := Int.floor k
  if k - f < 1 / 2 then f
  else if 1 / 2 < k - f then f + 1
  else if f % 2 = 0 then f else f + 1

/-- Exponent of the unit in the last place at `x`: 52 below the binary exponent of `x`, which is
at least `-1022` (below that the numbers are subnormal). -/
def ulpExponent (x : ℚ) : ℤ := max (Int.log 2 |x|) (-1022) - 52

/-- Round to nearest, ties to even, with 53 significant bits: the value every arithmetic
operation on Numbers returns for the exact result `x`, as long as it is below `2^1024` in
magnitude. -/
def roundToNumber (x : ℚ) : ℚ :=
  (roundHalfEven (x / (2 : ℚ) ^ ulpExponent x) : ℚ) * (2 : ℚ) ^ ulpExponent x

/-- The result of an arithmetic operation with exact value `x`: the rounded value, or `none`
when it overflows to an infinity. -/
def toNumber (x : ℚ) : Option ℚ :=
  if |roundToNumber x| < (2 : ℚ) ^ (1024 : ℕ) then some (roundToNumber x) else none

/-! ### utils.formatNumber -/

/-- Matches `\d`: an ASCII digit. -/
def isDigitChar (c : Char) : Bool := c.isDigit

/-- Word characters of `\b` and `\B`: ASCII letters, digits and the underscore. -/
def isWordChar (c : Char) : Bool := c.isAlphanum || c == '_'

/-- Whether the decimal `s * 10^p` denotes the Number `x`, i.e. rounds to it. -/
def roundsTo (x s p : Nat) : Bool :=
  decide (roundToNumber ((s : ℚ) * (10 : ℚ) ^ p) = (x : ℚ))

/-- The significand with decimal exponent `p` that denotes the Number `x`, if there is one: of
the two multiples of `10^p` around `x` those that round to `x`; when both do, the closer one,
on a tie the even one. -/
def digitsAt (x p : Nat) : Option Nat :=
  let lo := x / 10 ^ p
  let hi := lo + 1
  let okLo := decide (0 < lo) && roundsTo x lo p
  let okHi := roundsTo x hi p
  if okLo && okHi then
    if x - lo * 10 ^ p < hi * 10 ^ p - x then some lo
    else if hi * 10 ^ p - x < x - lo * 10 ^ p then some hi
    else if lo % 2 = 0 then some lo else some hi
  else if okLo then some lo
  else if okHi then some hi
  else none

/-- The shortest decimal `s * 10^p` that denotes the positive integer Number `x`: the largest
decimal exponent `p`, starting from the given one, at which a significand exists. -/
def shortestDigits (x : Nat) : Nat → Nat × Nat
  | 0 => (x, 0)
  | p + 1 =>
    match digitsAt x (p + 1) with
    | some s => (s, p + 1)
    | none => shortestDigits x p

/-- The text of the positive integer Number `x`: its shortest digits followed by zeros while
`x < 10^21`, and in exponent form from `10^21` on. -/
def positiveIntegerToString (x : Nat) : List Char :=
  let sp := shortestDigits x (Nat.toDigits 10 x).length
  let digits := Nat.toDigits 10 sp.1
  let n := digits.length + sp.2
  if n ≤ 21 then digits ++ List.replicate sp.2 '0'
  else
    match digits with
    | [] => []
    | [d] => d :: 'e' :: '+' :: Nat.toDigits 10 (n - 1)
    | d :: ds => d :: '.' :: ds ++ 'e' :: '+' :: Nat.toDigits 10 (n - 1)

/-- Model of `num.toString()` where `num` is the Number for the integer `num` (the nearest
Number when the integer itself is none): a minus sign for a negative number, then `0`,
`Infinity`, or the text of the positive integer. -/
def numberToString (num : Int) : List Char :=
  (if num < 0 then ['-'] else []) ++
    (if num = 0 then ['0']
     else
      match toNumber (num.natAbs : ℚ) with
      | none => ['I', 'n', 'f', 'i', 'n', 'i', 't', 'y']
      | some x => positiveIntegerToString (Int.floor x).toNat)

/-- Matches `(?!\d)` at the start of the given rest of the input. -/
def notFollowedByDigit : List Char → Bool
  | [] => true
  | c :: _ => !isDigitChar c

/-- Matches `(\d{3})+(?!\d)` at the start of the given rest of the input: one or more groups of
three digits, after which no digit follows. -/
def threeDigitGroups : List Char → Bool
  | a :: b :: c :: rest =>
      isDigitChar a && isDigitChar b && isDigitChar c &&
        (notFollowedByDigit rest || threeDigitGroups rest)
  | _ => false

/-- Matches `\B` between the previous character (none at the start) and the rest of the input:
both sides are word characters or neither is. -/
def nonWordBoundary (prev : Option Char) (rest : List Char) : Bool :=
  (match prev with | none => false | some p => isWordChar p) ==
    (match rest with | [] => false | c :: _ => isWordChar c)

/-- Whether the empty match of `/\B(?=(\d{3})+(?!\d))/` succeeds at this position. -/
def separatorMatches (prev : Option Char) (rest : List Char) : Bool :=
  nonWordBoundary prev rest && threeDigitGroups rest

/-- The global `replace(..., ',')`: a comma is put at every position where the pattern
matches. -/
def insertSeparators (prev : Option Char) : List Char → List Char
  | [] => if separatorMatches prev [] then [','] else []
  | c :: cs =>
      (if separatorMatches prev (c :: cs) then [','] else []) ++
        c :: insertSeparators (some c) cs

def formatNumber (num : Int) : String :=
  String.mk (insertSeparators none (numberToString num))

/-- The decimal digits of `n` cut into groups of three counted from the right: the leftmost
group holds the one to three digits that remain. -/
def thousandsGroups (n : Nat) : List (List Char) :=
  if n < 1000 then [Nat.toDigits 10 n]
  else thousandsGroups (n / 1000) ++
    [[Nat.digitChar (n / 100 % 10), Nat.digitChar (n / 10 % 10), Nat.digitChar (n % 10)]]
termination_by n
decreasing_by omega

/-! ### utils.throttle -/

/-- State of one wrapper returned by `utils.throttle(func, limit)`. -/
structure ThrottleState where
  /-- the closure variable `inThrottle` (`undefined`, i.e. falsy, at creation) -/
  inThrottle : Bool
  /-- due times of the pending `setTimeout(() => inThrottle = false, limit)` callbacks, oldest
  first -/
  timers : List Nat
  /-- current time in ms -/
  clock : Nat
  /-- times at which `func` was applied, newest first -/
  executions : List Nat
  /-- times at which an application of `func` threw, newest first -/
  thrown : List Nat
deriving DecidableEq

inductive ThrottleEvent where
  /-- the wrapper is called at time `t`; `throws` tells whether `func`, if this call applies it,
  throws instead of returning -/
  | call (t : Nat) (throws : Bool)
  /-- the oldest pending reset callback runs at time `t` -/
  | expire (t : Nat)
deriving DecidableEq

def ThrottleState.init : ThrottleState :=
  { inThrottle := false, timers := [], clock := 0, executions := [], thrown := [] }

/-- Body of the wrapper:
`if (!inThrottle) { func.apply(context, args); inThrottle = true; setTimeout(.., limit); }`.
The flag is set and the reset timer is started only after `func.apply` has returned: when `func`
throws, the exception leaves the wrapper and neither statement runs. `func` is taken not to call
the wrapper itself. -/
def throttleCall (limit : Nat) (s : ThrottleState) (t : Nat) (throws : Bool) : ThrottleState :=
  if !s.inThrottle then
    if throws then
      { s with clock := t, executions := t :: s.executions, thrown := t :: s.thrown }
    else
      { inThrottle := true
        timers := s.timers ++ [t + limit]
        clock := t
        executions := t :: s.executions
        thrown := s.thrown }
  else
    { s with clock := t }

/-- One transition; `none` when the event is not enabled (time would run backwards, or no
reset callback is due yet). A timer callback runs at or after its due time. -/
def throttleStep (limit : Nat) (s : ThrottleState) : ThrottleEvent → Option ThrottleState
  | .call t throws => if s.clock ≤ t then some (throttleCall limit s t throws) else none
  | .expire t =>
    match s.timers with
    | [] => none
    | due :: rest =>
      if s.clock ≤ t ∧ due ≤ t then
        some { s with inThrottle := false, timers := rest, clock := t }
      else none

def throttleRun (limit : Nat) (s : ThrottleState) : List ThrottleEvent → Option ThrottleState
  | [] => some s
  | e :: es => (throttleStep limit s e).bind (fun s' => throttleRun limit s' es)

def ThrottleEvent.isCall : ThrottleEvent → Bool
  | .call _ _ => true
  | .expire _ => false

/-- Invariant of the throttled wrapper: executions are at least `limit` apart, none lies in the
future, and the flag is set exactly while the reset callback of the latest execution is pending. -/
def ThrottleInv (limit : Nat) (s : ThrottleState) : Prop :=
  s.executions.Pairwise (fun a b => b + limit ≤ a) ∧
  (∀ e ∈ s.executions, e ≤ s.clock) ∧
  (if s.inThrottle then ∃ e rest, s.executions = e :: rest ∧ s.timers = [e + limit]
   else s.timers = [] ∧ ∀ e ∈ s.executions, e + limit ≤ s.clock)

/-! ### utils.debounce -/

/-- A pending `setTimeout(later, wait)`: its id, due time, and the `args` captured by `later`. -/
structure DebounceTimer (α : Type) where
  id : Nat
  due : Nat
  args : α
deriving DecidableEq

structure DebounceState (α : Type) where
  /-- the closure variable `timeout` (last timer id handed out by `setTimeout`) -/
  timeout : Option Nat
  /-- pending timers of this wrapper, oldest first -/
  timers : List (DebounceTimer α)
  /-- next fresh timer id -/
  nextId : Nat
  clock : Nat
  /-- `(time, args)` of every application of `func`, newest first -/
  executions : List (Nat × α)
deriving DecidableEq

inductive DebounceEvent (α : Type) where
  /-- the wrapper is called with `args` at time `t` -/
  | call (t : Nat) (args : α)
  /-- the callback `later` of the oldest pending timer runs at time `t` -/
  | expire (t : Nat)
deriving DecidableEq

def DebounceState.init {α : Type} : DebounceState α :=
  { timeout := none, timers := [], nextId := 0, clock := 0, executions := [] }

/-- Model of `clearTimeout(timeout)`: cancels the pending timer with that id, if any. -/
def clearTimeout {α : Type} (timeout : Option Nat) (timers : List (DebounceTimer α)) :
    List (DebounceTimer α) :=
  timers.filter (fun tm => !(some tm.id == timeout))

/-- Body of `executedFunction(...args)`:
`clearTimeout(timeout); timeout = setTimeout(later, wait)`. -/
def debounceCall {α : Type} (wait : Nat) (s : DebounceState α) (t : Nat) (args : α) :
    DebounceState α :=
  { timeout := some s.nextId
    timers :=
      clearTimeout s.timeout s.timers ++ [{ id := s.nextId, due := t + wait, args := args }]
    nextId := s.nextId + 1
    clock := t
    executions := s.executions }

/-- Body of `later` for timer `tm`, run at time `t`: `clearTimeout(timeout); func(...args)`. -/
def debounceLater {α : Type} (s : DebounceState α) (tm : DebounceTimer α)
    (rest : List (DebounceTimer α)) (t : Nat) : DebounceState α :=
  { s with
    timers := clearTimeout s.timeout rest
    clock := t
    executions := (t, tm.args) :: s.executions }

/-- One transition; `none` when the event is not enabled (time would run backwards, or no timer
is due yet). The wrapper can be called at any time; a timer callback runs at or after its due
time, whenever the event loop gets to it. -/
def debounceStep {α : Type} (wait : Nat) (s : DebounceState α) :
    DebounceEvent α → Option (DebounceState α)
  | .call t args => if s.clock ≤ t then some (debounceCall wait s t args) else none
  | .expire t =>
    match s.timers with
    | [] => none
    | tm :: rest =>
      if s.clock ≤ t ∧ tm.due ≤ t then some (debounceLater s tm rest t) else none

def debounceRun {α : Type} (wait : Nat) (s : DebounceState α) :
    List (DebounceEvent α) → Option (DebounceState α)
  | [] => some s
  | e :: es => (debounceStep wait s e).bind (fun s' => debounceRun wait s' es)

/-- Whether the event comes on time in state `s`: a timer callback runs exactly at its due time,
and a call is made while every pending timer is still due later (a timer due at or before the
time of the call has already run). -/
def debounceOnTime {α : Type} (s : DebounceState α) : DebounceEvent α → Bool
  | .call t _ => s.timers.all (fun tm => decide (t < tm.due))
  | .expire t =>
    match s.timers with
    | [] => true
    | tm :: _ => decide (t = tm.due)

/-- Whether every event of the trace `evs`, run from `s`, comes on time. -/
def debouncePunctual {α : Type} (wait : Nat) (s : DebounceState α) :
    List (DebounceEvent α) → Bool
  | [] => true
  | e :: es =>
    debounceOnTime s e &&
      match debounceStep wait s e with
      | none => true
      | some s' => debouncePunctual wait s' es

def debounceCalls {α : Type} : List (DebounceEvent α) → List (Nat × α)
  | [] => []
  | .call t a :: es => (t, a) :: debounceCalls es
  | .expire _ :: es => debounceCalls es

/-- The last call of every burst: a call ends its burst iff no call follows it less than `wait`
later. -/
def burstEnds {α : Type} (wait : Nat) : List (Nat × α) → List (Nat × α)
  | [] => []
  | [c] => [c]
  | c :: c' :: cs =>
    if c'.1 < c.1 + wait then burstEnds wait (c' :: cs) else c :: burstEnds wait (c' :: cs)

/-- What `func` receives for a burst ending with call `c`: it runs `wait` after `c`, with the
arguments of `c`. -/
def burstExecution {α : Type} (wait : Nat) (c : Nat × α) : Nat × α := (c.1 + wait, c.2)

/-- Invariant of the debounced wrapper after the calls `calls`: either no timer is pending and
every burst has been executed, or exactly one timer is pending, it belongs to the latest call,
and every burst but the current one has been executed. -/
def DebounceInv {α : Type} (wait : Nat) (calls : List (Nat × α)) (s : DebounceState α) : Prop :=
  (s.timers = [] ∧
    s.executions.reverse = (burstEnds wait calls).map (burstExecution wait) ∧
    ∀ c ∈ calls.getLast?, c.1 + wait ≤ s.clock) ∨
  (∃ cs c id, calls = cs ++ [c] ∧
    s.timers = [{ id := id, due := c.1 + wait, args := c.2 }] ∧
    s.timeout = some id ∧ s.clock = c.1 ∧
    s.executions.reverse ++ [burstExecution wait c] =
      (burstEnds wait calls).map (burstExecution wait))

def DebounceEvent.calls {α : Type} : DebounceEvent α → List (Nat × α)
  | .call t a => [(t, a)]
  | .expire _ => []

/-! ### faq.handleToggle -/

/-- Visual state of one `.faq__item`: whether its `.faq__answer` carries the class `active`, and
the `textContent` of its `.faq__icon`. -/
structure FaqItem where
  active : Bool
  icon : String
deriving DecidableEq

/-- Collapse an item: `answer.classList.remove('active'); icon.textContent = '+'`. -/
def FaqItem.collapse (_item : FaqItem) : FaqItem := { active := false, icon := "+" }

/-- Expand an item: `answer.classList.add('active'); icon.textContent = '−'`. -/
def FaqItem.expand (_item : FaqItem) : FaqItem := { active := true, icon := "−" }

/-- The click listener that `faq.handleToggle` installs on the question of item `i`, acting on
the state of all of `DOM.faqItems`. An index without an item has no question and no listener. -/
def faqClick (items : List FaqItem) (i : Nat) : List FaqItem :=
  match items[i]? with
  | none => items
  | some item =>
    let isActive := item.active
    let others :=
      items.mapIdx (fun j otherItem => if j ≠ i then otherItem.collapse else otherItem)
    if isActive then others.set i item.collapse else others.set i item.expand

/-- Number of items whose answer is expanded. -/
def expandedCount (items : List FaqItem) : Nat := items.countP (fun item => item.active)

/-! ### animations.animateStats -/

/-- Model of `x.toFixed(1)` for a number of magnitude below `10^21` (a Number with a fractional
part is far below that): sign, then the integer `n` nearest to `10 * |x|` (the larger one on a tie),
written with a decimal point before its last digit and padded to two digits. -/
def toFixed1 (x : ℚ) : String :=
  let n : Nat := (Int.floor (|x| * 10 + 1 / 2)).toNat
  let m := Nat.toDigits 10 n
  let m := if m.length ≤ 1 then List.replicate (2 - m.length) '0' ++ m else m
  String.mk
    ((if x < 0 then ['-'] else []) ++ m.take (m.length - 1) ++ '.' :: m.drop (m.length - 1))

/-- Model of `x % 1` of JavaScript: the remainder keeps the sign of `x`. -/
def jsMod1 (x : ℚ) : ℚ := x - (if 0 ≤ x then (Int.floor x : ℚ) else (Int.ceil x : ℚ))

/-- A Number: `NaN`, an infinity, or a finite value. The two zeros are identified: they differ in
no comparison, and every text made below is the same for both. -/
inductive JsNumber where
  | nan
  | inf (negative : Bool)
  | fin (q : ℚ)
deriving DecidableEq

/-- The Number that an exact result `x` rounds to; a result too large to be finite becomes an
infinity of its sign. -/
def JsNumber.ofRat (x : ℚ) : JsNumber :=
  match toNumber x with
  | some y => JsNumber.fin y
  | none => JsNumber.inf (decide (x < 0))

/-- Model of `x + y`. -/
def JsNumber.add : JsNumber → JsNumber → JsNumber
  | .nan, _ => .nan
  | _, .nan => .nan
  | .inf a, .inf b => if a = b then .inf a else .nan
  | .inf a, .fin _ => .inf a
  | .fin _, .inf b => .inf b
  | .fin p, .fin q => JsNumber.ofRat (p + q)

/-- Model of `x / d` for a finite divisor `d > 0`. -/
def JsNumber.divPos (d : ℚ) : JsNumber → JsNumber
  | .nan => .nan
  | .inf a => .inf a
  | .fin p => JsNumber.ofRat (p / d)

/-- Model of `x >= y`: false as soon as one side is `NaN`. -/
def JsNumber.ge : JsNumber → JsNumber → Bool
  | .nan, _ => false
  | _, .nan => false
  | .inf a, .inf b => !a || b
  | .inf a, .fin _ => !a
  | .fin _, .inf b => b
  | .fin p, .fin q => decide (p ≥ q)

/-- Model of `Math.floor(x)`. -/
def JsNumber.floor : JsNumber → JsNumber
  | .nan => .nan
  | .inf a => .inf a
  | .fin q => .fin (Int.floor q)

/-- Model of `x % 1 !== 0`: the remainder of `NaN` or of an infinity is `NaN`, which is not
`0`; the remainder of a finite Number is exact. -/
def JsNumber.hasFraction : JsNumber → Bool
  | .nan => true
  | .inf _ => true
  | .fin q => decide (jsMod1 q ≠ 0)

/-- Model of `String(x)` for an `x` that `Math.floor` returned (an integer, an infinity or
`NaN`). -/
def JsNumber.integerToString : JsNumber → List Char
  | .nan => ['N', 'a', 'N']
  | .inf false => ['I', 'n', 'f', 'i', 'n', 'i', 't', 'y']
  | .inf true => ['-', 'I', 'n', 'f', 'i', 'n', 'i', 't', 'y']
  | .fin q => numberToString (Int.floor q)

/-- Model of `utils.formatNumber(x)` for an `x` that `Math.floor` returned:
`x.toString().replace(/\B(?=(\d{3})+(?!\d))/g, ',')`. -/
def formatNumberOf (x : JsNumber) : String :=
  String.mk (insertSeparators none x.integerToString)

/-- Model of `x.toFixed(1)`: the text of `x` when `x` is not finite or is `10^21` or more in
magnitude (such a Number is an integer), else `toFixed1`. -/
def JsNumber.toFixed : JsNumber → String
  | .fin q => if |q| ≥ 10 ^ 21 then String.mk (numberToString (Int.floor q)) else toFixed1 q
  | x => String.mk x.integerToString

/-- One statistic counter: the variable `current`, whether the interval timer is still set, and
`stat.textContent`. -/
structure StatState where
  current : JsNumber
  running : Bool
  text : String
deriving DecidableEq

/-- The state when `setInterval` has just been called. -/
def StatState.init (initialText : String) : StatState :=
  { current := JsNumber.fin 0, running := true, text := initialText }

/-- The text assigned to `stat.textContent` in a tick. -/
def statText (target current : JsNumber) : String :=
  if JsNumber.ge target (JsNumber.fin 1000) then formatNumberOf (JsNumber.floor current) ++ "+"
  else if target.hasFraction then current.toFixed
  else String.mk (JsNumber.floor current).integerToString

/-- One 16 ms tick of the interval callback for the target `parseFloat` returned; a cleared
timer no longer calls back. -/
def statTick (target : JsNumber) (s : StatState) : StatState :=
  if s.running then
    let step := JsNumber.divPos (2000 / 16) target
    let current := JsNumber.add s.current step
    if JsNumber.ge current target then
      { current := target, running := false, text := statText target target }
    else
      { current := current, running := true, text := statText target current }
  else s

/-- The counter after `k` ticks. -/
def statRun (target : JsNumber) (initialText : String) : Nat → StatState
  | 0 => StatState.init initialText
  | k + 1 => statTick target (statRun target initialText k)

/-! ### utils.isPartiallyInViewport -/

/-- The `DOMRect` returned by `element.getBoundingClientRect()`; `width` and `height` are never
negative for an element's box. -/
structure Rect where
  top : ℚ
  left : ℚ
  width : ℚ
  height : ℚ

def Rect.bottom (r : Rect) : ℚ := r.top + r.height

def Rect.right (r : Rect) : ℚ := r.left + r.width

/-- The four viewport measures the function reads. -/
structure Viewport where
  innerHeight : ℚ
  innerWidth : ℚ
  clientHeight : ℚ
  clientWidth : ℚ

/-- Model of `a || b` on numbers: `b` when `a` is `0`. -/
def jsOr (a b : ℚ) : ℚ := if a ≠ 0 then a else b

def Viewport.windowHeight (v : Viewport) : ℚ := jsOr v.innerHeight v.clientHeight

def Viewport.windowWidth (v : Viewport) : ℚ := jsOr v.innerWidth v.clientWidth

/-- Model of `a / b >= threshold` of JavaScript on finite numbers with `b` not negative:
`0 / 0` is `NaN` and compares false, a positive number over `0` is `Infinity`, a negative one
`-Infinity`. -/
def jsQuotientGe (a b threshold : ℚ) : Bool :=
  if b = 0 then decide (0 < a) else decide (a / b ≥ threshold)

def isPartiallyInViewport (v : Viewport) (rect : Rect) (threshold : ℚ) : Bool :=
  let windowHeight := v.windowHeight
  let windowWidth := v.windowWidth
  let visibleHeight := min rect.bottom windowHeight - max rect.top 0
  let visibleWidth := min rect.right windowWidth - max rect.left 0
  let visibleArea := visibleHeight * visibleWidth
  let totalArea := rect.height * rect.width
  jsQuotientGe visibleArea totalArea threshold

/-- The box and the viewport rectangle `[0, windowWidth] × [0, windowHeight]` have no point in
common. -/
def Rect.outside (rect : Rect) (v : Viewport) : Prop :=
  rect.bottom < 0 ∨ v.windowHeight < rect.top ∨ rect.right < 0 ∨ v.windowWidth < rect.left

/-- The box lies fully inside the viewport (the test of `utils.isInViewport`). -/
def Rect.inside (rect : Rect) (v : Viewport) : Prop :=
  rect.top ≥ 0 ∧ rect.left ≥ 0 ∧ rect.bottom ≤ v.windowHeight ∧ rect.right ≤ v.windowWidth

/-! ### utils.randomNumber -/

/-- Model of `Math.floor(Math.random() * (max - min + 1)) + min` in binary64, for integers
`min` and `max` that are Numbers, with the Number `r` drawn by `Math.random()` as a parameter:
every operation rounds its exact result; `none` stands for a result that is not finite. -/
def randomNumber (r : ℚ) (min max : ℤ) : Option ℚ := do
  let span ← toNumber ((max : ℚ) - (min : ℚ))
  let count ← toNumber (span + 1)
  let scaled ← toNumber (r * count)
  toNumber ((Int.floor scaled : ℚ) + (min : ℚ))

/-! ### Element Registry and the handlers of navigation and accessibility -/

/-- An element of the page, as far as the handlers look at it: its `classList`. -/
structure Element where
  classList : List String
deriving DecidableEq

def Element.contains (e : Element) (c : String) : Bool := e.classList.contains c

def Element.add (e : Element) (c : String) : Element :=
  if e.classList.contains c then e else { classList := e.classList ++ [c] }

def Element.remove (e : Element) (c : String) : Element :=
  { classList := e.classList.filter (fun d => d != c) }

def Element.toggle (e : Element) (c : String) : Element :=
  if e.classList.contains c then e.remove c else e.add c

/-- The constant `DOM`: every lookup that found nothing is `none` (`null`); together with
`document.body.style.overflow`. -/
structure Registry where
  navToggle : Option Element
  navMenu : Option Element
  header : Option Element
  loadingOverlay : Option Element
  fab : Option Element
  downloadBtn : Option Element
  bodyOverflow : String
deriving DecidableEq

/-- What a handler can throw. -/
inductive JsError where
  /-- a property of `null` was read -/
  | typeError
deriving DecidableEq

/-- Reading a property (`.classList`, `.contains`) of a registry entry: a `TypeError` on
`null`. -/
def deref (e : Option Element) : Except JsError Element :=
  match e with
  | none => Except.error JsError.typeError
  | some el => Except.ok el

/-- Whether `navigation.handleMobileMenu` installs its listeners: `if (DOM.navToggle)`. -/
def mobileMenuInstalled (dom : Registry) : Bool := dom.navToggle.isSome

/-- The click listener on the toggle:
`DOM.navMenu.classList.toggle('show'); DOM.navToggle.classList.toggle('active')`. -/
def toggleClick (dom : Registry) : Except JsError Registry := do
  let menu ← deref dom.navMenu
  let dom := { dom with navMenu := some (menu.toggle "show") }
  let toggle ← deref dom.navToggle
  pure { dom with navToggle := some (toggle.toggle "active") }

/-- The document click listener of `handleMobileMenu`; `inToggle` and `inMenu` are the answers
of `contains(e.target)` on the toggle and on the menu. -/
def outsideClick (dom : Registry) (inToggle inMenu : Bool) : Except JsError Registry := do
  let toggle ← deref dom.navToggle
  if inToggle then pure dom
  else
    let menu ← deref dom.navMenu
    if inMenu then pure dom
    else
      pure { dom with
        navMenu := some (menu.remove "show"), navToggle := some (toggle.remove "active") }

/-- Model of `download.hideLoading`: guarded by `if (DOM.loadingOverlay)`. -/
def hideLoading (dom : Registry) : Registry :=
  match dom.loadingOverlay with
  | some overlay =>
    { dom with loadingOverlay := some (overlay.remove "show"), bodyOverflow := "" }
  | none => dom

/-- The document keydown listener of `accessibility.handleKeyboardNavigation`. -/
def escapeKeydown (dom : Registry) (key : String) : Except JsError Registry := do
  if key = "Escape" then
    let menu ← deref dom.navMenu
    let dom ←
      if menu.contains "show" then do
        let dom := { dom with navMenu := some (menu.remove "show") }
        let toggle ← deref dom.navToggle
        pure { dom with navToggle := some (toggle.remove "active") }
      else pure dom
    let overlay ← deref dom.loadingOverlay
    if overlay.contains "show" then pure (hideLoading dom) else pure dom
  else pure dom

/-- The function that `navigation.handleScrollEffects` throttles, at scroll offset `scrollY`. -/
def headerScroll (dom : Registry) (scrollY : Int) : Except JsError Registry := do
  if scrollY > 100 then
    let header ← deref dom.header
    pure { dom with header := some (header.add "scrolled") }
  else
    let header ← deref dom.header
    pure { dom with header := some (header.remove "scrolled") }

/-- A page with every looked-up element present and no class set. -/
def Registry.full : Registry :=
  { navToggle := some { classList := [] }, navMenu := some { classList := [] },
    header := some { classList := [] }, loadingOverlay := some { classList := [] },
    fab := some { classList := [] }, downloadBtn := some { classList := [] },
    bodyOverflow := "" }

/-! ### analytics.trackUserEngagement -/

/-- The closure variable `maxScrollDepth` and the labels of the `scroll_depth` events handed to
`analytics.trackEvent` so far, oldest first. -/
structure EngagementState where
  maxScrollDepth : Int
  scrollDepthEvents : List Int
deriving DecidableEq

/-- The state set up by `trackUserEngagement`: `let maxScrollDepth = 0`. -/
def EngagementState.init : EngagementState := { maxScrollDepth := 0, scrollDepthEvents := [] }

/-- One run of the throttled `trackScroll` body, with `scrollPercent` the rounded percentage it
computes; `%` is the remainder of JavaScript (`Int.tmod`). -/
def trackScroll (s : EngagementState) (scrollPercent : Int) : EngagementState :=
  if scrollPercent > s.maxScrollDepth then
    let maxScrollDepth := scrollPercent
    if Int.tmod maxScrollDepth 25 = 0 then
      { maxScrollDepth := maxScrollDepth
        scrollDepthEvents := s.scrollDepthEvents ++ [maxScrollDepth] }
    else
      { maxScrollDepth := maxScrollDepth, scrollDepthEvents := s.scrollDepthEvents }
  else s

/-- The state after a sequence of ticks. -/
def trackScrolls (s : EngagementState) (percents : List Int) : EngagementState :=
  percents.foldl trackScroll s

/-! ### navigation.handleActiveLinks -/

/-- A `section[id]` of the page: `offsetTop`, `offsetHeight` and its `id`. -/
structure Section where
  offsetTop : Int
  offsetHeight : Int
  id : String
deriving DecidableEq

/-- A `.nav__link`: its `href` and whether its `classList` holds `active`. -/
structure NavLink where
  href : String
  active : Bool
deriving DecidableEq

/-- The attribute test `[href*=value]`: the `href` contains `value`, which is not empty, as a
substring. -/
def hrefContains (href value : String) : Bool :=
  !value.data.isEmpty && href.data.tails.any (fun t => value.data.isPrefixOf t)

/-- Index of the first link, in document order, whose `href` contains `value`. -/
def findLink (value : String) : List NavLink → Option Nat
  | [] => none
  | l :: ls =>
    if hrefContains l.href value then some 0 else (findLink value ls).map (fun j => j + 1)

/-- Why `document.querySelector` gives no answer in the model. -/
inductive QueryError where
  /-- the selector text does not parse: `querySelector` throws a `SyntaxError` -/
  | syntaxError
  /-- the `id` holds a character after which the selector text is no longer the single
  attribute test written in the source; such pages are outside the model -/
  | outsideModel
deriving DecidableEq

/-- Outcome of a call of `document.querySelector`. -/
inductive QueryResult where
  /-- the link at index `j`, in document order -/
  | found (j : Nat)
  /-- no element matches: the result is `null` -/
  | null
  /-- the call does not return -/
  | threw (e : QueryError)
deriving DecidableEq

def QueryResult.isFound : QueryResult → Bool
  | .found _ => true
  | _ => false

/-- Characters that cannot change how the rest of the selector text is read: printable ASCII
other than the double quote (34), the single quote (39), the backslash (92, escapes), the
closing bracket (93, end of the attribute test) and the slash (47, comments). White space,
control characters and non-ASCII characters are not plain either. -/
def isPlainChar (c : Char) : Bool :=
  decide (33 ≤ c.toNat) && decide (c.toNat ≤ 126) &&
    !(c.toNat == 34 || c.toNat == 39 || c.toNat == 92 || c.toNat == 93 || c.toNat == 47)

/-- Characters of a CSS identifier written without escapes: ASCII letters, digits, `_`, `-`. -/
def isNameChar (c : Char) : Bool := c.isAlphanum || c == '_' || c == '-'

/-- Whether a text of name characters starts as a CSS identifier does: with a letter or `_`, or
with `-` followed by a letter, `_` or `-`. -/
def isIdentifierStart : List Char → Bool
  | [] => false
  | ['-'] => false
  | '-' :: c :: _ => c.isAlpha || c == '_' || c == '-'
  | c :: _ => c.isAlpha || c == '_'

/-- Model of `document.querySelector('.nav__link[href*=' + id + ']')`. The `id` is pasted into
the selector without quotes, so the selector parses only when `id` is a CSS identifier;
otherwise (an empty `id`, `1`, `a.b`, ...) the call throws. When it parses, the result is the
first link in document order whose `href` contains `id`, or `null` (`none`). -/
def querySelector (id : String) (links : List NavLink) : QueryResult :=
  if !id.data.all isPlainChar then QueryResult.threw QueryError.outsideModel
  else if !(id.data.all isNameChar && isIdentifierStart id.data) then
    QueryResult.threw QueryError.syntaxError
  else
    match findLink id links with
    | some j => QueryResult.found j
    | none => QueryResult.null

/-- The test `scrollY > sectionTop && scrollY <= sectionTop + sectionHeight` with
`sectionTop = current.offsetTop - 100`. -/
def sectionInRange (scrollY : ℚ) (current : Section) : Bool :=
  let sectionHeight := current.offsetHeight
  let sectionTop := current.offsetTop - 100
  decide (scrollY > (sectionTop : ℚ) ∧ scrollY ≤ ((sectionTop + sectionHeight : Int) : ℚ))

/-- Model of `classList.add('active')` (`b = true`) or `classList.remove('active')`
(`b = false`) on the link at index `j`. -/
def setLinkActive (b : Bool) : Nat → List NavLink → List NavLink
  | _, [] => []
  | 0, l :: ls => { l with active := b } :: ls
  | j + 1, l :: ls => l :: setLinkActive b j ls

/-- The body of `DOM.sections.forEach` for one section: the link found, if any, gets or loses
`active`; an exception of `querySelector` leaves the body. -/
def highlightSection (scrollY : ℚ) (links : List NavLink) (current : Section) :
    Except QueryError (List NavLink) :=
  match querySelector current.id links with
  | QueryResult.found j => Except.ok (setLinkActive (sectionInRange scrollY current) j links)
  | QueryResult.null => Except.ok links
  | QueryResult.threw e => Except.error e

/-- One highlighting pass over all sections, at scroll offset `scrollY`: the links at the end,
and the exception that ended the `forEach` early, if any (the changes made before it stay). -/
def highlightPass (scrollY : ℚ) :
    List Section → List NavLink → List NavLink × Option QueryError
  | [], links => (links, none)
  | current :: rest, links =>
    match highlightSection scrollY links current with
    | Except.error e => (links, some e)
    | Except.ok links' => highlightPass scrollY rest links'

/-- Whether the link that the query of section `s` selects is active in the given state of the
links. -/
def sectionLinkActive (links : List NavLink) (s : Section) : Bool :=
  match querySelector s.id links with
  | QueryResult.found j =>
    match links[j]? with
    | none => false
    | some l => l.active
  | _ => false

/-- The change that a section whose query returns makes to the links. -/
def markLink (scrollY : ℚ) (links : List NavLink) (current : Section) : Option Nat → List NavLink
  | none => links
  | some j => setLinkActive (sectionInRange scrollY current) j links

/-- The links after a pass in which no query throws: the marks of all sections in turn. -/
def markAll (scrollY : ℚ) (sections : List Section) (links : List NavLink) : List NavLink :=
  sections.foldl (fun ls s => markLink scrollY ls s (findLink s.id ls)) links

/-- The intervals `(sectionTop, sectionTop + sectionHeight]` of two sections do not overlap. -/
def rangesDisjoint (a b : Section) : Prop :=
  a.offsetTop - 100 + a.offsetHeight ≤ b.offsetTop - 100 ∨
    b.offsetTop - 100 + b.offsetHeight ≤ a.offsetTop - 100

/-! ### download.startDownload -/

/-- The callbacks that the download flow hands to `setTimeout`. -/
inductive DownloadTimer where
  /-- the callback of `startDownload`: `hideLoading(); triggerDownload(); trackDownload()` -/
  | finish
  /-- the callback of `showSuccessMessage` for one toast:
  `if (message.parentElement) message.remove()` -/
  | removeToast (toast : Nat)
deriving DecidableEq

/-- The page as the download flow sees it. -/
structure DownloadState where
  /-- the registry, with the overlay's `classList` and `document.body.style.overflow` -/
  dom : Registry
  /-- the `.download-success` toasts attached to the body, by number, oldest first -/
  toasts : List Nat
  /-- how many toasts have been created so far -/
  toastsCreated : Nat
  /-- how often the hidden download link has been clicked -/
  linkClicks : Nat
  /-- pending timers as `(due, callback)`, ordered by due time, ties in creation order -/
  timers : List (Nat × DownloadTimer)
  clock : Nat
deriving DecidableEq

inductive DownloadEvent where
  /-- `download.startDownload()` is called at time `t` -/
  | start (t : Nat)
  /-- the pending timer that is due first reaches its due time and its callback runs -/
  | expire
  /-- the Close button of an attached toast is clicked at time `t` -/
  | dismiss (t : Nat) (toast : Nat)
deriving DecidableEq

/-- Model of `setTimeout(callback, delay)`: the new timer goes after the pending ones that are
due no later. -/
def insertTimer (timer : Nat × DownloadTimer) :
    List (Nat × DownloadTimer) → List (Nat × DownloadTimer)
  | [] => [timer]
  | t :: ts => if t.1 ≤ timer.1 then t :: insertTimer timer ts else timer :: t :: ts

/-- Model of `download.showLoading`: guarded by `if (DOM.loadingOverlay)`. -/
def showLoading (dom : Registry) : Registry :=
  match dom.loadingOverlay with
  | some overlay =>
    { dom with loadingOverlay := some (overlay.add "show"), bodyOverflow := "hidden" }
  | none => dom

/-- Model of `download.startDownload` at time `s.clock`: `showLoading()` and a 2000 ms
timer. -/
def startDownload (s : DownloadState) : DownloadState :=
  { s with dom := showLoading s.dom, timers := insertTimer (s.clock + 2000, .finish) s.timers }

/-- Model of `download.showSuccessMessage` at time `s.clock`: a new toast is appended to the
body and a 5000 ms timer is set for it. -/
def showSuccessMessage (s : DownloadState) : DownloadState :=
  { s with
    toasts := s.toasts ++ [s.toastsCreated]
    toastsCreated := s.toastsCreated + 1
    timers := insertTimer (s.clock + 5000, .removeToast s.toastsCreated) s.timers }

/-- Model of `download.triggerDownload`: the hidden link is clicked, then
`showSuccessMessage()`. -/
def triggerDownload (s : DownloadState) : DownloadState :=
  showSuccessMessage { s with linkClicks := s.linkClicks + 1 }

/-- Run a timer callback at time `s.clock` (`trackDownload` only logs). -/
def runDownloadTimer (s : DownloadState) : DownloadTimer → DownloadState
  | .finish => triggerDownload { s with dom := hideLoading s.dom }
  | .removeToast toast => { s with toasts := s.toasts.erase toast }

/-- One transition; `none` when the event is not enabled. Timers are exact: a callback runs
when the clock reaches its due time, so a call or click stamped `t` is enabled only once every
timer due at or before `t` has run. -/
def downloadStep (s : DownloadState) : DownloadEvent → Option DownloadState
  | .start t =>
    if s.clock ≤ t ∧ s.timers.all (fun tm => decide (t < tm.1)) then
      some (startDownload { s with clock := t })
    else none
  | .expire =>
    match s.timers with
    | [] => none
    | (due, callback) :: rest =>
      if s.clock ≤ due then
        some (runDownloadTimer { s with timers := rest, clock := due } callback)
      else none
  | .dismiss t toast =>
    if s.clock ≤ t ∧ s.timers.all (fun tm => decide (t < tm.1)) ∧ toast ∈ s.toasts then
      some { s with toasts := s.toasts.erase toast, clock := t }
    else none

def downloadRun (s : DownloadState) : List DownloadEvent → Option DownloadState
  | [] => some s
  | e :: es => (downloadStep s e).bind (fun s' => downloadRun s' es)

/-- The page before the download: the given registry, no toast, no timer. -/
def DownloadState.idle (dom : Registry) : DownloadState :=
  { dom := dom, toasts := [], toastsCreated := 0, linkClicks := 0, timers := [], clock := 0 }

/-- The overlay carries the class `show`. -/
def overlayVisible (dom : Registry) : Bool :=
  match dom.loadingOverlay with
  | some overlay => overlay.contains "show"
  | none => false

/-- Page scroll is disabled: `document.body.style.overflow` is `hidden`. -/
def scrollDisabled (dom : Registry) : Bool := dom.bodyOverflow == "hidden"

def DownloadEvent.isStart : DownloadEvent → Bool
  | .start _ => true
  | _ => false

def DownloadEvent.isDismiss : DownloadEvent → Bool
  | .dismiss _ _ => true
  | _ => false

/-- Invariant of the flow after a single `startDownload` at time `T` on registry `dom`;
`dismissed` tells whether the toast has been dismissed. Three phases: preparing, toast up,
done. -/
def DownloadInv (T : Nat) (dom : Registry) (dismissed : Bool) (s : DownloadState) : Prop :=
  (s = { dom := showLoading dom, toasts := [], toastsCreated := 0, linkClicks := 0,
         timers := [(T + 2000, .finish)], clock := T } ∧ dismissed = false) ∨
  (s.dom = hideLoading (showLoading dom) ∧ s.toastsCreated = 1 ∧ s.linkClicks = 1 ∧
    s.timers = [(T + 7000, .removeToast 0)] ∧ T + 2000 ≤ s.clock ∧ s.clock < T + 7000 ∧
    s.toasts = (if dismissed then [] else [0])) ∨
  (s.dom = hideLoading (showLoading dom) ∧ s.toastsCreated = 1 ∧ s.linkClicks = 1 ∧
    s.timers = [] ∧ s.clock = T + 7000 ∧ s.toasts = [])

/-! ### animations.animateStats: interpolation in exact arithmetic -/

/-- One statistic counter during `animations.animateStats`: the variable `current`, whether the
interval timer is still set, and `stat.textContent`. -/
structure CounterState where
  current : ℚ
  running : Bool
  text : String

/-- The state when `setInterval` has just been called: `current = 0`, and `textContent` is
whatever the page shows (`initialText`). -/
def CounterState.init (initialText : String) : CounterState :=
  { current := 0, running := true, text := initialText }

/-- The text assigned to `stat.textContent` in a tick. -/
def counterText (target current : ℚ) : String :=
  if target ≥ 1000 then formatNumber (Int.floor current) ++ "+"
  else if jsMod1 target ≠ 0 then toFixed1 current
  else String.mk (numberToString (Int.floor current))

/-- One 16 ms tick of the interval callback; a cleared timer no longer calls back. -/
def counterTick (target : ℚ) (s : CounterState) : CounterState :=
  if s.running then
    let step := target / (2000 / 16)
    let current := s.current + step
    if current ≥ target then
      { current := target, running := false, text := counterText target target }
    else
      { current := current, running := true, text := counterText target current }
  else s

/-- The counter after `k` ticks. -/
def counterRun (target : ℚ) (initialText : String) : Nat → CounterState
  | 0 => CounterState.init initialText
  | k + 1 => counterTick target (counterRun target initialText k)

/-- The final text the specification gives for target `t`. -/
def finalCounterText (t : ℚ) : String :=
  if t ≥ 1000 then formatNumber (Int.floor t) ++ "+"
  else if Int.fract t ≠ 0 then toFixed1 t
  else String.mk (numberToString (Int.floor t))

/-- Time in ms, counted from the `setInterval(..., 16)` call, at which tick `k` runs. -/
def counterTickTime (k : Nat) : Nat := 16 * k

/-! ### window.DataHubWebsite.toggleFAQ -/

/-- Model of `window.DataHubWebsite.toggleFAQ(element)` for `element` the question of item `i`,
whose `nextElementSibling` is the answer of item `i` and which holds the icon of item `i`. An
open item is only collapsed itself; otherwise every other item (every item whose answer is
not this answer) is collapsed and item `i` expanded. -/
def toggleFAQ (items : List FaqItem) (i : Nat) : List FaqItem :=
  match items[i]? with
  | none => items
  | some item =>
    if item.active then items.set i item.collapse
    else
      let others :=
        items.mapIdx (fun j otherItem => if j ≠ i then otherItem.collapse else otherItem)
      others.set i item.expand

/-- Every collapsed item shows the indicator "+". -/
def collapsedShowPlus (items : List FaqItem) : Prop :=
  ∀ x ∈ items, x.active = false → x.icon = "+"

/-! ### Numbers: binary64 rounding -/

theorem roundHalfEven_nearest (k : ℚ) (z : ℤ) :
    |(roundHalfEven k : ℚ) - k| ≤ |(z : ℚ) - k| := by
  have hf1 : (Int.floor k : ℚ) ≤ k := Int.floor_le k
  have hf2 : k < (Int.floor k : ℚ) + 1 := Int.lt_floor_add_one k
  have hz : z ≤ Int.floor k ∨ Int.floor k + 1 ≤ z := by omega
  have hzq : (z : ℚ) ≤ (Int.floor k : ℚ) ∨ (Int.floor k : ℚ) + 1 ≤ (z : ℚ) := by
    rcases hz with h | h
    · left; exact_mod_cast h
    · right; exact_mod_cast h
  unfold roundHalfEven
  simp only
  split_ifs with h1 h2 h3
  · rw [abs_le]
    rcases hzq with h | h
    · rw [abs_of_nonpos (by linarith)]
      constructor <;> linarith
    · rw [abs_of_nonneg (by linarith)]
      constructor <;> linarith
  · push_cast
    rw [abs_le]
    rcases hzq with h | h
    · rw [abs_of_nonpos (by linarith)]
      constructor <;> linarith
    · rw [abs_of_nonneg (by linarith)]
      constructor <;> linarith
  · have he : k - (Int.floor k : ℚ) = 1 / 2 := le_antisymm (not_lt.mp h2) (not_lt.mp h1)
    rw [abs_le]
    rcases hzq with h | h
    · rw [abs_of_nonpos (by linarith)]
      constructor <;> linarith
    · rw [abs_of_nonneg (by linarith)]
      constructor <;> linarith
  · have he : k - (Int.floor k : ℚ) = 1 / 2 := le_antisymm (not_lt.mp h2) (not_lt.mp h1)
    push_cast
    rw [abs_le]
    rcases hzq with h | h
    · rw [abs_of_nonpos (by linarith)]
      constructor <;> linarith
    · rw [abs_of_nonneg (by linarith)]
      constructor <;> linarith

theorem roundToNumber_sub (x : ℚ) :
    roundToNumber x - x =
      ((roundHalfEven (x / (2 : ℚ) ^ ulpExponent x) : ℚ) - x / (2 : ℚ) ^ ulpExponent x) *
        (2 : ℚ) ^ ulpExponent x := by
  have hu : (2 : ℚ) ^ ulpExponent x ≠ 0 := zpow_ne_zero _ (by norm_num)
  unfold roundToNumber
  field_simp

theorem roundToNumber_zero : roundToNumber 0 = 0 := by
  simp [roundToNumber, roundHalfEven]

/-- Rounding is to a nearest Number: no Number is closer to `x` than `roundToNumber x`. -/
theorem roundToNumber_nearest (x d : ℚ) (hd : IsNumber d) :
    |roundToNumber x - x| ≤ |d - x| := by
  by_cases hx0 : x = 0
  · subst hx0
    rw [roundToNumber_zero]
    simp
  obtain ⟨m, e, hm, he1, _, rfl⟩ := hd
  have hu : (0 : ℚ) < (2 : ℚ) ^ ulpExponent x := zpow_pos (by norm_num) _
  rw [roundToNumber_sub, abs_mul, abs_of_pos hu]
  by_cases hE : ulpExponent x ≤ e
  · -- the Number is a multiple of the unit in the last place
    obtain ⟨n, hn⟩ := Int.eq_ofNat_of_zero_le (sub_nonneg.mpr hE)
    have hde : (m : ℚ) * (2 : ℚ) ^ e =
        ((m * 2 ^ n : ℤ) : ℚ) * (2 : ℚ) ^ ulpExponent x := by
      have : e = ulpExponent x + (n : ℤ) := by omega
      rw [this, zpow_add₀ (by norm_num), zpow_natCast]
      push_cast
      ring
    have hdx : (m : ℚ) * (2 : ℚ) ^ e - x =
        (((m * 2 ^ n : ℤ) : ℚ) - x / (2 : ℚ) ^ ulpExponent x) * (2 : ℚ) ^ ulpExponent x := by
      rw [hde]
      field_simp
    rw [hdx, abs_mul, abs_of_pos hu]
    exact mul_le_mul_of_nonneg_right (roundHalfEven_nearest _ _) hu.le
  · -- the Number lies below the binade of `x`
    have hlt : e < ulpExponent x := not_le.mp hE
    have hL : ulpExponent x = Int.log 2 |x| - 52 := by
      unfold ulpExponent at hlt ⊢
      have : max (Int.log 2 |x|) (-1022) = Int.log 2 |x| := by
        apply max_eq_left
        by_contra hc
        rw [max_eq_right (le_of_lt (not_le.mp hc))] at hlt
        omega
      rw [this]
    have hxpos : 0 < |x| := abs_pos.mpr hx0
    have hlow : (2 : ℚ) ^ Int.log 2 |x| ≤ |x| := by
      have := Int.zpow_log_le_self (b := 2) (r := |x|) (by norm_num) hxpos
      simpa using this
    have hdabs : |(m : ℚ) * (2 : ℚ) ^ e| < (2 : ℚ) ^ Int.log 2 |x| := by
      rw [abs_mul, abs_of_pos (zpow_pos (by norm_num : (0 : ℚ) < 2) e)]
      have hmq : |(m : ℚ)| < (2 : ℚ) ^ (53 : ℕ) := by
        have : ((|m| : ℤ) : ℚ) < ((2 ^ 53 : ℤ) : ℚ) := by exact_mod_cast hm
        simpa using this
      have hpe : (2 : ℚ) ^ e ≤ (2 : ℚ) ^ (Int.log 2 |x| - 53) :=
        zpow_le_zpow_right₀ (by norm_num) (by omega)
      calc |(m : ℚ)| * (2 : ℚ) ^ e
          < (2 : ℚ) ^ (53 : ℕ) * (2 : ℚ) ^ e :=
            mul_lt_mul_of_pos_right hmq (zpow_pos (by norm_num) e)
        _ ≤ (2 : ℚ) ^ (53 : ℕ) * (2 : ℚ) ^ (Int.log 2 |x| - 53) :=
            mul_le_mul_of_nonneg_left hpe (by positivity)
        _ = (2 : ℚ) ^ Int.log 2 |x| := by
            rw [← zpow_natCast, ← zpow_add₀ (by norm_num)]
            congr 1
            omega
    -- the power of two at the bottom of the binade is a multiple of the unit
    have h52 : (2 : ℚ) ^ Int.log 2 |x| = (2 : ℚ) ^ (52 : ℕ) * (2 : ℚ) ^ ulpExponent x := by
      rw [hL, ← zpow_natCast, ← zpow_add₀ (by norm_num)]
      congr 1
      omega
    have hz0 : ∀ s : ℤ, (s = 1 ∨ s = -1) → (s : ℚ) * x = |x| →
        |(roundHalfEven (x / (2 : ℚ) ^ ulpExponent x) : ℚ) - x / (2 : ℚ) ^ ulpExponent x| *
          (2 : ℚ) ^ ulpExponent x ≤ |x| - (2 : ℚ) ^ Int.log 2 |x| := by
      intro s hs hsx
      have hnear := roundHalfEven_nearest (x / (2 : ℚ) ^ ulpExponent x) (s * 2 ^ 52)
      have hval : (((s * 2 ^ 52 : ℤ) : ℚ) - x / (2 : ℚ) ^ ulpExponent x) *
          (2 : ℚ) ^ ulpExponent x = (s : ℚ) * (2 : ℚ) ^ Int.log 2 |x| - x := by
        rw [h52]
        push_cast
        field_simp
        ring
      have habs : |(s : ℚ) * (2 : ℚ) ^ Int.log 2 |x| - x| = |x| - (2 : ℚ) ^ Int.log 2 |x| := by
        generalize (2 : ℚ) ^ Int.log 2 |x| = p at hlow ⊢
        rcases hs with rfl | rfl
        · simp only [Int.cast_one, one_mul] at hsx ⊢
          rw [abs_of_nonpos (by linarith)]
          linarith
        · simp only [Int.cast_neg, Int.cast_one, neg_mul, one_mul] at hsx ⊢
          rw [abs_of_nonneg (by linarith)]
          linarith
      calc |(roundHalfEven (x / (2 : ℚ) ^ ulpExponent x) : ℚ) - x / (2 : ℚ) ^ ulpExponent x| *
            (2 : ℚ) ^ ulpExponent x
          ≤ |((s * 2 ^ 52 : ℤ) : ℚ) - x / (2 : ℚ) ^ ulpExponent x| *
              (2 : ℚ) ^ ulpExponent x := mul_le_mul_of_nonneg_right hnear hu.le
        _ = |(((s * 2 ^ 52 : ℤ) : ℚ) - x / (2 : ℚ) ^ ulpExponent x) *
              (2 : ℚ) ^ ulpExponent x| := by rw [abs_mul, abs_of_pos hu]
        _ = |x| - (2 : ℚ) ^ Int.log 2 |x| := by rw [hval, habs]
    have hfar : |x| - (2 : ℚ) ^ Int.log 2 |x| ≤ |(m : ℚ) * (2 : ℚ) ^ e - x| := by
      have h1 : |x| - |(m : ℚ) * (2 : ℚ) ^ e| ≤ |x - (m : ℚ) * (2 : ℚ) ^ e| :=
        abs_sub_abs_le_abs_sub _ _
      rw [abs_sub_comm] at h1
      linarith
    rcases le_or_lt 0 x with hx | hx
    · exact le_trans (hz0 1 (Or.inl rfl) (by simp [abs_of_nonneg hx])) hfar
    · exact le_trans (hz0 (-1) (Or.inr rfl) (by simp [abs_of_neg hx])) hfar

theorem roundToNumber_of_isNumber (d : ℚ) (hd : IsNumber d) : roundToNumber d = d := by
  have h := roundToNumber_nearest d d hd
  simp only [sub_self, abs_zero] at h
  exact sub_eq_zero.mp (abs_eq_zero.mp (le_antisymm h (abs_nonneg _)))

/-- Rounding stays between the Numbers that enclose the exact value. -/
theorem roundToNumber_between (x a b : ℚ) (ha : IsNumber a) (hb : IsNumber b)
    (hax : a ≤ x) (hxb : x ≤ b) : a ≤ roundToNumber x ∧ roundToNumber x ≤ b := by
  have h1 := roundToNumber_nearest x a ha
  have h2 := roundToNumber_nearest x b hb
  rw [abs_of_nonpos (by linarith : a - x ≤ 0)] at h1
  rw [abs_of_nonneg (by linarith : 0 ≤ b - x)] at h2
  have h3 := abs_le.mp h1
  have h4 := abs_le.mp h2
  constructor <;> linarith [h3.1, h3.2, h4.1, h4.2]

/-- Integers of magnitude at most `2^53` are Numbers. -/
theorem isNumber_intCast (z : ℤ) (hz : |z| ≤ 2 ^ 53) : IsNumber (z : ℚ) := by
  by_cases h : |z| < 2 ^ 53
  · exact ⟨z, 0, h, by norm_num, by norm_num, by simp⟩
  · have hz' : |z| = 2 ^ 53 := le_antisymm hz (not_lt.mp h)
    rcases abs_eq (by norm_num : (0 : ℤ) ≤ 2 ^ 53) |>.mp hz' with h1 | h1
    · exact ⟨2 ^ 52, 1, by norm_num, by norm_num, by norm_num, by rw [h1]; norm_num⟩
    · exact ⟨-2 ^ 52, 1, by norm_num, by norm_num, by norm_num, by rw [h1]; norm_num⟩

theorem roundToNumber_ge_of_isNumber (x a : ℚ) (ha : IsNumber a) (hax : a ≤ x) :
    a ≤ roundToNumber x := by
  have h1 := roundToNumber_nearest x a ha
  rw [abs_of_nonpos (by linarith : a - x ≤ 0)] at h1
  have h3 := abs_le.mp h1
  linarith [h3.1]

theorem roundToNumber_le_of_isNumber (x b : ℚ) (hb : IsNumber b) (hxb : x ≤ b) :
    roundToNumber x ≤ b := by
  have h2 := roundToNumber_nearest x b hb
  rw [abs_of_nonneg (by linarith : 0 ≤ b - x)] at h2
  have h4 := abs_le.mp h2
  linarith [h4.2]

theorem isNumber_natCast (n : Nat) (hn : n ≤ 2 ^ 53) : IsNumber (n : ℚ) := by
  have h := isNumber_intCast (n : ℤ) (by
    rw [abs_of_nonneg (Int.natCast_nonneg n)]
    exact_mod_cast hn)
  simpa using h

theorem toNumber_of_isNumber (x : ℚ) (hx : IsNumber x) : toNumber x = some x := by
  obtain ⟨m, e, hm, _, he, rfl⟩ := hx
  have hr := roundToNumber_of_isNumber _ (⟨m, e, hm, by assumption, he, rfl⟩ : IsNumber _)
  unfold toNumber
  rw [hr, if_pos]
  rw [abs_mul, abs_of_pos (zpow_pos (by norm_num : (0 : ℚ) < 2) e)]
  have hmq : |(m : ℚ)| < (2 : ℚ) ^ (53 : ℕ) := by
    have : ((|m| : ℤ) : ℚ) < ((2 ^ 53 : ℤ) : ℚ) := by exact_mod_cast hm
    simpa using this
  have hpe : (2 : ℚ) ^ e ≤ (2 : ℚ) ^ (971 : ℤ) := zpow_le_zpow_right₀ (by norm_num) he
  calc |(m : ℚ)| * (2 : ℚ) ^ e
      < (2 : ℚ) ^ (53 : ℕ) * (2 : ℚ) ^ e :=
        mul_lt_mul_of_pos_right hmq (zpow_pos (by norm_num) e)
    _ ≤ (2 : ℚ) ^ (53 : ℕ) * (2 : ℚ) ^ (971 : ℤ) :=
        mul_le_mul_of_nonneg_left hpe (by positivity)
    _ = (2 : ℚ) ^ (1024 : ℕ) := by
        rw [← zpow_natCast, ← zpow_natCast, ← zpow_add₀ (by norm_num)]
        norm_num

theorem isNumber_zero : IsNumber 0 := ⟨0, 0, by norm_num, by norm_num, by norm_num, by simp⟩

theorem isNumber_abs_lt (t : ℚ) (ht : IsNumber t) : |t| < (2 : ℚ) ^ (1024 : ℕ) := by
  obtain ⟨m, e, hm, _, he, rfl⟩ := ht
  have hmq : |(m : ℚ)| < (2 : ℚ) ^ (53 : ℕ) := by
    have : ((|m| : ℤ) : ℚ) < ((2 ^ 53 : ℤ) : ℚ) := by exact_mod_cast hm
    simpa using this
  have hpos : (0 : ℚ) < (2 : ℚ) ^ e := zpow_pos (by norm_num) e
  have hle : (2 : ℚ) ^ e ≤ (2 : ℚ) ^ (971 : ℤ) := zpow_le_zpow_right₀ (by norm_num) he
  rw [abs_mul, abs_of_pos hpos]
  have e1 : (2 : ℚ) ^ (1024 : ℕ) = (2 : ℚ) ^ (53 : ℕ) * (2 : ℚ) ^ (971 : ℤ) := by
    rw [← zpow_natCast, ← zpow_natCast, ← zpow_add₀ (by norm_num)]
    norm_num
  rw [e1]
  calc |(m : ℚ)| * (2 : ℚ) ^ e ≤ |(m : ℚ)| * (2 : ℚ) ^ (971 : ℤ) :=
        mul_le_mul_of_nonneg_left hle (abs_nonneg _)
    _ < (2 : ℚ) ^ (53 : ℕ) * (2 : ℚ) ^ (971 : ℤ) :=
        mul_lt_mul_of_pos_right hmq (zpow_pos (by norm_num) _)

theorem isNumber_neg (t : ℚ) (ht : IsNumber t) : IsNumber (-t) := by
  obtain ⟨m, e, hm, he1, he2, rfl⟩ := ht
  exact ⟨-m, e, by rwa [abs_neg], he1, he2, by push_cast; ring⟩

theorem toNumber_of_between (x a b : ℚ) (ha : IsNumber a) (hb : IsNumber b) (hax : a ≤ x)
    (hxb : x ≤ b) : toNumber x = some (roundToNumber x) := by
  have h1 := roundToNumber_ge_of_isNumber x a ha hax
  have h2 := roundToNumber_le_of_isNumber x b hb hxb
  have ha' := abs_lt.mp (isNumber_abs_lt a ha)
  have hb' := abs_lt.mp (isNumber_abs_lt b hb)
  unfold toNumber
  rw [if_pos]
  rw [abs_lt]
  constructor <;> linarith

theorem isNumber_natCast_mul_zpow (m : ℕ) (e : ℤ) (hm : m < 2 ^ 53) (he1 : -1074 ≤ e)
    (he2 : e ≤ 971) : IsNumber ((m : ℚ) * (2 : ℚ) ^ e) := by
  refine ⟨(m : ℤ), e, ?_, he1, he2, by push_cast; rfl⟩
  rw [abs_of_nonneg (by positivity)]
  exact_mod_cast hm

theorem log_lt_of_lt_pow (t : ℚ) (n : ℕ) (hpos : 0 < t) (h : t < (2 : ℚ) ^ n) :
    Int.log 2 t < (n : ℤ) := by
  have hcast : t < ((2 : ℕ) : ℚ) ^ (n : ℤ) := by
    rw [zpow_natCast, Nat.cast_ofNat]
    exact h
  exact (Int.lt_zpow_iff_log_lt (by norm_num : 1 < 2) hpos).mp hcast

/-- The spacing of the Numbers around a normal positive Number `t`. -/
theorem ulpExponent_normal (t : ℚ) (ht : IsNumber t) (h : (2 : ℚ) ^ (-1022 : ℤ) ≤ t) :
    -1074 ≤ ulpExponent t ∧ ulpExponent t ≤ 971 ∧
      (2 : ℚ) ^ ulpExponent t * (2 : ℚ) ^ (52 : ℕ) ≤ t ∧
      t < (2 : ℚ) ^ ulpExponent t * (2 : ℚ) ^ (53 : ℕ) := by
  have hpos : 0 < t := lt_of_lt_of_le (zpow_pos (by norm_num) _) h
  have habs : |t| = t := abs_of_pos hpos
  have hlt := isNumber_abs_lt t ht
  rw [habs] at hlt
  have hl1 : -1022 ≤ Int.log 2 t :=
    (Int.zpow_le_iff_le_log (by norm_num : 1 < 2) hpos).mp (by exact_mod_cast h)
  have hl2 : Int.log 2 t < 1024 := by
    have := log_lt_of_lt_pow t 1024 hpos hlt
    omega
  have hlo : (2 : ℚ) ^ Int.log 2 t ≤ t := by
    have := Int.zpow_log_le_self (by norm_num : 1 < 2) hpos
    exact_mod_cast this
  have hhi : t < (2 : ℚ) ^ (Int.log 2 t + 1) := by
    have := Int.lt_zpow_succ_log_self (b := 2) (by norm_num) t
    exact_mod_cast this
  have hu : ulpExponent t = Int.log 2 t - 52 := by
    unfold ulpExponent
    rw [habs, max_eq_left hl1]
  rw [hu]
  refine ⟨by omega, by omega, ?_, ?_⟩
  · rw [← zpow_natCast, ← zpow_add₀ (by norm_num)]
    have : Int.log 2 t - 52 + ((52 : ℕ) : ℤ) = Int.log 2 t := by norm_num
    rw [this]
    exact hlo
  · rw [← zpow_natCast, ← zpow_add₀ (by norm_num)]
    have : Int.log 2 t - 52 + ((53 : ℕ) : ℤ) = Int.log 2 t + 1 := by
      push_cast
      ring
    rw [this]
    exact hhi

/-! ### utils.formatNumber -/

theorem digitChar_isDigit (d : Nat) (h : d < 10) : isDigitChar (Nat.digitChar d) = true := by
  interval_cases d <;> decide

theorem isWordChar_of_isDigitChar (c : Char) (h : isDigitChar c = true) : isWordChar c = true := by
  simp only [isDigitChar] at h
  simp [isWordChar, Char.isAlphanum, h]

theorem toDigitsCore_append (fuel : Nat) : ∀ (n : Nat) (ds : List Char),
    Nat.toDigitsCore 10 fuel n ds = Nat.toDigitsCore 10 fuel n [] ++ ds := by
  induction fuel with
  | zero => intro n ds; simp [Nat.toDigitsCore]
  | succ f ih =>
    intro n ds
    simp only [Nat.toDigitsCore]
    by_cases h0 : n / 10 = 0
    · simp [h0]
    · simp only [h0, if_false]
      rw [ih (n / 10) (_ :: ds), ih (n / 10) [_]]
      simp

theorem toDigitsCore_fuel (f1 : Nat) : ∀ (f2 n : Nat), n < f1 → n < f2 →
    Nat.toDigitsCore 10 f1 n [] = Nat.toDigitsCore 10 f2 n [] := by
  induction f1 with
  | zero => intro f2 n h; omega
  | succ f ih =>
    intro f2 n h1 h2
    cases f2 with
    | zero => omega
    | succ g =>
      simp only [Nat.toDigitsCore]
      by_cases h0 : n / 10 = 0
      · simp [h0]
      · simp only [h0, if_false]
        rw [toDigitsCore_append f, toDigitsCore_append g, ih g (n / 10) (by omega) (by omega)]

theorem toDigits_lt_ten (n : Nat) (h : n < 10) : Nat.toDigits 10 n = [Nat.digitChar n] := by
  have h0 : n / 10 = 0 := by omega
  simp [Nat.toDigits, Nat.toDigitsCore, h0, Nat.mod_eq_of_lt h]

theorem toDigits_step (n : Nat) (h : 10 ≤ n) :
    Nat.toDigits 10 n = Nat.toDigits 10 (n / 10) ++ [Nat.digitChar (n % 10)] := by
  have h0 : n / 10 ≠ 0 := by omega
  have e : Nat.toDigits 10 n =
      Nat.toDigitsCore 10 n (n / 10) [Nat.digitChar (n % 10)] := by
    simp only [Nat.toDigits, Nat.toDigitsCore, h0, if_false]
  rw [e, toDigitsCore_append n, toDigitsCore_fuel n (n / 10 + 1) (n / 10) (by omega) (by omega)]
  rfl

theorem toDigits_thousand (n : Nat) (h : 1000 ≤ n) :
    Nat.toDigits 10 n = Nat.toDigits 10 (n / 1000) ++
      [Nat.digitChar (n / 100 % 10), Nat.digitChar (n / 10 % 10), Nat.digitChar (n % 10)] := by
  rw [toDigits_step n (by omega), toDigits_step (n / 10) (by omega),
    toDigits_step (n / 10 / 10) (by omega)]
  have e1 : n / 10 / 10 = n / 100 := by omega
  have e2 : n / 10 / 10 / 10 = n / 1000 := by omega
  rw [e2, e1]
  simp

theorem toDigits_allDigits (n : Nat) : ∀ c ∈ Nat.toDigits 10 n, isDigitChar c = true := by
  induction n using Nat.strong_induction_on with
  | _ n ih =>
    by_cases h : n < 10
    · rw [toDigits_lt_ten n h]
      intro c hc
      simp at hc
      subst hc
      exact digitChar_isDigit n h
    · rw [toDigits_step n (by omega)]
      intro c hc
      simp only [List.mem_append, List.mem_singleton] at hc
      rcases hc with hc | hc
      · exact ih (n / 10) (by omega) c hc
      · subst hc
        exact digitChar_isDigit _ (by omega)

theorem toDigits_length_pos (n : Nat) : 0 < (Nat.toDigits 10 n).length := by
  by_cases h : n < 10
  · rw [toDigits_lt_ten n h]; simp
  · rw [toDigits_step n (by omega)]; simp

theorem toDigits_length_le_three (n : Nat) (h : n < 1000) : (Nat.toDigits 10 n).length ≤ 3 := by
  by_cases h1 : n < 10
  · rw [toDigits_lt_ten n h1]; simp
  · rw [toDigits_step n (by omega)]
    by_cases h2 : n / 10 < 10
    · rw [toDigits_lt_ten _ h2]; simp
    · rw [toDigits_step _ (by omega), toDigits_lt_ten _ (by omega)]; simp

theorem threeDigitGroups_digits : ∀ (ds : List Char), (∀ c ∈ ds, isDigitChar c = true) →
    threeDigitGroups ds = decide (0 < ds.length ∧ ds.length % 3 = 0)
  | [], _ => by simp [threeDigitGroups]
  | [_], _ => by simp [threeDigitGroups]
  | [_, _], _ => by simp [threeDigitGroups]
  | a :: b :: c :: rest, h => by
    have ih := threeDigitGroups_digits rest (fun x hx => h x (by simp [hx]))
    have ha := h a (by simp)
    have hb := h b (by simp)
    have hc := h c (by simp)
    cases rest with
    | nil => simp [threeDigitGroups, ha, hb, hc, notFollowedByDigit]
    | cons d rest =>
      have hd := h d (by simp)
      simp only [threeDigitGroups, ha, hb, hc, notFollowedByDigit, hd, Bool.not_true,
        Bool.false_or, Bool.and_self, Bool.true_and] at ih ⊢
      rw [ih]
      simp only [List.length_cons]
      congr 1
      apply propext
      constructor <;> intro ⟨_, h2⟩ <;> constructor <;> omega

theorem separatorMatches_none_word (c : Char) (cs : List Char) (h : isWordChar c = true) :
    separatorMatches none (c :: cs) = false := by
  simp [separatorMatches, nonWordBoundary, h]

theorem separatorMatches_some_digits (p : Char) (ds : List Char) (hp : isDigitChar p = true)
    (h : ∀ c ∈ ds, isDigitChar c = true) :
    separatorMatches (some p) ds = decide (0 < ds.length ∧ ds.length % 3 = 0) := by
  have hw := isWordChar_of_isDigitChar p hp
  cases ds with
  | nil => simp [separatorMatches, threeDigitGroups]
  | cons d ds =>
    have hd := isWordChar_of_isDigitChar d (h d (by simp))
    rw [separatorMatches, threeDigitGroups_digits _ h]
    simp [nonWordBoundary, hw, hd]

theorem insertSeparators_cons (prev : Option Char) (c : Char) (cs : List Char) :
    insertSeparators prev (c :: cs) =
      (if separatorMatches prev (c :: cs) then [','] else []) ++
        c :: insertSeparators (some c) cs := rfl

theorem insertSeparators_some_append (a b c : Char) (ha : isDigitChar a = true)
    (hb : isDigitChar b = true) (hc : isDigitChar c = true) :
    ∀ (xs : List Char) (p : Char), isDigitChar p = true → (∀ x ∈ xs, isDigitChar x = true) →
      insertSeparators (some p) (xs ++ [a, b, c]) =
        insertSeparators (some p) xs ++ ',' :: [a, b, c]
  | [], p, hp, _ => by
    have hall : ∀ x ∈ [a, b, c], isDigitChar x = true := by
      intro x hx
      simp at hx
      rcases hx with rfl | rfl | rfl <;> assumption
    have h3 := separatorMatches_some_digits p [a, b, c] hp hall
    have h2 := separatorMatches_some_digits a [b, c] ha
      (fun x hx => hall x (by simp at hx ⊢; tauto))
    have h1 := separatorMatches_some_digits b [c] hb (fun x hx => hall x (by simp at hx ⊢; tauto))
    have h0 := separatorMatches_some_digits c [] hc (by simp)
    have hnil := separatorMatches_some_digits p [] hp (by simp)
    simp at h3 h2 h1 h0 hnil
    simp [insertSeparators, h3, h2, h1, h0, hnil]
  | x :: xs, p, hp, h => by
    have hx := h x (by simp)
    have ih := insertSeparators_some_append a b c ha hb hc xs x hx (fun y hy => h y (by simp [hy]))
    have hall : ∀ y ∈ x :: xs ++ [a, b, c], isDigitChar y = true := by
      intro y hy
      simp at hy
      rcases hy with rfl | hy | rfl | rfl | rfl
      · exact hx
      · exact h y (by simp [hy])
      · exact ha
      · exact hb
      · exact hc
    have m1 := separatorMatches_some_digits p (x :: xs ++ [a, b, c]) hp hall
    have m2 := separatorMatches_some_digits p (x :: xs) hp h
    have e : decide (0 < (x :: xs ++ [a, b, c]).length ∧ (x :: xs ++ [a, b, c]).length % 3 = 0) =
        decide (0 < (x :: xs).length ∧ (x :: xs).length % 3 = 0) := by
      simp only [List.length_cons, List.length_append, List.length_nil]
      congr 1
      apply propext
      constructor <;> intro ⟨_, h2⟩ <;> constructor <;> omega
    rw [List.cons_append, insertSeparators_cons, insertSeparators_cons, ← List.cons_append,
      m1, e, ← m2, ih]
    simp

theorem insertSeparators_some_short : ∀ (ds : List Char) (p : Char), isDigitChar p = true →
    (∀ c ∈ ds, isDigitChar c = true) → ds.length < 3 → insertSeparators (some p) ds = ds
  | [], p, hp, _, _ => by
    have hnil := separatorMatches_some_digits p [] hp (by simp)
    simp at hnil
    simp [insertSeparators, hnil]
  | d :: ds, p, hp, h, hl => by
    have hd := h d (by simp)
    have ih := insertSeparators_some_short ds d hd (fun y hy => h y (by simp [hy]))
      (by simp at hl; omega)
    have m := separatorMatches_some_digits p (d :: ds) hp h
    have e : decide (0 < (d :: ds).length ∧ (d :: ds).length % 3 = 0) = false := by
      simp only [List.length_cons] at hl ⊢
      simp only [decide_eq_false_iff_not]
      omega
    rw [insertSeparators_cons, m, e, ih]
    simp

theorem insertSeparators_none_short (d : Char) (ds : List Char)
    (h : ∀ c ∈ d :: ds, isDigitChar c = true) (hl : (d :: ds).length ≤ 3) :
    insertSeparators none (d :: ds) = d :: ds := by
  have hd := h d (by simp)
  rw [insertSeparators_cons, separatorMatches_none_word d ds (isWordChar_of_isDigitChar d hd),
    insertSeparators_some_short ds d hd (fun y hy => h y (by simp [hy]))
      (by simp at hl; omega)]
  simp

theorem insertSeparators_none_append (a b c : Char) (ha : isDigitChar a = true)
    (hb : isDigitChar b = true) (hc : isDigitChar c = true) (xs : List Char)
    (h : ∀ x ∈ xs, isDigitChar x = true) (hne : 0 < xs.length) :
    insertSeparators none (xs ++ [a, b, c]) = insertSeparators none xs ++ ',' :: [a, b, c] := by
  cases xs with
  | nil => simp at hne
  | cons x xs =>
    have hx := h x (by simp)
    have hw := isWordChar_of_isDigitChar x hx
    rw [List.cons_append, insertSeparators_cons, insertSeparators_cons,
      separatorMatches_none_word x _ hw, separatorMatches_none_word x _ hw,
      insertSeparators_some_append a b c ha hb hc xs x hx (fun y hy => h y (by simp [hy]))]
    simp

theorem insertSeparators_filter : ∀ (xs : List Char) (prev : Option Char),
    (insertSeparators prev xs).filter (fun c => c != ',') = xs.filter (fun c => c != ',')
  | [], prev => by
    simp [insertSeparators, separatorMatches, threeDigitGroups]
  | x :: xs, prev => by
    rw [insertSeparators_cons]
    have ih := insertSeparators_filter xs (some x)
    by_cases hm : separatorMatches prev (x :: xs) = true
    · simp [hm, List.filter_cons, ih]
    · simp [hm, List.filter_cons, ih]

theorem intercalate_snoc (sep : List Char) : ∀ (gs : List (List Char)) (g : List Char),
    gs ≠ [] → List.intercalate sep (gs ++ [g]) = List.intercalate sep gs ++ sep ++ g
  | [], _, h => absurd rfl h
  | [x], g, _ => by simp [List.intercalate, List.intersperse]
  | x :: y :: gs, g, _ => by
    have ih := intercalate_snoc sep (y :: gs) g (by simp)
    simp only [List.intercalate, List.cons_append, List.intersperse_cons₂, List.flatten_cons,
      List.append_assoc] at ih ⊢
    rw [ih]

theorem thousandsGroups_ne_nil (n : Nat) : thousandsGroups n ≠ [] := by
  rw [thousandsGroups]
  split <;> simp

theorem insertSeparators_toDigits (n : Nat) :
    insertSeparators none (Nat.toDigits 10 n) = List.intercalate [','] (thousandsGroups n) := by
  induction n using Nat.strong_induction_on with
  | _ n ih =>
    rw [thousandsGroups]
    by_cases h : n < 1000
    · simp only [h, if_true]
      have hpos := toDigits_length_pos n
      have hle := toDigits_length_le_three n h
      have hall := toDigits_allDigits n
      cases hds : Nat.toDigits 10 n with
      | nil => rw [hds] at hpos; simp at hpos
      | cons d ds =>
        rw [hds] at hle hall
        rw [insertSeparators_none_short d ds hall hle]
        simp [List.intercalate, List.intersperse]
    · simp only [h, if_false]
      rw [toDigits_thousand n (by omega),
        insertSeparators_none_append _ _ _ (digitChar_isDigit _ (by omega))
          (digitChar_isDigit _ (by omega)) (digitChar_isDigit _ (by omega)) _
          (toDigits_allDigits _) (toDigits_length_pos _),
        ih (n / 1000) (by omega), intercalate_snoc _ _ _ (thousandsGroups_ne_nil _)]
      simp

theorem thousandsGroups_flatten (n : Nat) : (thousandsGroups n).flatten = Nat.toDigits 10 n := by
  induction n using Nat.strong_induction_on with
  | _ n ih =>
    rw [thousandsGroups]
    by_cases h : n < 1000
    · simp [h]
    · simp only [h, if_false]
      rw [toDigits_thousand n (by omega), List.flatten_append, ih (n / 1000) (by omega)]
      simp

theorem thousandsGroups_shape (n : Nat) :
    ∃ g rest, thousandsGroups n = g :: rest ∧ 1 ≤ g.length ∧ g.length ≤ 3 ∧
      ∀ r ∈ rest, r.length = 3 := by
  induction n using Nat.strong_induction_on with
  | _ n ih =>
    rw [thousandsGroups]
    by_cases h : n < 1000
    · simp only [h, if_true]
      exact ⟨_, [], rfl, toDigits_length_pos n, toDigits_length_le_three n h, by simp⟩
    · simp only [h, if_false]
      obtain ⟨g, rest, hg, h1, h3, hr⟩ := ih (n / 1000) (by omega)
      refine ⟨g, rest ++ [[_, _, _]], by rw [hg]; rfl, h1, h3, ?_⟩
      intro r hr2
      simp only [List.mem_append, List.mem_singleton] at hr2
      rcases hr2 with hr2 | hr2
      · exact hr r hr2
      · subst hr2; rfl

theorem roundToNumber_natCast_eq_iff (x c : Nat) (hx : x < 2 ^ 53) :
    roundToNumber (c : ℚ) = (x : ℚ) ↔ c = x := by
  constructor
  · intro h
    rcases Nat.lt_or_ge c (2 ^ 53) with hc | hc
    · rw [roundToNumber_of_isNumber _ (isNumber_natCast c hc.le)] at h
      exact_mod_cast h
    · have h53 : IsNumber ((2 ^ 53 : ℕ) : ℚ) := isNumber_natCast _ (le_refl _)
      have hge := roundToNumber_ge_of_isNumber (c : ℚ) _ h53 (by exact_mod_cast hc)
      rw [h] at hge
      have : (2 ^ 53 : ℕ) ≤ x := by exact_mod_cast hge
      omega
  · intro h
    subst h
    exact roundToNumber_of_isNumber _ (isNumber_natCast c hx.le)

theorem roundsTo_iff (x s p : Nat) (hx : x < 2 ^ 53) :
    roundsTo x s p = true ↔ s * 10 ^ p = x := by
  unfold roundsTo
  rw [decide_eq_true_eq]
  have := roundToNumber_natCast_eq_iff x (s * 10 ^ p) hx
  push_cast at this
  exact this

theorem digitsAt_exact (x p s : Nat) (hx : x < 2 ^ 53)
    (h : digitsAt x p = some s) : s * 10 ^ p = x := by
  have hlo : ∀ t, (decide (0 < t) && roundsTo x t p) = true → t * 10 ^ p = x := by
    intro t ht
    rw [Bool.and_eq_true] at ht
    exact (roundsTo_iff x t p hx).mp ht.2
  have hhi : ∀ t, roundsTo x t p = true → t * 10 ^ p = x :=
    fun t ht => (roundsTo_iff x t p hx).mp ht
  unfold digitsAt at h
  simp only at h
  split_ifs at h with h1 h2 h3 h4 h5 h6
  all_goals simp only [Option.some.injEq] at h
  all_goals subst h
  · rw [Bool.and_eq_true] at h1; exact hlo _ h1.1
  · rw [Bool.and_eq_true] at h1; exact hhi _ h1.2
  · rw [Bool.and_eq_true] at h1; exact hlo _ h1.1
  · rw [Bool.and_eq_true] at h1; exact hhi _ h1.2
  · exact hlo _ h5
  · exact hhi _ h6

theorem shortestDigits_exact (x : Nat) (hx : x < 2 ^ 53) : ∀ P : Nat,
    (shortestDigits x P).1 * 10 ^ (shortestDigits x P).2 = x
  | 0 => by simp [shortestDigits]
  | P + 1 => by
    unfold shortestDigits
    cases h : digitsAt x (P + 1) with
    | none => exact shortestDigits_exact x hx P
    | some s => exact digitsAt_exact x (P + 1) s hx h

theorem toDigits_mul_ten (s : Nat) (hs : 0 < s) :
    Nat.toDigits 10 (s * 10) = Nat.toDigits 10 s ++ ['0'] := by
  rw [toDigits_step (s * 10) (by omega)]
  have h1 : s * 10 / 10 = s := by omega
  have h2 : s * 10 % 10 = 0 := by omega
  rw [h1, h2]
  rfl

theorem toDigits_mul_pow_ten (s : Nat) (hs : 0 < s) : ∀ p : Nat,
    Nat.toDigits 10 (s * 10 ^ p) = Nat.toDigits 10 s ++ List.replicate p '0'
  | 0 => by simp
  | p + 1 => by
    have e : s * 10 ^ (p + 1) = s * 10 ^ p * 10 := by ring
    rw [e, toDigits_mul_ten _ (Nat.mul_pos hs (by positivity)), toDigits_mul_pow_ten s hs p,
      List.replicate_succ', List.append_assoc]

theorem toDigits_length_le : ∀ (d x : Nat), x < 10 ^ (d + 1) →
    (Nat.toDigits 10 x).length ≤ d + 1
  | 0, x, h => by
    rw [toDigits_lt_ten x (by simpa using h)]
    simp
  | d + 1, x, h => by
    by_cases h10 : x < 10
    · rw [toDigits_lt_ten x h10]
      simp
    · rw [toDigits_step x (by omega)]
      have := toDigits_length_le d (x / 10) (by
        rw [Nat.div_lt_iff_lt_mul (by norm_num)]
        rw [pow_succ] at h
        exact h)
      simp only [List.length_append, List.length_singleton]
      omega

theorem positiveIntegerToString_small (x : Nat) (hx : x < 2 ^ 53) (hpos : 0 < x) :
    positiveIntegerToString x = Nat.toDigits 10 x := by
  have hex := shortestDigits_exact x hx (Nat.toDigits 10 x).length
  have hs : 0 < (shortestDigits x (Nat.toDigits 10 x).length).1 := by
    rcases Nat.eq_zero_or_pos (shortestDigits x (Nat.toDigits 10 x).length).1 with h0 | h0
    · rw [h0] at hex
      omega
    · exact h0
  have hd := toDigits_mul_pow_ten _ hs (shortestDigits x (Nat.toDigits 10 x).length).2
  rw [hex] at hd
  have hlen : (Nat.toDigits 10 x).length ≤ 16 :=
    toDigits_length_le 15 x (lt_trans hx (by norm_num))
  have hn : (Nat.toDigits 10 (shortestDigits x (Nat.toDigits 10 x).length).1).length +
      (shortestDigits x (Nat.toDigits 10 x).length).2 ≤ 21 := by
    have := congrArg List.length hd
    simp only [List.length_append, List.length_replicate] at this
    omega
  unfold positiveIntegerToString
  simp only
  rw [if_pos hn, ← hd]

theorem numberToString_natCast (n : Nat) (hn : n < 2 ^ 53) :
    numberToString (n : Int) = Nat.toDigits 10 n := by
  have hneg : ¬ ((n : Int) < 0) := by omega
  unfold numberToString
  rw [if_neg hneg, List.nil_append]
  rcases Nat.eq_zero_or_pos n with h0 | hpos
  · subst h0
    rfl
  · have hne : (n : Int) ≠ 0 := by omega
    rw [if_neg hne]
    have hnum : IsNumber (n : ℚ) := isNumber_natCast n hn.le
    have hto : toNumber (((n : Int).natAbs : ℕ) : ℚ) = some (n : ℚ) := by
      simp only [Int.natAbs_ofNat, toNumber, roundToNumber_of_isNumber _ hnum]
      rw [if_pos]
      rw [abs_of_nonneg (by positivity)]
      have h1024 : (2 : ℚ) ^ 53 ≤ (2 : ℚ) ^ 1024 := pow_le_pow_right₀ (by norm_num) (by norm_num)
      have hq : (n : ℚ) < (2 : ℚ) ^ 53 := by exact_mod_cast hn
      linarith
    rw [hto]
    simp only [Int.floor_natCast, Int.toNat_ofNat]
    exact positiveIntegerToString_small n hn hpos

theorem formatNumber_data_small (n : Nat) (hn : n < 2 ^ 53) :
    (formatNumber (n : Int)).data = insertSeparators none (Nat.toDigits 10 n) := by
  simp [formatNumber, numberToString_natCast n hn]

theorem isNumber_ten_pow_21 : IsNumber ((10 : ℚ) ^ 21) :=
  ⟨5 ^ 21, 21, by norm_num, by norm_num, by norm_num, by norm_num⟩

theorem isNumber_ten_pow_22 : IsNumber ((10 : ℚ) ^ 22) :=
  ⟨5 ^ 22, 22, by norm_num, by norm_num, by norm_num, by norm_num⟩

theorem isNumber_two_ten_pow_21 : IsNumber (2 * (10 : ℚ) ^ 21) :=
  ⟨5 ^ 21, 22, by norm_num, by norm_num, by norm_num, by norm_num⟩

theorem digitsAt_ten_pow_21_22 : digitsAt (10 ^ 21) 22 = none := by
  have hlo : 10 ^ 21 / 10 ^ 22 = 0 := by norm_num
  have hhi : roundsTo (10 ^ 21) (0 + 1) 22 = false := by
    unfold roundsTo
    rw [decide_eq_false_iff_not]
    have e : (((0 + 1 : ℕ) : ℚ)) * (10 : ℚ) ^ 22 = (10 : ℚ) ^ 22 := by norm_num
    rw [e, roundToNumber_of_isNumber _ isNumber_ten_pow_22]
    norm_num
  simp only [digitsAt, hlo, hhi]
  decide

theorem digitsAt_ten_pow_21_21 : digitsAt (10 ^ 21) 21 = some 1 := by
  have hlo : 10 ^ 21 / 10 ^ 21 = 1 := by norm_num
  have hl : roundsTo (10 ^ 21) 1 21 = true := by
    unfold roundsTo
    rw [decide_eq_true_eq]
    have e : (((1 : ℕ) : ℚ)) * (10 : ℚ) ^ 21 = (10 : ℚ) ^ 21 := by norm_num
    rw [e, roundToNumber_of_isNumber _ isNumber_ten_pow_21]
    norm_num
  have hh : roundsTo (10 ^ 21) (1 + 1) 21 = false := by
    unfold roundsTo
    rw [decide_eq_false_iff_not]
    have e : (((1 + 1 : ℕ) : ℚ)) * (10 : ℚ) ^ 21 = 2 * (10 : ℚ) ^ 21 := by norm_num
    rw [e, roundToNumber_of_isNumber _ isNumber_two_ten_pow_21]
    norm_num
  simp only [digitsAt, hlo, hl, hh]
  decide

theorem shortestDigits_succ_of_none (x p : Nat) (h : digitsAt x (p + 1) = none) :
    shortestDigits x (p + 1) = shortestDigits x p := by
  rw [shortestDigits, h]

theorem shortestDigits_succ_of_some (x p s : Nat) (h : digitsAt x (p + 1) = some s) :
    shortestDigits x (p + 1) = (s, p + 1) := by
  rw [shortestDigits, h]

theorem positiveIntegerToString_exponent (x len s p : Nat) (d : Char)
    (hlen : (Nat.toDigits 10 x).length = len) (hsp : shortestDigits x len = (s, p))
    (hd : Nat.toDigits 10 s = [d]) (hn : 21 < 1 + p) :
    positiveIntegerToString x = d :: 'e' :: '+' :: Nat.toDigits 10 (1 + p - 1) := by
  unfold positiveIntegerToString
  simp only [hlen, hsp, hd, List.length_singleton]
  rw [if_neg (by omega)]

theorem numberToString_pos (num : Int) (x : ℚ) (hpos : 0 < num)
    (h : toNumber ((num.natAbs : ℕ) : ℚ) = some x) :
    numberToString num = positiveIntegerToString (Int.floor x).toNat := by
  unfold numberToString
  rw [if_neg (by omega), if_neg (by omega), h]
  rfl

theorem shortestDigits_ten_pow_21 : shortestDigits (10 ^ 21) 22 = (1, 21) :=
  (shortestDigits_succ_of_none (10 ^ 21) 21 digitsAt_ten_pow_21_22).trans
    (shortestDigits_succ_of_some (10 ^ 21) 20 1 digitsAt_ten_pow_21_21)

theorem positiveIntegerToString_ten_pow_21 :
    positiveIntegerToString (10 ^ 21) = ['1', 'e', '+', '2', '1'] :=
  positiveIntegerToString_exponent (10 ^ 21) 22 1 21 '1' (by decide)
    shortestDigits_ten_pow_21 (by decide) (by decide)

theorem numberToString_ten_pow_21 :
    numberToString (10 ^ 21 : Int) = ['1', 'e', '+', '2', '1'] := by
  have e : (((10 ^ 21 : Int).natAbs : ℕ) : ℚ) = (10 : ℚ) ^ 21 := by norm_num
  have hto : toNumber (((10 ^ 21 : Int).natAbs : ℕ) : ℚ) = some ((10 : ℚ) ^ 21) :=
    e ▸ toNumber_of_isNumber _ isNumber_ten_pow_21
  have hf : (Int.floor ((10 : ℚ) ^ 21)).toNat = 10 ^ 21 := by
    have : ((10 : ℚ) ^ 21) = ((10 ^ 21 : ℕ) : ℚ) := by norm_num
    rw [this, Int.floor_natCast, Int.toNat_ofNat]
  have h := numberToString_pos (10 ^ 21) _ (by norm_num) hto
  rw [hf, positiveIntegerToString_ten_pow_21] at h
  exact h

/-- C1 (counterexample). The Number `10^21` prints as `1e+21`, no group of three digits
follows a position inside a number, and `formatNumber(1e21)` is "1e+21": without its commas it
is not the decimal representation of `10^21`. -/
theorem formatNumber_exponent_form :
    formatNumber (10 ^ 21 : Int) = "1e+21" ∧
    (formatNumber (10 ^ 21 : Int)).data.filter (fun c => c != ',') ≠
      (Nat.repr (10 ^ 21)).data := by
  have hfmt : formatNumber (10 ^ 21 : Int) = "1e+21" := by
    unfold formatNumber
    rw [numberToString_ten_pow_21]
    decide
  refine ⟨hfmt, ?_⟩
  rw [hfmt]
  decide

/-- C1 (amended). For every non-negative integer `n` below `2^53`, `formatNumber(n)` is the
groups of three decimal digits of `n`, counted from the right, joined by single commas: the
groups put together are the decimal representation of `n`, the leftmost group has one to
three digits and every other group exactly three, the groups hold digits only, removing the
commas gives back the digits, and the text does not start with a comma; `1234567` gives
"1,234,567", `12345` gives "12,345" and `7` gives "7". -/
theorem formatNumber_thousands (n : Nat) (hn : n < 2 ^ 53) :
    (formatNumber (n : Int)).data = List.intercalate [','] (thousandsGroups n) ∧
    (thousandsGroups n).flatten = (Nat.repr n).data ∧
    (∃ g rest, thousandsGroups n = g :: rest ∧ 1 ≤ g.length ∧ g.length ≤ 3 ∧
      ∀ r ∈ rest, r.length = 3) ∧
    (∀ g ∈ thousandsGroups n, ∀ c ∈ g, c.isDigit = true) ∧
    (formatNumber (n : Int)).data.filter (fun c => c != ',') = (Nat.repr n).data ∧
    (formatNumber (n : Int)).data.head? ≠ some ',' ∧
    formatNumber 1234567 = "1,234,567" ∧ formatNumber 12345 = "12,345" ∧
    formatNumber 7 = "7" := by
  have hrepr : (Nat.repr n).data = Nat.toDigits 10 n := rfl
  have hdata := formatNumber_data_small n hn
  have hdig : ∀ c ∈ Nat.toDigits 10 n, c.isDigit = true := toDigits_allDigits n
  have hnocomma : (Nat.toDigits 10 n).filter (fun c => c != ',') = Nat.toDigits 10 n := by
    rw [List.filter_eq_self]
    intro c hc
    have := hdig c hc
    by_cases hcc : c = ','
    · subst hcc; exact absurd this (by decide)
    · simpa using hcc
  have hex : ∀ (m : Nat) (s : String), m < 2 ^ 53 →
      String.mk (insertSeparators none (Nat.toDigits 10 m)) = s →
      formatNumber (m : Int) = s := by
    intro m s hm hs
    rw [← hs, ← formatNumber_data_small m hm]
  refine ⟨?_, ?_, thousandsGroups_shape n, ?_, ?_, ?_,
    hex 1234567 _ (by norm_num) (by decide), hex 12345 _ (by norm_num) (by decide),
    hex 7 _ (by norm_num) (by decide)⟩
  · rw [hdata, insertSeparators_toDigits]
  · rw [hrepr, thousandsGroups_flatten]
  · intro g hg c hc
    apply hdig
    rw [← thousandsGroups_flatten]
    exact List.mem_flatten.mpr ⟨g, hg, hc⟩
  · rw [hdata, hrepr, insertSeparators_filter, hnocomma]
  · rw [hdata]
    have hpos := toDigits_length_pos n
    cases hds : Nat.toDigits 10 n with
    | nil => rw [hds] at hpos; simp at hpos
    | cons d ds =>
      have hd : isDigitChar d = true := toDigits_allDigits n d (by rw [hds]; simp)
      rw [insertSeparators_cons,
        separatorMatches_none_word d ds (isWordChar_of_isDigitChar d hd)]
      simp only [if_false, Bool.false_eq_true, List.nil_append, List.head?_cons, ne_eq,
        Option.some.injEq]
      intro hcc
      subst hcc
      exact absurd hd (by decide)

theorem formatNumber_thousands_witness :
    (1234567 : Nat) < 2 ^ 53 ∧
    (formatNumber ((1234567 : Nat) : Int)).data =
      List.intercalate [','] (thousandsGroups 1234567) :=
  ⟨by norm_num, (formatNumber_thousands 1234567 (by norm_num)).1⟩

/-! ### utils.throttle -/

theorem throttleInv_init (limit : Nat) : ThrottleInv limit ThrottleState.init := by
  simp [ThrottleInv, ThrottleState.init]

theorem throttleStep_thrown_le (limit : Nat) (s s' : ThrottleState) (e : ThrottleEvent)
    (h : throttleStep limit s e = some s') : s.thrown.length ≤ s'.thrown.length := by
  cases e with
  | call t b =>
    simp only [throttleStep] at h
    split at h
    · simp only [Option.some.injEq] at h
      subst h
      simp only [throttleCall]
      split
      · split
        · simp
        · exact le_rfl
      · exact le_rfl
    · exact absurd h (by simp)
  | expire t =>
    simp only [throttleStep] at h
    split at h
    · exact absurd h (by simp)
    · split at h
      · simp only [Option.some.injEq] at h
        subst h
        exact le_rfl
      · exact absurd h (by simp)

theorem throttleRun_thrown_le (limit : Nat) : ∀ (evs : List ThrottleEvent)
    (s s' : ThrottleState), throttleRun limit s evs = some s' →
    s.thrown.length ≤ s'.thrown.length
  | [], s, s', h => by
    simp only [throttleRun, Option.some.injEq] at h
    subst h
    exact le_rfl
  | e :: es, s, s', h => by
    simp only [throttleRun] at h
    cases hs : throttleStep limit s e with
    | none => rw [hs] at h; exact absurd h (by simp)
    | some s1 =>
      rw [hs] at h
      exact le_trans (throttleStep_thrown_le limit s s1 e hs)
        (throttleRun_thrown_le limit es s1 s' h)

theorem throttleInv_step (limit : Nat) (s s' : ThrottleState) (e : ThrottleEvent)
    (hret : s'.thrown.length ≤ s.thrown.length) (hinv : ThrottleInv limit s)
    (h : throttleStep limit s e = some s') :
    ThrottleInv limit s' := by
  obtain ⟨hp, hc, hf⟩ := hinv
  cases e with
  | call t b =>
    simp only [throttleStep] at h
    split at h
    · rename_i hle
      simp only [Option.some.injEq] at h
      subst h
      cases hflag : s.inThrottle with
      | true =>
        simp only [hflag, if_true] at hf
        simp only [throttleCall, hflag, Bool.not_true, Bool.false_eq_true, if_false]
        refine ⟨hp, fun e he => le_trans (hc e he) hle, ?_⟩
        simp only [hflag, if_true]
        exact hf
      | false =>
        cases b with
        | true =>
          simp [throttleCall, hflag] at hret
        | false =>
          simp only [hflag, Bool.false_eq_true, if_false] at hf
          simp only [throttleCall, hflag, Bool.not_false, if_true, Bool.false_eq_true, if_false]
          refine ⟨?_, ?_, ?_⟩
          · rw [List.pairwise_cons]
            exact ⟨fun b hb => le_trans (hf.2 b hb) hle, hp⟩
          · intro e he
            simp only [List.mem_cons] at he
            rcases he with rfl | he
            · exact le_refl _
            · exact le_trans (hc e he) hle
          · simp [hf.1]
    · exact absurd h (by simp)
  | expire t =>
    simp only [throttleStep] at h
    split at h
    · exact absurd h (by simp)
    · rename_i due rest htm
      split at h
      · rename_i hg
        simp only [Option.some.injEq] at h
        subst h
        cases hflag : s.inThrottle with
        | true =>
          simp only [hflag, if_true] at hf
          obtain ⟨e, r, hex, htimers⟩ := hf
          rw [htm] at htimers
          simp only [List.cons.injEq] at htimers
          obtain ⟨hdue, hrest⟩ := htimers
          refine ⟨hp, fun e he => le_trans (hc e he) hg.1, ?_⟩
          simp only [Bool.false_eq_true, if_false]
          refine ⟨hrest, ?_⟩
          intro x hx
          rw [hex] at hx hp
          simp only [List.mem_cons] at hx
          rcases hx with rfl | hx
          · omega
          · have := (List.pairwise_cons.mp hp).1 x hx
            omega
        | false =>
          simp only [hflag, Bool.false_eq_true, if_false] at hf
          rw [htm] at hf
          exact absurd hf.1 (by simp)
      · exact absurd h (by simp)

theorem throttleInv_run (limit : Nat) : ∀ (evs : List ThrottleEvent) (s s' : ThrottleState),
    s'.thrown.length ≤ s.thrown.length → ThrottleInv limit s →
    throttleRun limit s evs = some s' → ThrottleInv limit s'
  | [], s, s', _, hinv, h => by
    simp only [throttleRun, Option.some.injEq] at h
    subst h
    exact hinv
  | e :: es, s, s', hret, hinv, h => by
    simp only [throttleRun] at h
    cases hs : throttleStep limit s e with
    | none => rw [hs] at h; exact absurd h (by simp)
    | some s1 =>
      rw [hs] at h
      have h1 := throttleStep_thrown_le limit s s1 e hs
      have h2 := throttleRun_thrown_le limit es s1 s' h
      exact throttleInv_run limit es s1 s' (by omega)
        (throttleInv_step limit s s1 e (by omega) hinv hs) h

theorem throttleStep_executions (limit : Nat) (s s' : ThrottleState) (e : ThrottleEvent)
    (h : throttleStep limit s e = some s') : ∃ l, s'.executions = l ++ s.executions := by
  cases e with
  | call t b =>
    simp only [throttleStep] at h
    split at h
    · simp only [Option.some.injEq] at h
      subst h
      simp only [throttleCall]
      split
      · split
        · exact ⟨[t], rfl⟩
        · exact ⟨[t], rfl⟩
      · exact ⟨[], rfl⟩
    · exact absurd h (by simp)
  | expire t =>
    simp only [throttleStep] at h
    split at h
    · exact absurd h (by simp)
    · split at h
      · simp only [Option.some.injEq] at h
        subst h
        exact ⟨[], rfl⟩
      · exact absurd h (by simp)

theorem throttleRun_executions (limit : Nat) : ∀ (evs : List ThrottleEvent)
    (s s' : ThrottleState), throttleRun limit s evs = some s' →
    ∃ l, s'.executions = l ++ s.executions
  | [], s, s', h => by
    simp only [throttleRun, Option.some.injEq] at h
    subst h
    exact ⟨[], rfl⟩
  | e :: es, s, s', h => by
    simp only [throttleRun] at h
    cases hs : throttleStep limit s e with
    | none => rw [hs] at h; exact absurd h (by simp)
    | some s1 =>
      rw [hs] at h
      obtain ⟨l1, h1⟩ := throttleStep_executions limit s s1 e hs
      obtain ⟨l2, h2⟩ := throttleRun_executions limit es s1 s' h
      exact ⟨l2 ++ l1, by rw [h2, h1, List.append_assoc]⟩

/-- C2 (counterexample). With window 100 and a `func` that throws, the calls at times 0 and 1
both apply `func`: the flag is never set, and the two executions are 1 ms apart. -/
theorem throttle_throwing_func_unthrottled :
    throttleRun 100 ThrottleState.init [ThrottleEvent.call 0 true, ThrottleEvent.call 1 true] =
        some { inThrottle := false, timers := [], clock := 1, executions := [1, 0],
               thrown := [1, 0] } ∧
      ¬ [1, 0].Pairwise (fun a b => b + 100 ≤ a) ∧
      ([1, 0].filter (fun e => decide (0 ≤ e ∧ e < 0 + 100))).length = 2 := by
  decide

/-- C2 (amended). For every window `W` and every time-ordered trace of calls and reset-timer
expiries of a wrapper made by `utils.throttle(func, W)`: the first call applies `func` at once
(it is the earliest execution); a call made while `inThrottle` is set changes nothing but the
clock (it is dropped, no timer is queued), while a call with the flag unset applies `func`; and
provided no application of `func` in the trace has thrown, any two executions of `func` are at
least `W` apart, so every interval of length `W` contains at most one. -/
theorem throttle_at_most_once_per_window (W : Nat) (evs : List ThrottleEvent)
    (s : ThrottleState) (h : throttleRun W ThrottleState.init evs = some s) :
    (∀ pre t b post, evs = pre ++ ThrottleEvent.call t b :: post →
      (∀ e ∈ pre, e.isCall = false) →
      throttleRun W ThrottleState.init (pre ++ [ThrottleEvent.call t b]) =
        some { inThrottle := !b, timers := if b then [] else [t + W], clock := t,
               executions := [t], thrown := if b then [t] else [] } ∧
      s.executions.getLast? = some t) ∧
    (∀ t b s', s.inThrottle = true → throttleStep W s (ThrottleEvent.call t b) = some s' →
      s' = { s with clock := t }) ∧
    (∀ t b s', s.inThrottle = false → throttleStep W s (ThrottleEvent.call t b) = some s' →
      s'.executions = t :: s.executions) ∧
    (s.thrown = [] →
      s.executions.Pairwise (fun a b => b + W ≤ a) ∧
      (∀ a, (s.executions.filter (fun e => decide (a ≤ e ∧ e < a + W))).length ≤ 1)) := by
  refine ⟨?_, ?_, ?_, ?_⟩
  · intro pre t b post hevs hpre
    cases pre with
    | nil =>
      subst hevs
      simp only [List.nil_append, throttleRun, throttleStep, ThrottleState.init, Nat.zero_le,
        if_true, Option.bind_some] at h ⊢
      refine ⟨by cases b <;> simp [throttleCall], ?_⟩
      obtain ⟨l, hl⟩ := throttleRun_executions W post _ s h
      rw [hl]
      cases b <;> simp [throttleCall]
    | cons e pre =>
      have he := hpre e (by simp)
      cases e with
      | call t b => simp [ThrottleEvent.isCall] at he
      | expire t =>
        subst hevs
        simp [throttleRun, throttleStep, ThrottleState.init] at h
  · intro t b s' hflag hstep
    simp only [throttleStep] at hstep
    split at hstep
    · simp only [Option.some.injEq] at hstep
      subst hstep
      simp [throttleCall, hflag]
    · exact absurd hstep (by simp)
  · intro t b s' hflag hstep
    simp only [throttleStep] at hstep
    split at hstep
    · simp only [Option.some.injEq] at hstep
      subst hstep
      cases b <;> simp [throttleCall, hflag]
    · exact absurd hstep (by simp)
  · intro hret
    have hinv := throttleInv_run W evs _ s (by simp [hret]) (throttleInv_init W) h
    refine ⟨hinv.1, ?_⟩
    intro a
    have hp := hinv.1
    generalize s.executions = l at hp
    induction l with
    | nil => simp
    | cons x xs ih =>
      rw [List.pairwise_cons] at hp
      simp only [List.filter_cons]
      split
      · rename_i hx
        simp only [decide_eq_true_eq] at hx
        have hnone : xs.filter (fun e => decide (a ≤ e ∧ e < a + W)) = [] := by
          rw [List.filter_eq_nil_iff]
          intro y hy
          have := hp.1 y hy
          simp only [decide_eq_true_eq, not_and, not_lt]
          intro hay
          omega
        rw [hnone]
        simp
      · exact ih hp.2

theorem throttle_at_most_once_per_window_witness :
    throttleRun 100 ThrottleState.init
        [ThrottleEvent.call 0 false, ThrottleEvent.call 50 true, ThrottleEvent.expire 100,
          ThrottleEvent.call 120 false] =
      some { inThrottle := true, timers := [220], clock := 120, executions := [120, 0],
             thrown := [] } ∧
    [120, 0].Pairwise (fun a b => b + 100 ≤ a) :=
  ⟨by decide,
    ((throttle_at_most_once_per_window 100
      [ThrottleEvent.call 0 false, ThrottleEvent.call 50 true, ThrottleEvent.expire 100,
        ThrottleEvent.call 120 false]
      { inThrottle := true, timers := [220], clock := 120, executions := [120, 0],
        thrown := [] }
      (by decide)).2.2.2 rfl).1⟩

/-! ### utils.debounce -/

theorem burstEnds_snoc {α : Type} (wait : Nat) : ∀ (cs : List (Nat × α)) (c : Nat × α),
    ∃ l, burstEnds wait (cs ++ [c]) = l ++ [c] ∧
      ∀ c' : Nat × α, burstEnds wait (cs ++ [c] ++ [c']) =
        if c'.1 < c.1 + wait then l ++ [c'] else l ++ [c, c']
  | [], c => by
    refine ⟨[], by simp [burstEnds], ?_⟩
    intro c'
    by_cases h : c'.1 < c.1 + wait <;> simp [burstEnds, h]
  | [d], c => by
    obtain ⟨l, hl, hl'⟩ := burstEnds_snoc wait [] c
    simp only [List.nil_append] at hl hl'
    by_cases h : c.1 < d.1 + wait
    · refine ⟨l, by simp [burstEnds, h] at hl ⊢; exact hl, ?_⟩
      intro c'
      have := hl' c'
      simp only [List.cons_append, List.nil_append] at this ⊢
      rw [burstEnds, if_pos h, this]
    · refine ⟨d :: l, by simp [burstEnds, h] at hl ⊢; exact hl, ?_⟩
      intro c'
      have := hl' c'
      simp only [List.cons_append, List.nil_append] at this ⊢
      rw [burstEnds, if_neg h, this]
      split <;> rfl
  | d :: d' :: cs, c => by
    obtain ⟨l, hl, hl'⟩ := burstEnds_snoc wait (d' :: cs) c
    by_cases h : d'.1 < d.1 + wait
    · refine ⟨l, ?_, ?_⟩
      · simp only [List.cons_append] at hl ⊢
        rw [burstEnds, if_pos h, hl]
      · intro c'
        have := hl' c'
        simp only [List.cons_append, List.append_assoc] at this ⊢
        rw [burstEnds, if_pos h, this]
    · refine ⟨d :: l, ?_, ?_⟩
      · simp only [List.cons_append] at hl ⊢
        rw [burstEnds, if_neg h, hl]
      · intro c'
        have := hl' c'
        simp only [List.cons_append, List.append_assoc] at this ⊢
        rw [burstEnds, if_neg h, this]
        split <;> rfl

theorem debounceInv_init {α : Type} (wait : Nat) :
    DebounceInv wait ([] : List (Nat × α)) DebounceState.init := by
  left
  simp [DebounceState.init, burstEnds]

theorem debounceInv_step {α : Type} (wait : Nat) (calls : List (Nat × α))
    (s s' : DebounceState α) (e : DebounceEvent α) (hinv : DebounceInv wait calls s)
    (hon : debounceOnTime s e = true)
    (h : debounceStep wait s e = some s') : DebounceInv wait (calls ++ e.calls) s' := by
  cases e with
  | call t a =>
    simp only [debounceStep] at h
    simp only [debounceOnTime] at hon
    split at h
    · rename_i hg
      simp only [Option.some.injEq] at h
      subst h
      right
      rcases hinv with ⟨htm, hex, hlast⟩ | ⟨cs, c, id, hcalls, htm, hto, hclk, hex⟩
      · refine ⟨calls, (t, a), s.nextId, rfl, ?_, rfl, rfl, ?_⟩
        · simp [debounceCall, htm, clearTimeout]
        · simp only [debounceCall, DebounceEvent.calls]
          rcases List.eq_nil_or_concat calls with hnil | ⟨cs, c, hc⟩
          · subst hnil
            rw [hex]
            simp [burstEnds]
          · rw [List.concat_eq_append] at hc
            subst hc
            obtain ⟨l, hl, hl'⟩ := burstEnds_snoc wait cs c
            have hge := hlast c (by simp)
            have hnot : ¬ (t < c.1 + wait) := by omega
            rw [hex, hl' (t, a), if_neg hnot, hl]
            simp
      · refine ⟨calls, (t, a), s.nextId, rfl, ?_, rfl, rfl, ?_⟩
        · simp [debounceCall, htm, hto, clearTimeout]
        · simp only [debounceCall, DebounceEvent.calls]
          subst hcalls
          obtain ⟨l, hl, hl'⟩ := burstEnds_snoc wait cs c
          have hlt : t < c.1 + wait := by
            have := hon
            rw [htm] at this
            simpa using this
          rw [hl' (t, a), if_pos hlt]
          rw [hl] at hex
          simp only [List.map_append, List.map_cons, List.map_nil] at hex ⊢
          rw [List.append_cancel_right hex]
    · exact absurd h (by simp)
  | expire t =>
    simp only [debounceStep] at h
    simp only [debounceOnTime] at hon
    split at h
    · exact absurd h (by simp)
    · rename_i tm rest htimers
      rw [htimers] at hon
      simp only [decide_eq_true_eq] at hon
      subst hon
      split at h
      · simp only [Option.some.injEq] at h
        subst h
        rcases hinv with ⟨htm, _, _⟩ | ⟨cs, c, id, hcalls, htm, hto, hclk, hex⟩
        · rw [htm] at htimers
          exact absurd htimers (by simp)
        · rw [htm] at htimers
          simp only [List.cons.injEq] at htimers
          obtain ⟨htm1, hrest⟩ := htimers
          subst htm1
          subst hrest
          left
          simp only [DebounceEvent.calls, List.append_nil]
          refine ⟨by simp [debounceLater, clearTimeout], ?_, ?_⟩
          · simp only [debounceLater, List.reverse_cons]
            exact hex
          · intro d hd
            subst hcalls
            have hl : (cs ++ [c]).getLast? = some c := by simp
            rw [hl] at hd
            simp only [Option.mem_def, Option.some.injEq] at hd
            subst hd
            simp [debounceLater]
      · exact absurd h (by simp)

theorem debounceCalls_cons {α : Type} (e : DebounceEvent α) (es : List (DebounceEvent α)) :
    debounceCalls (e :: es) = e.calls ++ debounceCalls es := by
  cases e <;> simp [debounceCalls, DebounceEvent.calls]

theorem debounceInv_run {α : Type} (wait : Nat) : ∀ (evs : List (DebounceEvent α))
    (calls : List (Nat × α)) (s s' : DebounceState α), DebounceInv wait calls s →
    debouncePunctual wait s evs = true →
    debounceRun wait s evs = some s' → DebounceInv wait (calls ++ debounceCalls evs) s'
  | [], calls, s, s', hinv, _, h => by
    simp only [debounceRun, Option.some.injEq] at h
    subst h
    simpa [debounceCalls] using hinv
  | e :: es, calls, s, s', hinv, hp, h => by
    simp only [debounceRun] at h
    cases hs : debounceStep wait s e with
    | none => rw [hs] at h; exact absurd h (by simp)
    | some s1 =>
      rw [hs] at h
      simp only [debouncePunctual, hs, Bool.and_eq_true] at hp
      have := debounceInv_run wait es _ s1 s'
        (debounceInv_step wait calls s s1 e hinv hp.1 hs) hp.2 h
      rw [debounceCalls_cons, ← List.append_assoc]
      exact this

theorem debounceStep_executions {α : Type} (wait : Nat) (s s' : DebounceState α)
    (e : DebounceEvent α) (h : debounceStep wait s e = some s') :
    ∃ l, s'.executions = l ++ s.executions := by
  cases e with
  | call t a =>
    simp only [debounceStep] at h
    split at h
    · simp only [Option.some.injEq] at h
      subst h
      exact ⟨[], rfl⟩
    · exact absurd h (by simp)
  | expire t =>
    simp only [debounceStep] at h
    split at h
    · exact absurd h (by simp)
    · rename_i tm rest _
      split at h
      · simp only [Option.some.injEq] at h
        subst h
        exact ⟨[(t, tm.args)], rfl⟩
      · exact absurd h (by simp)

theorem debounceRun_executions {α : Type} (wait : Nat) : ∀ (evs : List (DebounceEvent α))
    (s s' : DebounceState α), debounceRun wait s evs = some s' →
    ∃ l, s'.executions = l ++ s.executions
  | [], s, s', h => by
    simp only [debounceRun, Option.some.injEq] at h
    subst h
    exact ⟨[], rfl⟩
  | e :: es, s, s', h => by
    simp only [debounceRun] at h
    cases hs : debounceStep wait s e with
    | none => rw [hs] at h; exact absurd h (by simp)
    | some s1 =>
      rw [hs] at h
      obtain ⟨l1, h1⟩ := debounceStep_executions wait s s1 e hs
      obtain ⟨l2, h2⟩ := debounceRun_executions wait es s1 s' h
      exact ⟨l2 ++ l1, by rw [h2, h1, List.append_assoc]⟩

theorem debounceRun_append {α : Type} (wait : Nat) : ∀ (evs more : List (DebounceEvent α))
    (s s1 s2 : DebounceState α), debounceRun wait s evs = some s1 →
    debounceRun wait s1 more = some s2 → debounceRun wait s (evs ++ more) = some s2
  | [], more, s, s1, s2, h1, h2 => by
    simp only [debounceRun, Option.some.injEq] at h1
    subst h1
    simpa using h2
  | e :: es, more, s, s1, s2, h1, h2 => by
    rw [List.cons_append]
    simp only [debounceRun] at h1 ⊢
    cases hs : debounceStep wait s e with
    | none => rw [hs] at h1; exact absurd h1 (by simp)
    | some s' =>
      rw [hs] at h1
      exact debounceRun_append wait es more s' s1 s2 h1 h2

theorem debounceInv_pending {α : Type} (wait : Nat) (calls : List (Nat × α))
    (s : DebounceState α) (hinv : DebounceInv wait calls s) :
    s.executions.reverse ++ s.timers.map (fun tm => (tm.due, tm.args)) =
      (burstEnds wait calls).map (burstExecution wait) ∧ s.timers.length ≤ 1 := by
  rcases hinv with ⟨htm, hex, _⟩ | ⟨cs, c, id, _, htm, _, _, hex⟩
  · simp [htm, hex]
  · rw [htm, ← hex]
    simp [burstExecution]

theorem debouncePunctual_append {α : Type} (wait : Nat) : ∀ (evs more : List (DebounceEvent α))
    (s s1 : DebounceState α), debounceRun wait s evs = some s1 →
    debouncePunctual wait s evs = true → debouncePunctual wait s1 more = true →
    debouncePunctual wait s (evs ++ more) = true
  | [], more, s, s1, h1, _, h3 => by
    simp only [debounceRun, Option.some.injEq] at h1
    subst h1
    simpa using h3
  | e :: es, more, s, s1, h1, h2, h3 => by
    rw [List.cons_append]
    simp only [debounceRun] at h1
    cases hs : debounceStep wait s e with
    | none => rw [hs] at h1; exact absurd h1 (by simp)
    | some s' =>
      rw [hs] at h1
      simp only [debouncePunctual, hs, Bool.and_eq_true] at h2 ⊢
      exact ⟨h2.1, debouncePunctual_append wait es more s' s1 h1 h2.2 h3⟩

/-- C3 (counterexample). With wait 10: a call made at time 10, when the timer of the call at
time 0 is due but its callback has not run yet, cancels that timer, so the burst of the first
call is never executed; and a timer callback that the event loop runs late executes `func` more
than 10 after the last call. -/
theorem debounce_burst_lost :
    debounceRun 10 DebounceState.init
        [DebounceEvent.call 0 "a", DebounceEvent.call 10 "b", DebounceEvent.expire 20] =
      some { timeout := some 1, timers := [], nextId := 2, clock := 20,
             executions := [(20, "b")] } ∧
    (burstEnds 10 [(0, "a"), (10, "b")]).map (fun c => (c.1 + 10, c.2)) =
      [(10, "a"), (20, "b")] ∧
    debounceRun 10 DebounceState.init [DebounceEvent.call 0 "a", DebounceEvent.expire 15] =
      some { timeout := some 0, timers := [], nextId := 1, clock := 15,
             executions := [(15, "a")] } := by
  decide

/-- C3 (amended). For every wait `D` and every time-ordered trace of calls and timer expiries of
a wrapper made by `utils.debounce(func, D)` in which every event comes on time (each timer
callback runs exactly at its due time, and before any call made at or after that time): the
executions of `func`, followed by the execution still pending on the timer, are exactly one per
burst, in order, each `D` after the last call of its burst and with that call's arguments; at
most one timer is ever pending; and an execution that has happened stays the execution of a
whole burst however the trace continues on time, so `func` never runs while a later call of the
same burst is still to come. -/
theorem debounce_once_per_burst {α : Type} (D : Nat) (evs : List (DebounceEvent α))
    (s : DebounceState α) (h : debounceRun D DebounceState.init evs = some s)
    (hp : debouncePunctual D DebounceState.init evs = true) :
    s.executions.reverse ++ s.timers.map (fun tm => (tm.due, tm.args)) =
      (burstEnds D (debounceCalls evs)).map (fun c => (c.1 + D, c.2)) ∧
    s.timers.length ≤ 1 ∧
    (s.timers = [] →
      s.executions.reverse = (burstEnds D (debounceCalls evs)).map (fun c => (c.1 + D, c.2))) ∧
    (∀ more s', debounceRun D s more = some s' → debouncePunctual D s more = true →
      s.executions.reverse <+:
        (burstEnds D (debounceCalls (evs ++ more))).map (fun c => (c.1 + D, c.2))) := by
  have hinv := debounceInv_run D evs [] _ s (debounceInv_init D) hp h
  simp only [List.nil_append] at hinv
  have hpd := debounceInv_pending D _ s hinv
  refine ⟨hpd.1, hpd.2, ?_, ?_⟩
  · intro hnil
    have := hpd.1
    rw [hnil] at this
    simpa using this
  · intro more s' hmore hpm
    have hall := debounceRun_append D evs more _ s s' h hmore
    have hpall := debouncePunctual_append D evs more _ s h hp hpm
    have hinv' := debounceInv_run D (evs ++ more) [] _ s' (debounceInv_init D) hpall hall
    simp only [List.nil_append] at hinv'
    have hp' := (debounceInv_pending D _ s' hinv').1
    obtain ⟨l, hl⟩ := debounceRun_executions D more s s' hmore
    have : (burstEnds D (debounceCalls (evs ++ more))).map (fun c => (c.1 + D, c.2)) =
        s.executions.reverse ++
          (l.reverse ++ s'.timers.map (fun tm => (tm.due, tm.args))) := by
      have e : (fun c : Nat × α => (c.1 + D, c.2)) = burstExecution D := rfl
      rw [e, ← hp', hl]
      simp
    rw [this]
    exact List.prefix_append _ _

theorem debounce_once_per_burst_witness :
    debounceRun 10 DebounceState.init
        [DebounceEvent.call 0 "a", DebounceEvent.call 5 "b", DebounceEvent.call 14 "c",
          DebounceEvent.expire 24, DebounceEvent.call 24 "d", DebounceEvent.call 30 "e",
          DebounceEvent.expire 40] =
      some { timeout := some 4, timers := [], nextId := 5, clock := 40,
             executions := [(40, "e"), (24, "c")] } ∧
    debouncePunctual 10 DebounceState.init
        [DebounceEvent.call 0 "a", DebounceEvent.call 5 "b", DebounceEvent.call 14 "c",
          DebounceEvent.expire 24, DebounceEvent.call 24 "d", DebounceEvent.call 30 "e",
          DebounceEvent.expire 40] = true ∧
    [(24, "c"), (40, "e")] =
      (burstEnds 10 [(0, "a"), (5, "b"), (14, "c"), (24, "d"), (30, "e")]).map
        (fun c => (c.1 + 10, c.2)) :=
  ⟨by decide, by decide,
    (debounce_once_per_burst 10
      [DebounceEvent.call 0 "a", DebounceEvent.call 5 "b", DebounceEvent.call 14 "c",
        DebounceEvent.expire 24, DebounceEvent.call 24 "d", DebounceEvent.call 30 "e",
        DebounceEvent.expire 40]
      { timeout := some 4, timers := [], nextId := 5, clock := 40,
        executions := [(40, "e"), (24, "c")] }
      (by decide) (by decide)).2.2.1 rfl⟩

/-! ### faq.handleToggle -/

theorem faqClick_length (items : List FaqItem) (i : Nat) :
    (faqClick items i).length = items.length := by
  unfold faqClick
  split
  · rfl
  · dsimp only
    split <;> simp

theorem faqClick_getElem? (items : List FaqItem) (i : Nat) (item : FaqItem)
    (hi : items[i]? = some item) (j : Nat) :
    (faqClick items i)[j]? =
      if j < items.length then
        (if j = i then (if item.active then some item.collapse else some item.expand)
         else some { active := false, icon := "+" })
      else none := by
  have hlt : i < items.length := by
    rcases Nat.lt_or_ge i items.length with h | h
    · exact h
    · rw [List.getElem?_eq_none h] at hi
      exact absurd hi (by simp)
  unfold faqClick
  rw [hi]
  dsimp only
  by_cases hj : j < items.length
  · rw [if_pos hj]
    by_cases hji : j = i
    · subst hji
      split <;> simp [List.getElem?_set, hj]
    · have hij : ¬ i = j := fun h => hji h.symm
      split <;>
        simp [List.getElem?_set, hij, hji, List.getElem?_mapIdx, List.getElem?_eq_getElem hj,
          FaqItem.collapse]
  · rw [if_neg hj]
    split <;>
      exact List.getElem?_eq_none (by simp only [List.length_set, List.length_mapIdx]; omega)

theorem faqClick_collapsed (items : List FaqItem) (i : Nat) (item : FaqItem)
    (hi : items[i]? = some item) (hc : item.active = false) :
    faqClick items i = (List.range items.length).map
      (fun j => if j = i then { active := true, icon := "−" }
        else ({ active := false, icon := "+" } : FaqItem)) := by
  apply List.ext_getElem?
  intro j
  rw [faqClick_getElem? items i item hi j, List.getElem?_map]
  by_cases hj : j < items.length
  · rw [List.getElem?_range hj]
    by_cases hji : j = i
    · subst hji
      simp [hj, hc, FaqItem.expand]
    · simp [hj, hji]
  · rw [List.getElem?_eq_none (by simp only [List.length_range]; omega)]
    simp [hj]

theorem faqClick_expanded (items : List FaqItem) (i : Nat) (item : FaqItem)
    (hi : items[i]? = some item) (ha : item.active = true) :
    faqClick items i = List.replicate items.length { active := false, icon := "+" } := by
  apply List.ext_getElem?
  intro j
  rw [faqClick_getElem? items i item hi j, List.getElem?_replicate]
  by_cases hj : j < items.length
  · by_cases hji : j = i
    · subst hji
      simp [hj, ha, FaqItem.collapse]
    · simp [hj, hji]
  · simp [hj]

theorem expandedCount_replicate (n : Nat) :
    expandedCount (List.replicate n { active := false, icon := "+" }) = 0 := by
  simp [expandedCount, List.countP_eq_zero]

theorem expandedCount_single (n i : Nat) :
    expandedCount ((List.range n).map
      (fun j => if j = i then { active := true, icon := "−" }
        else ({ active := false, icon := "+" } : FaqItem))) ≤ 1 := by
  unfold expandedCount
  rw [List.countP_map]
  have : (List.range n).countP ((fun item : FaqItem => item.active) ∘
      (fun j => if j = i then { active := true, icon := "−" }
        else ({ active := false, icon := "+" } : FaqItem))) =
      (List.range n).count i := by
    rw [List.count]
    apply List.countP_congr
    intro j _
    by_cases hji : j = i <;> simp [hji]
  rw [this]
  exact List.nodup_iff_count_le_one.mp (List.nodup_range n) i

theorem faqClick_expandedCount (items : List FaqItem) (i : Nat) (hi : i < items.length) :
    expandedCount (faqClick items i) ≤ 1 := by
  have hget : items[i]? = some items[i] := List.getElem?_eq_getElem hi
  cases ha : items[i].active with
  | true =>
    rw [faqClick_expanded items i _ hget ha, expandedCount_replicate]
    exact Nat.zero_le 1
  | false =>
    rw [faqClick_collapsed items i _ hget ha]
    exact expandedCount_single _ _

theorem faqClicks_length (clicks : List Nat) : ∀ (items : List FaqItem),
    (clicks.foldl faqClick items).length = items.length := by
  induction clicks with
  | nil => intro items; rfl
  | cons c cs ih =>
    intro items
    rw [List.foldl_cons, ih, faqClick_length]

/-- C4. FAQ accordion invariant: from every initial state of the items (any number of answers
expanded) and for every sequence of clicks on questions of existing items, after the last click
of the sequence, hence after each click, at most one answer is expanded. -/
theorem faq_at_most_one_expanded (items : List FaqItem) (clicks : List Nat) (last : Nat)
    (hlast : last < items.length) :
    expandedCount ((clicks ++ [last]).foldl faqClick items) ≤ 1 := by
  rw [List.foldl_append, List.foldl_cons, List.foldl_nil]
  exact faqClick_expandedCount _ _ (by rw [faqClicks_length]; exact hlast)

theorem faq_at_most_one_expanded_witness :
    expandedCount
      (([0, 2] ++ [1]).foldl faqClick
        [{ active := true, icon := "−" }, { active := true, icon := "−" },
          { active := true, icon := "−" }]) ≤ 1 :=
  faq_at_most_one_expanded
    [{ active := true, icon := "−" }, { active := true, icon := "−" },
      { active := true, icon := "−" }] [0, 2] 1 (by decide)

/-- C5. Clicking the question of an item `i` whose answer is collapsed leaves item `i` expanded
with indicator "−" and every other item collapsed with indicator "+"; with three items,
expanding the second and then the third leaves the second collapsed ("+") and the third
expanded ("−"). -/
theorem faq_click_collapsed (items : List FaqItem) (i : Nat) (item : FaqItem)
    (hi : items[i]? = some item) (hc : item.active = false) :
    faqClick items i = (List.range items.length).map
      (fun j => if j = i then { active := true, icon := "−" }
        else ({ active := false, icon := "+" } : FaqItem)) ∧
    (∀ a b c : FaqItem, b.active = false →
      faqClick [a, b, c] 1 =
        [{ active := false, icon := "+" }, { active := true, icon := "−" },
          { active := false, icon := "+" }] ∧
      faqClick (faqClick [a, b, c] 1) 2 =
        [{ active := false, icon := "+" }, { active := false, icon := "+" },
          { active := true, icon := "−" }]) := by
  refine ⟨faqClick_collapsed items i item hi hc, ?_⟩
  intro a b c hb
  have h1 : faqClick [a, b, c] 1 =
      [{ active := false, icon := "+" }, { active := true, icon := "−" },
        { active := false, icon := "+" }] := by
    rw [faqClick_collapsed [a, b, c] 1 b rfl hb]
    rfl
  refine ⟨h1, ?_⟩
  rw [h1]
  rfl

theorem faq_click_collapsed_witness :
    faqClick [{ active := true, icon := "−" }, { active := false, icon := "+" },
        { active := true, icon := "−" }] 1 =
      (List.range 3).map
        (fun j => if j = 1 then { active := true, icon := "−" }
          else ({ active := false, icon := "+" } : FaqItem)) :=
  (faq_click_collapsed
    [{ active := true, icon := "−" }, { active := false, icon := "+" },
      { active := true, icon := "−" }] 1 { active := false, icon := "+" } rfl rfl).1

/-- C6. Clicking the question of an item whose answer is expanded closes it and opens nothing:
afterwards every item is collapsed with indicator "+", so no answer is expanded. -/
theorem faq_click_expanded (items : List FaqItem) (i : Nat) (item : FaqItem)
    (hi : items[i]? = some item) (ha : item.active = true) :
    faqClick items i = List.replicate items.length { active := false, icon := "+" } ∧
    (∀ x ∈ faqClick items i, x.active = false ∧ x.icon = "+") ∧
    expandedCount (faqClick items i) = 0 := by
  have h := faqClick_expanded items i item hi ha
  refine ⟨h, ?_, ?_⟩
  · intro x hx
    rw [h] at hx
    rw [List.eq_of_mem_replicate hx]
    exact ⟨rfl, rfl⟩
  · rw [h, expandedCount_replicate]

theorem faq_click_expanded_witness :
    faqClick [{ active := false, icon := "+" }, { active := true, icon := "−" },
        { active := true, icon := "−" }] 1 =
      List.replicate 3 { active := false, icon := "+" } :=
  (faq_click_expanded
    [{ active := false, icon := "+" }, { active := true, icon := "−" },
      { active := true, icon := "−" }] 1 { active := true, icon := "−" } rfl rfl).1

/-! ### animations.animateStats -/

theorem jsMod1_ne_zero_iff (x : ℚ) : jsMod1 x ≠ 0 ↔ Int.fract x ≠ 0 := by
  unfold jsMod1
  by_cases h : 0 ≤ x
  · simp only [h, if_true]
    rfl
  · simp only [h, if_false, ne_eq, sub_eq_zero]
    apply not_congr
    constructor
    · intro hx
      rw [hx]
      exact Int.fract_intCast _
    · intro hfr
      have hx : x = (Int.floor x : ℚ) := by
        have := Int.fract_add_floor x
        rw [hfr, zero_add] at this
        exact this.symm
      rw [hx, Int.ceil_intCast]

theorem statTick_stopped (T : JsNumber) (s : StatState) (h : s.running = false) :
    statTick T s = s := by
  simp [statTick, h]

theorem statRun_stopped_add (T : JsNumber) (txt : String) (n : Nat)
    (h : (statRun T txt n).running = false) :
    ∀ k, statRun T txt (n + k) = statRun T txt n
  | 0 => rfl
  | k + 1 => by
    have ih := statRun_stopped_add T txt n h k
    rw [← Nat.add_assoc, statRun, ih, statTick_stopped T _ h]

theorem divPos_fin_eq (d t : ℚ) :
    JsNumber.divPos d (JsNumber.fin t) = JsNumber.ofRat (t / d) := rfl

theorem ofRat_of_toNumber (x y : ℚ) (h : toNumber x = some y) :
    JsNumber.ofRat x = JsNumber.fin y := by
  unfold JsNumber.ofRat
  rw [h]

theorem divPos_fin (t : ℚ) (ht : IsNumber t) :
    JsNumber.divPos (2000 / 16) (JsNumber.fin t) = JsNumber.fin (roundToNumber (t / 125)) := by
  have e : (2000 : ℚ) / 16 = 125 := by norm_num
  have hto : toNumber (t / 125) = some (roundToNumber (t / 125)) := by
    rcases le_total 0 t with h | h
    · exact toNumber_of_between _ 0 t isNumber_zero ht (by positivity) (by linarith)
    · exact toNumber_of_between _ t 0 ht isNumber_zero (by linarith) (by linarith)
  rw [divPos_fin_eq, e, ofRat_of_toNumber _ _ hto]

theorem ge_ofRat_of_le (x t : ℚ) (ht : IsNumber t) (h : t ≤ x) :
    JsNumber.ge (JsNumber.ofRat x) (JsNumber.fin t) = true := by
  have hr := roundToNumber_ge_of_isNumber x t ht h
  unfold JsNumber.ofRat toNumber
  split_ifs with hfin
  · simp only [JsNumber.ge, decide_eq_true_eq]
    exact hr
  · have hx : ¬ (x < 0) := by
      intro hneg
      have h0 := roundToNumber_le_of_isNumber x 0 isNumber_zero hneg.le
      have ht' := abs_lt.mp (isNumber_abs_lt t ht)
      apply hfin
      rw [abs_lt]
      constructor
      · linarith
      · have : (0 : ℚ) < (2 : ℚ) ^ (1024 : ℕ) := by positivity
        linarith
    simp [JsNumber.ge, hx]

theorem ofRat_of_ge_false (x t : ℚ) (hx : 0 ≤ x)
    (h : JsNumber.ge (JsNumber.ofRat x) (JsNumber.fin t) = false) :
    JsNumber.ofRat x = JsNumber.fin (roundToNumber x) ∧ roundToNumber x < t := by
  unfold JsNumber.ofRat toNumber at h ⊢
  split_ifs at h ⊢ with hfin
  · simp only [JsNumber.ge, decide_eq_false_iff_not, not_le] at h
    exact ⟨rfl, h⟩
  · have hx' : ¬ (x < 0) := not_lt.mpr hx
    simp [JsNumber.ge, hx'] at h

theorem statTick_running (t c : ℚ) (ht : IsNumber t) (s : StatState) (hr : s.running = true)
    (hc : s.current = JsNumber.fin c) :
    statTick (JsNumber.fin t) s =
      if JsNumber.ge (JsNumber.ofRat (c + roundToNumber (t / 125))) (JsNumber.fin t) then
        { current := JsNumber.fin t, running := false,
          text := statText (JsNumber.fin t) (JsNumber.fin t) }
      else
        { current := JsNumber.ofRat (c + roundToNumber (t / 125)), running := true,
          text := statText (JsNumber.fin t) (JsNumber.ofRat (c + roundToNumber (t / 125))) } := by
  simp only [statTick, hr, if_true, divPos_fin t ht, hc, JsNumber.add]

theorem statRun_nonpos (t : ℚ) (ht : IsNumber t) (h0 : t ≤ 0) (txt : String) :
    statRun (JsNumber.fin t) txt 1 =
      { current := JsNumber.fin t, running := false,
        text := statText (JsNumber.fin t) (JsNumber.fin t) } := by
  have hs : t ≤ roundToNumber (t / 125) :=
    roundToNumber_ge_of_isNumber _ t ht (by linarith)
  rw [statRun, statRun, statTick_running t 0 ht _ rfl rfl,
    if_pos (ge_ofRat_of_le _ t ht (by linarith))]

/-- While the counter of a normal positive target is running, each tick adds at least one
spacing `2 ^ ulpExponent t` to `current`. -/
theorem statRun_invariant (t : ℚ) (ht : IsNumber t) (hn : (2 : ℚ) ^ (-1022 : ℤ) ≤ t)
    (txt : String) : ∀ k : Nat,
    ((statRun (JsNumber.fin t) txt k).running = true ∧
      ∃ c, (statRun (JsNumber.fin t) txt k).current = JsNumber.fin c ∧
        (k : ℚ) * (2 : ℚ) ^ ulpExponent t ≤ c ∧ c < t ∧ 0 ≤ c) ∨
    statRun (JsNumber.fin t) txt k =
      { current := JsNumber.fin t, running := false,
        text := statText (JsNumber.fin t) (JsNumber.fin t) }
  | 0 => by
    left
    have hpos : 0 < t := lt_of_lt_of_le (zpow_pos (by norm_num) _) hn
    exact ⟨rfl, 0, rfl, by simp, hpos, le_rfl⟩
  | k + 1 => by
    obtain ⟨he1, he2, hlo, hhi⟩ := ulpExponent_normal t ht hn
    have hu : (0 : ℚ) < (2 : ℚ) ^ ulpExponent t := zpow_pos (by norm_num) _
    have hpos : 0 < t := lt_of_lt_of_le (zpow_pos (by norm_num) _) hn
    rcases statRun_invariant t ht hn txt k with ⟨hr, c, hc, hkc, hct, hc0⟩ | hstop
    · -- the increment is at least one spacing
      have hstep : (2 : ℚ) ^ ulpExponent t ≤ roundToNumber (t / 125) := by
        apply roundToNumber_ge_of_isNumber
        · have := isNumber_natCast_mul_zpow 1 (ulpExponent t) (by norm_num) he1 he2
          simpa using this
        · rw [le_div_iff₀ (by norm_num)]
          have : (2 : ℚ) ^ (52 : ℕ) = 125 * ((2 : ℚ) ^ (52 : ℕ) / 125) := by norm_num
          nlinarith
      have hsum0 : 0 ≤ c + roundToNumber (t / 125) := by linarith
      rw [statRun, statTick_running t c ht _ hr hc]
      by_cases hge : JsNumber.ge (JsNumber.ofRat (c + roundToNumber (t / 125)))
          (JsNumber.fin t) = true
      · right
        rw [if_pos hge]
      · left
        rw [if_neg hge]
        obtain ⟨hfin, hlt⟩ := ofRat_of_ge_false _ t hsum0 (by simpa using hge)
        refine ⟨rfl, roundToNumber (c + roundToNumber (t / 125)), hfin, ?_, hlt, ?_⟩
        · by_cases hk : ((k + 1 : ℕ) : ℚ) * (2 : ℚ) ^ ulpExponent t ≤ t
          · apply roundToNumber_ge_of_isNumber
            · apply isNumber_natCast_mul_zpow (k + 1) (ulpExponent t) _ he1 he2
              have h1 : ((k + 1 : ℕ) : ℚ) * (2 : ℚ) ^ ulpExponent t <
                  (2 : ℚ) ^ ulpExponent t * (2 : ℚ) ^ (53 : ℕ) := lt_of_le_of_lt hk hhi
              have h2 : ((k + 1 : ℕ) : ℚ) < (2 : ℚ) ^ (53 : ℕ) := by
                rw [mul_comm] at h1
                exact lt_of_mul_lt_mul_left h1 hu.le
              exact_mod_cast h2
            · push_cast
              linarith
          · exfalso
            have hle : t ≤ c + roundToNumber (t / 125) := by
              push_cast at hk hkc
              linarith
            have := roundToNumber_ge_of_isNumber _ t ht hle
            linarith
        · exact roundToNumber_ge_of_isNumber _ 0 isNumber_zero hsum0
    · right
      rw [statRun, hstop, statTick_stopped]
      rfl

theorem statRun_stops (t : ℚ) (ht : IsNumber t) (hstep : t ≤ 0 ∨ (2 : ℚ) ^ (-1022 : ℤ) ≤ t)
    (txt : String) :
    ∃ n, ∀ k, statRun (JsNumber.fin t) txt (n + k) =
      { current := JsNumber.fin t, running := false,
        text := statText (JsNumber.fin t) (JsNumber.fin t) } := by
  rcases hstep with h0 | hn
  · refine ⟨1, fun k => ?_⟩
    have h1 := statRun_nonpos t ht h0 txt
    rw [statRun_stopped_add _ txt 1 (by rw [h1]) k, h1]
  · have hu : (0 : ℚ) < (2 : ℚ) ^ ulpExponent t := zpow_pos (by norm_num) _
    obtain ⟨N, hN⟩ := exists_nat_ge (t / (2 : ℚ) ^ ulpExponent t)
    have hNt : t ≤ (N : ℚ) * (2 : ℚ) ^ ulpExponent t := (div_le_iff₀ hu).mp hN
    refine ⟨N, fun k => ?_⟩
    rcases statRun_invariant t ht hn txt N with ⟨_, c, _, hkc, hct, _⟩ | hstop
    · linarith
    · rw [statRun_stopped_add _ txt N (by rw [hstop]) k, hstop]

theorem numberToString_small (z : ℤ) (hz : z.natAbs < 2 ^ 53) :
    numberToString z = (if z < 0 then ['-'] else []) ++ Nat.toDigits 10 z.natAbs := by
  unfold numberToString
  congr 1
  by_cases h0 : z = 0
  · subst h0
    rfl
  · rw [if_neg h0]
    have hpos : 0 < z.natAbs := Int.natAbs_pos.mpr h0
    rw [toNumber_of_isNumber _ (isNumber_natCast z.natAbs hz.le)]
    simp only [Int.floor_natCast, Int.toNat_ofNat]
    exact positiveIntegerToString_small z.natAbs hz hpos

theorem toFixed1_data (x : ℚ) :
    ∃ n : ℕ, |(n : ℚ) / 10 - (|x|)| ≤ 1 / 20 ∧
      (toFixed1 x).data =
        (if x < 0 then ['-'] else []) ++ Nat.toDigits 10 (n / 10) ++
          ['.', Nat.digitChar (n % 10)] := by
  have hnn : 0 ≤ Int.floor (|x| * 10 + 1 / 2) :=
    Int.floor_nonneg.mpr (by positivity)
  obtain ⟨n, hn⟩ : ∃ n : ℕ, (n : ℤ) = Int.floor (|x| * 10 + 1 / 2) :=
    ⟨_, Int.toNat_of_nonneg hnn⟩
  have hn' : (Int.floor (|x| * 10 + 1 / 2)).toNat = n := by
    rw [← hn]
    rfl
  have h1 : ((n : ℤ) : ℚ) ≤ |x| * 10 + 1 / 2 := by
    rw [hn]
    exact Int.floor_le _
  have h2 : |x| * 10 + 1 / 2 < ((n : ℤ) : ℚ) + 1 := by
    rw [hn]
    exact Int.lt_floor_add_one _
  push_cast at h1 h2
  refine ⟨n, ?_, ?_⟩
  · rw [abs_le]
    constructor <;> linarith
  · simp only [toFixed1, hn']
    rcases Nat.lt_or_ge n 10 with hlt | hge
    · have hdiv : n / 10 = 0 := by omega
      have hmod : n % 10 = n := Nat.mod_eq_of_lt hlt
      rw [toDigits_lt_ten n hlt, hdiv, hmod]
      simp
      rfl
    · have hstep := toDigits_step n hge
      have hlen : ¬ ((Nat.toDigits 10 n).length ≤ 1) := by
        have := toDigits_length_pos (n / 10)
        rw [hstep, List.length_append]
        simp only [List.length_singleton]
        omega
      rw [if_neg hlen, hstep]
      simp

theorem statText_large (t : ℚ) (h : 1000 ≤ t) :
    statText (JsNumber.fin t) (JsNumber.fin t) = formatNumber (Int.floor t) ++ "+" := by
  have hge : JsNumber.ge (JsNumber.fin t) (JsNumber.fin 1000) = true := by
    simp only [JsNumber.ge, decide_eq_true_eq]
    exact h
  unfold statText
  rw [if_pos hge]
  simp only [formatNumberOf, JsNumber.floor, JsNumber.integerToString, Int.floor_intCast,
    formatNumber]

theorem isNumber_fract_abs_lt (t : ℚ) (ht : IsNumber t) (hf : Int.fract t ≠ 0) :
    |t| < (2 : ℚ) ^ (53 : ℕ) := by
  obtain ⟨m, e, hm, _, _, rfl⟩ := ht
  have hmq : |(m : ℚ)| < (2 : ℚ) ^ (53 : ℕ) := by
    have : ((|m| : ℤ) : ℚ) < ((2 ^ 53 : ℤ) : ℚ) := by exact_mod_cast hm
    simpa using this
  have he : e < 0 := by
    by_contra hc
    apply hf
    obtain ⟨n, rfl⟩ := Int.eq_ofNat_of_zero_le (not_lt.mp hc)
    have : (m : ℚ) * (2 : ℚ) ^ ((n : ℕ) : ℤ) = ((m * 2 ^ n : ℤ) : ℚ) := by
      rw [zpow_natCast]
      push_cast
      rfl
    rw [this]
    exact Int.fract_intCast _
  have hle : (2 : ℚ) ^ e ≤ 1 := zpow_le_one_of_nonpos₀ (by norm_num) he.le
  have hpos : (0 : ℚ) < (2 : ℚ) ^ e := zpow_pos (by norm_num) e
  rw [abs_mul, abs_of_pos hpos]
  calc |(m : ℚ)| * (2 : ℚ) ^ e ≤ |(m : ℚ)| * 1 := mul_le_mul_of_nonneg_left hle (abs_nonneg _)
    _ < (2 : ℚ) ^ (53 : ℕ) := by rw [mul_one]; exact hmq

theorem statText_fraction (t : ℚ) (ht : IsNumber t) (h : t < 1000) (hf : Int.fract t ≠ 0) :
    statText (JsNumber.fin t) (JsNumber.fin t) = toFixed1 t := by
  have hge : ¬ (JsNumber.ge (JsNumber.fin t) (JsNumber.fin 1000) = true) := by
    simp only [JsNumber.ge, decide_eq_true_eq, not_le]
    exact h
  have hfr : JsNumber.hasFraction (JsNumber.fin t) = true := by
    simp only [JsNumber.hasFraction, decide_eq_true_eq]
    exact (jsMod1_ne_zero_iff t).mpr hf
  have hsmall : ¬ (|t| ≥ 10 ^ 21) := by
    have := isNumber_fract_abs_lt t ht hf
    have h2 : (2 : ℚ) ^ (53 : ℕ) < 10 ^ 21 := by norm_num
    rw [not_le]
    linarith
  unfold statText
  rw [if_neg hge, if_pos hfr]
  simp only [JsNumber.toFixed, if_neg hsmall]

theorem statText_integer (t : ℚ) (h : t < 1000) (hf : Int.fract t = 0) :
    statText (JsNumber.fin t) (JsNumber.fin t) = String.mk (numberToString (Int.floor t)) := by
  have hge : ¬ (JsNumber.ge (JsNumber.fin t) (JsNumber.fin 1000) = true) := by
    simp only [JsNumber.ge, decide_eq_true_eq, not_le]
    exact h
  have hfr : ¬ (JsNumber.hasFraction (JsNumber.fin t) = true) := by
    simp only [JsNumber.hasFraction, decide_eq_true_eq]
    exact fun hne => (jsMod1_ne_zero_iff t).mp hne hf
  unfold statText
  rw [if_neg hge, if_neg hfr]
  simp only [JsNumber.floor, JsNumber.integerToString, Int.floor_intCast]

theorem two_zpow_le_of_one_le (t : ℚ) (h : 1 ≤ t) : (2 : ℚ) ^ (-1022 : ℤ) ≤ t :=
  le_trans (zpow_le_one_of_nonpos₀ (by norm_num) (by norm_num)) h

theorem statRun_1500 (txt : String) :
    ∃ n, ∀ k, statRun (JsNumber.fin 1500) txt (n + k) =
      { current := JsNumber.fin 1500, running := false, text := "1,500+" } := by
  have hnum : IsNumber (1500 : ℚ) :=
    ⟨1500, 0, by norm_num, by norm_num, by norm_num, by norm_num⟩
  obtain ⟨n, hn⟩ := statRun_stops 1500 hnum (Or.inr (two_zpow_le_of_one_le _ (by norm_num))) txt
  have hf : Int.floor (1500 : ℚ) = ((1500 : ℕ) : ℤ) := by
    rw [Int.floor_eq_iff]
    norm_num
  have htxt : statText (JsNumber.fin 1500) (JsNumber.fin 1500) = "1,500+" := by
    rw [statText_large 1500 (by norm_num), hf]
    unfold formatNumber
    rw [numberToString_natCast 1500 (by norm_num)]
    decide
  exact ⟨n, fun k => by rw [hn k, htxt]⟩

theorem statRun_4_5 (txt : String) :
    ∃ n, ∀ k, statRun (JsNumber.fin (9 / 2)) txt (n + k) =
      { current := JsNumber.fin (9 / 2), running := false, text := "4.5" } := by
  have hnum : IsNumber (9 / 2 : ℚ) :=
    ⟨9, -1, by norm_num, by norm_num, by norm_num, by norm_num⟩
  obtain ⟨n, hn⟩ := statRun_stops (9 / 2) hnum
    (Or.inr (two_zpow_le_of_one_le _ (by norm_num))) txt
  have hf : Int.floor (9 / 2 : ℚ) = 4 := by
    rw [Int.floor_eq_iff]
    norm_num
  have hfr : Int.fract (9 / 2 : ℚ) ≠ 0 := by
    rw [Int.fract, hf]
    norm_num
  have hfl : Int.floor (|(9 / 2 : ℚ)| * 10 + 1 / 2) = 45 := by
    rw [Int.floor_eq_iff, abs_of_nonneg (by norm_num)]
    norm_num
  have hneg : ¬ ((9 / 2 : ℚ) < 0) := by norm_num
  have htxt : statText (JsNumber.fin (9 / 2)) (JsNumber.fin (9 / 2)) = "4.5" := by
    rw [statText_fraction (9 / 2) hnum (by norm_num) hfr]
    simp only [toFixed1, hfl, hneg, if_false]
    decide
  exact ⟨n, fun k => by rw [hn k, htxt]⟩

theorem statRun_10 (txt : String) :
    ∃ n, ∀ k, statRun (JsNumber.fin 10) txt (n + k) =
      { current := JsNumber.fin 10, running := false, text := "10" } := by
  have hnum : IsNumber (10 : ℚ) :=
    ⟨10, 0, by norm_num, by norm_num, by norm_num, by norm_num⟩
  obtain ⟨n, hn⟩ := statRun_stops 10 hnum (Or.inr (two_zpow_le_of_one_le _ (by norm_num))) txt
  have hf : Int.floor (10 : ℚ) = ((10 : ℕ) : ℤ) := by
    rw [Int.floor_eq_iff]
    norm_num
  have hfr : Int.fract (10 : ℚ) = 0 := by
    rw [Int.fract, hf]
    norm_num
  have htxt : statText (JsNumber.fin 10) (JsNumber.fin 10) = "10" := by
    rw [statText_integer 10 (by norm_num) hfr, hf, numberToString_natCast 10 (by norm_num)]
    decide
  exact ⟨n, fun k => by rw [hn k, htxt]⟩

theorem statRun_nan (txt : String) : ∀ k,
    statRun JsNumber.nan txt (k + 1) =
      { current := JsNumber.nan, running := true, text := "NaN" }
  | 0 => rfl
  | k + 1 => by
    rw [statRun, statRun_nan txt k]
    rfl

theorem roundToNumber_subnormal (x : ℚ) (hpos : 0 < |x|) (h : |x| < (2 : ℚ) ^ (-1022 : ℤ)) :
    roundToNumber x =
      (roundHalfEven (x / (2 : ℚ) ^ (-1074 : ℤ)) : ℚ) * (2 : ℚ) ^ (-1074 : ℤ) := by
  have hlog : Int.log 2 |x| < -1022 :=
    (Int.lt_zpow_iff_log_lt (by norm_num : 1 < 2) hpos).mp (by exact_mod_cast h)
  have hu : ulpExponent x = -1074 := by
    unfold ulpExponent
    rw [max_eq_right (by omega)]
    norm_num
  unfold roundToNumber
  rw [hu]

theorem roundHalfEven_small (k : ℚ) (h0 : 0 ≤ k) (h1 : k < 1 / 2) : roundHalfEven k = 0 := by
  have hfl : Int.floor k = 0 := by
    rw [Int.floor_eq_iff]
    constructor
    · simpa using h0
    · norm_num
      linarith
  unfold roundHalfEven
  simp only [hfl]
  rw [if_pos (by simpa using h1)]

theorem step_underflow (u : ℚ) (hu : 0 < u) (hlt : u < (2 : ℚ) ^ (-1022 : ℤ))
    (hu' : u = (2 : ℚ) ^ (-1074 : ℤ)) : roundToNumber (u / 125) = 0 := by
  have hx : 0 < u / 125 := by positivity
  have h := roundToNumber_subnormal (u / 125) (by rw [abs_of_pos hx]; exact hx)
    (by rw [abs_of_pos hx]; exact lt_of_le_of_lt (div_le_self hu.le (by norm_num)) hlt)
  have hk : u / 125 / (2 : ℚ) ^ (-1074 : ℤ) = 1 / 125 := by
    rw [← hu']
    field_simp
    ring
  rw [h, hk, roundHalfEven_small _ (by norm_num) (by norm_num)]
  simp

theorem statRun_tiny (u : ℚ) (hnum : IsNumber u) (hu : 0 < u)
    (hstep : roundToNumber (u / 125) = 0) (txt : String) : ∀ k,
    (statRun (JsNumber.fin u) txt k).running = true ∧
      (statRun (JsNumber.fin u) txt k).current = JsNumber.fin 0
  | 0 => ⟨rfl, rfl⟩
  | k + 1 => by
    obtain ⟨hr, hc⟩ := statRun_tiny u hnum hu hstep txt k
    have hof : JsNumber.ofRat (0 + roundToNumber (u / 125)) = JsNumber.fin 0 := by
      rw [hstep, add_zero]
      exact ofRat_of_toNumber _ _ (toNumber_of_isNumber 0 isNumber_zero)
    have hge : ¬ (JsNumber.ge (JsNumber.fin 0) (JsNumber.fin u) = true) := by
      simp only [JsNumber.ge, decide_eq_true_eq, not_le]
      exact hu
    rw [statRun, statTick_running u 0 hnum _ hr hc, hof, if_neg hge]
    exact ⟨rfl, rfl⟩

/-- C7 (counterexample). For a target that is `NaN` (`parseFloat` of a missing or non-numeric
`data-target`) the timer is never cleared, and the text is "NaN" from the first tick on; for
the smallest positive Number `2^-1074` the increment rounds to `0` and the timer is never
cleared either. -/
theorem counter_nan_never_stops :
    (∀ k, (statRun JsNumber.nan "0" k).running = true) ∧
    (∀ k, (statRun JsNumber.nan "0" (k + 1)).text = "NaN") ∧
    (∀ k, (statRun (JsNumber.fin ((2 : ℚ) ^ (-1074 : ℤ))) "0" k).running = true) := by
  refine ⟨?_, ?_, ?_⟩
  · intro k
    cases k with
    | zero => rfl
    | succ k => rw [statRun_nan]
  · intro k
    rw [statRun_nan]
  · intro k
    have hu : (0 : ℚ) < (2 : ℚ) ^ (-1074 : ℤ) := zpow_pos (by norm_num) _
    have hlt : (2 : ℚ) ^ (-1074 : ℤ) < (2 : ℚ) ^ (-1022 : ℤ) :=
      zpow_lt_zpow_right₀ (by norm_num) (by norm_num)
    have hnum : IsNumber ((2 : ℚ) ^ (-1074 : ℤ)) :=
      ⟨1, -1074, by norm_num, by norm_num, by norm_num, by simp⟩
    exact (statRun_tiny _ hnum hu (step_underflow _ hu hlt rfl) "0" k).1

/-- C7 (amended). In binary64, for every finite target `t` with `t ≤ 0` or `t ≥ 2^-1022`: from
some tick on the timer is cleared, `current` is `t`, and the text stays the same. That text
depends on `t` alone: for `t ≥ 1000` it is `formatNumber(floor t)` followed by "+"; else for a
`t` with a fractional part it is `t` rounded to a nearest tenth `d / 10` and written with
exactly one decimal place (a "-" for negative `t`, the digits of the whole part, a point, one
digit); else it is `String(t)`, which for `|t| < 2^53` is the decimal digits of the integer
`t` after a "-" for negative `t`. Target 1500 ends at "1,500+", 4.5 at "4.5" and 10 at
"10". -/
theorem counter_final_text (t : ℚ) (ht : IsNumber t)
    (hstep : t ≤ 0 ∨ (2 : ℚ) ^ (-1022 : ℤ) ≤ t) (initialText : String) :
    (∃ (n : ℕ) (text : String),
      (∀ k, statRun (JsNumber.fin t) initialText (n + k) =
        { current := JsNumber.fin t, running := false, text := text }) ∧
      (1000 ≤ t → text = formatNumber (Int.floor t) ++ "+") ∧
      (t < 1000 → Int.fract t ≠ 0 →
        ∃ d : ℕ, |(d : ℚ) / 10 - (|t|)| ≤ 1 / 20 ∧
          text.data = (if t < 0 then ['-'] else []) ++ Nat.toDigits 10 (d / 10) ++
            ['.', Nat.digitChar (d % 10)]) ∧
      (t < 1000 → Int.fract t = 0 →
        text.data = numberToString (Int.floor t) ∧
        ((Int.floor t).natAbs < 2 ^ 53 →
          text.data = (if t < 0 then ['-'] else []) ++
            Nat.toDigits 10 (Int.floor t).natAbs))) ∧
    (∃ n, ∀ k, statRun (JsNumber.fin 1500) initialText (n + k) =
      { current := JsNumber.fin 1500, running := false, text := "1,500+" }) ∧
    (∃ n, ∀ k, statRun (JsNumber.fin (9 / 2)) initialText (n + k) =
      { current := JsNumber.fin (9 / 2), running := false, text := "4.5" }) ∧
    (∃ n, ∀ k, statRun (JsNumber.fin 10) initialText (n + k) =
      { current := JsNumber.fin 10, running := false, text := "10" }) := by
  refine ⟨?_, statRun_1500 initialText, statRun_4_5 initialText, statRun_10 initialText⟩
  obtain ⟨n, hn⟩ := statRun_stops t ht hstep initialText
  refine ⟨n, _, hn, ?_, ?_, ?_⟩
  · intro h
    exact statText_large t h
  · intro h hf
    rw [statText_fraction t ht h hf]
    exact toFixed1_data t
  · intro h hf
    rw [statText_integer t h hf]
    refine ⟨rfl, fun hsmall => ?_⟩
    have hsign : ((Int.floor t < 0) ↔ (t < 0)) := by
      rw [Int.floor_lt]
      simp
    simp only [numberToString_small _ hsmall, hsign]

theorem counter_final_text_witness :
    IsNumber (1500 : ℚ) ∧ ((1500 : ℚ) ≤ 0 ∨ (2 : ℚ) ^ (-1022 : ℤ) ≤ 1500) ∧
    ∃ n, ∀ k, statRun (JsNumber.fin 1500) "0" (n + k) =
      { current := JsNumber.fin 1500, running := false, text := "1,500+" } :=
  ⟨⟨1500, 0, by norm_num, by norm_num, by norm_num, by norm_num⟩,
    Or.inr (le_trans (zpow_le_one_of_nonpos₀ (by norm_num) (by norm_num)) (by norm_num)),
    (counter_final_text 1500 ⟨1500, 0, by norm_num, by norm_num, by norm_num, by norm_num⟩
      (Or.inr (le_trans (zpow_le_one_of_nonpos₀ (by norm_num) (by norm_num)) (by norm_num)))
      "0").2.1⟩

/-! ### utils.isPartiallyInViewport -/

/-- C8 (code defect). A 100 × 100 box above and to the left of a 1000 × 800 viewport
(`top = left = -300`) is entirely outside it, yet both `visibleHeight` and `visibleWidth` are
`-200`, their product is `40000`, and `isPartiallyInViewport` answers `true` at threshold `0.1`:
the visible area is not clamped to zero. -/
theorem isPartiallyInViewport_outside_true :
    Rect.outside { top := -300, left := -300, width := 100, height := 100 }
      { innerHeight := 800, innerWidth := 1000, clientHeight := 800, clientWidth := 1000 } ∧
    (0 : ℚ) < 1 / 10 ∧
    isPartiallyInViewport
      { innerHeight := 800, innerWidth := 1000, clientHeight := 800, clientWidth := 1000 }
      { top := -300, left := -300, width := 100, height := 100 } (1 / 10) = true := by
  refine ⟨?_, by norm_num, ?_⟩
  · left
    norm_num [Rect.bottom]
  · norm_num [isPartiallyInViewport, jsQuotientGe, Rect.bottom, Rect.right,
      Viewport.windowHeight, Viewport.windowWidth, jsOr]

/-- C9 (counterexample). A box of zero size at the origin lies fully inside a 1000 × 800
viewport, but its total area is `0`, the ratio is `0 / 0`, and the function answers `false` at
threshold `0.1 ≤ 1`. -/
theorem isPartiallyInViewport_inside_empty_false :
    Rect.inside { top := 0, left := 0, width := 0, height := 0 }
      { innerHeight := 800, innerWidth := 1000, clientHeight := 800, clientWidth := 1000 } ∧
    (1 / 10 : ℚ) ≤ 1 ∧
    isPartiallyInViewport
      { innerHeight := 800, innerWidth := 1000, clientHeight := 800, clientWidth := 1000 }
      { top := 0, left := 0, width := 0, height := 0 } (1 / 10) = false := by
  refine ⟨?_, by norm_num, ?_⟩
  · norm_num [Rect.inside, Rect.bottom, Rect.right, Viewport.windowHeight,
      Viewport.windowWidth, jsOr]
  · norm_num [isPartiallyInViewport, jsQuotientGe, Rect.bottom, Rect.right,
      Viewport.windowHeight, Viewport.windowWidth, jsOr]

/-- C9 (amended). For every viewport and every box of positive width and height that lies
fully inside it, `isPartiallyInViewport` is `true` for every threshold `≤ 1`. -/
theorem isPartiallyInViewport_inside_true (v : Viewport) (rect : Rect) (threshold : ℚ)
    (hw : 0 < rect.width) (hh : 0 < rect.height) (hin : rect.inside v) (ht : threshold ≤ 1) :
    isPartiallyInViewport v rect threshold = true := by
  obtain ⟨h1, h2, h3, h4⟩ := hin
  have hne : rect.height * rect.width ≠ 0 := (mul_pos hh hw).ne'
  have e1 : min rect.bottom v.windowHeight - max rect.top 0 = rect.height := by
    rw [min_eq_left h3, max_eq_left h1, Rect.bottom]
    ring
  have e2 : min rect.right v.windowWidth - max rect.left 0 = rect.width := by
    rw [min_eq_left h4, max_eq_left h2, Rect.right]
    ring
  simp only [isPartiallyInViewport, e1, e2, jsQuotientGe, hne, if_false, div_self hne,
    decide_eq_true_eq]
  exact ht

theorem isPartiallyInViewport_inside_true_witness :
    isPartiallyInViewport
      { innerHeight := 800, innerWidth := 1000, clientHeight := 800, clientWidth := 1000 }
      { top := 10, left := 20, width := 100, height := 50 } 1 = true :=
  isPartiallyInViewport_inside_true _ _ 1 (by norm_num) (by norm_num)
    (by norm_num [Rect.inside, Rect.bottom, Rect.right, Viewport.windowHeight,
      Viewport.windowWidth, jsOr]) (le_refl 1)

/-! ### utils.randomNumber -/

theorem toNumber_intCast (z : ℤ) (hz : |z| ≤ 2 ^ 53) : toNumber (z : ℚ) = some (z : ℚ) :=
  toNumber_of_isNumber _ (isNumber_intCast z hz)

/-- A Number below `1` is at most `1 - 2^-53`. -/
theorem isNumber_lt_one (r : ℚ) (hr : IsNumber r) (h1 : r < 1) :
    r ≤ 1 - 1 / (2 : ℚ) ^ (53 : ℕ) := by
  obtain ⟨m, e, hm, _, _, rfl⟩ := hr
  have hmq : (m : ℚ) < (2 : ℚ) ^ (53 : ℕ) := by
    have h := lt_of_le_of_lt (le_abs_self m) hm
    have : ((m : ℤ) : ℚ) < ((2 ^ 53 : ℤ) : ℚ) := by exact_mod_cast h
    simpa using this
  have h2pos : (0 : ℚ) < (2 : ℚ) ^ (53 : ℕ) := by positivity
  rw [le_sub_iff_add_le, ← le_sub_iff_add_le', one_div, ← sub_nonneg]
  by_cases he : -53 ≤ e
  · -- `r * 2^53` is an integer below `2^53`
    obtain ⟨n, hn⟩ := Int.eq_ofNat_of_zero_le (by omega : 0 ≤ e + 53)
    have hval : (m : ℚ) * (2 : ℚ) ^ e = ((m * 2 ^ n : ℤ) : ℚ) / (2 : ℚ) ^ (53 : ℕ) := by
      have : e = (n : ℤ) - 53 := by omega
      rw [this, zpow_sub₀ (by norm_num), zpow_natCast]
      push_cast
      norm_num
      ring
    rw [hval] at h1 ⊢
    rw [div_lt_one h2pos] at h1
    have hlt : (m * 2 ^ n : ℤ) < 2 ^ 53 := by
      have : ((m * 2 ^ n : ℤ) : ℚ) < ((2 ^ 53 : ℤ) : ℚ) := by
        push_cast at h1 ⊢
        exact h1
      exact_mod_cast this
    have hle : (m * 2 ^ n : ℤ) ≤ 2 ^ 53 - 1 := by omega
    have hleq : ((m * 2 ^ n : ℤ) : ℚ) ≤ (2 : ℚ) ^ (53 : ℕ) - 1 := by
      have : ((m * 2 ^ n : ℤ) : ℚ) ≤ ((2 ^ 53 - 1 : ℤ) : ℚ) := by exact_mod_cast hle
      have e3 : ((2 ^ 53 - 1 : ℤ) : ℚ) = (2 : ℚ) ^ (53 : ℕ) - 1 := by norm_num
      rw [e3] at this
      exact this
    have : ((m * 2 ^ n : ℤ) : ℚ) / (2 : ℚ) ^ (53 : ℕ) ≤
        ((2 : ℚ) ^ (53 : ℕ) - 1) / (2 : ℚ) ^ (53 : ℕ) :=
      div_le_div_of_nonneg_right hleq h2pos.le
    have e2 : ((2 : ℚ) ^ (53 : ℕ) - 1) / (2 : ℚ) ^ (53 : ℕ) = 1 - ((2 : ℚ) ^ (53 : ℕ))⁻¹ := by
      field_simp
    rw [e2] at this
    linarith
  · -- `r` is below `1/2`
    have hpe : (2 : ℚ) ^ e ≤ (2 : ℚ) ^ (-54 : ℤ) :=
      zpow_le_zpow_right₀ (by norm_num) (by omega)
    have hpos : (0 : ℚ) < (2 : ℚ) ^ e := zpow_pos (by norm_num) e
    have hhalf : (m : ℚ) * (2 : ℚ) ^ e ≤ 1 / 2 := by
      rcases le_or_lt (m : ℚ) 0 with hm0 | hm0
      · have := mul_nonpos_of_nonpos_of_nonneg hm0 hpos.le
        linarith
      · calc (m : ℚ) * (2 : ℚ) ^ e ≤ (2 : ℚ) ^ (53 : ℕ) * (2 : ℚ) ^ (-54 : ℤ) :=
              mul_le_mul hmq.le hpe hpos.le h2pos.le
          _ = 1 / 2 := by
              rw [← zpow_natCast, ← zpow_add₀ (by norm_num)]
              norm_num
    have hinv : ((2 : ℚ) ^ (53 : ℕ))⁻¹ ≤ 1 / 2 := by
      rw [inv_le_comm₀ h2pos (by norm_num)]
      norm_num
    linarith

theorem roundToNumber_lt_of_closer (x d b : ℚ) (hd : IsNumber d) (h : |d - x| < b - x) :
    roundToNumber x < b := by
  have h1 := roundToNumber_nearest x d hd
  have h2 := (abs_le.mp h1).2
  linarith

/-- The product of a draw below `1` with an integer count of at most `2^52` rounds to a value
below the count. -/
theorem scaled_lt_count (n : ℕ) (hn1 : 1 ≤ n) (hn : n ≤ 2 ^ 52) (r : ℚ) (hr : IsNumber r)
    (h0 : 0 ≤ r) (h1 : r < 1) :
    0 ≤ roundToNumber (r * (n : ℚ)) ∧ roundToNumber (r * (n : ℚ)) < (n : ℚ) := by
  have hnq : (0 : ℚ) < (n : ℚ) := by exact_mod_cast hn1
  have hx0 : 0 ≤ r * (n : ℚ) := mul_nonneg h0 hnq.le
  have hrle := isNumber_lt_one r hr h1
  have hxle : r * (n : ℚ) ≤ (n : ℚ) - (n : ℚ) / (2 : ℚ) ^ (53 : ℕ) := by
    have := mul_le_mul_of_nonneg_right hrle hnq.le
    calc r * (n : ℚ) ≤ (1 - 1 / (2 : ℚ) ^ (53 : ℕ)) * (n : ℚ) := this
      _ = (n : ℚ) - (n : ℚ) / (2 : ℚ) ^ (53 : ℕ) := by ring
  refine ⟨roundToNumber_ge_of_isNumber _ 0 isNumber_zero hx0, ?_⟩
  -- the binade of the count
  have hp1 : 2 ^ Nat.log 2 n ≤ n := Nat.pow_log_le_self 2 (by omega)
  have hp2 : n < 2 ^ (Nat.log 2 n + 1) := Nat.lt_pow_succ_log_self (by norm_num) n
  have hp52 : Nat.log 2 n ≤ 52 := by
    by_contra hc
    have : 2 ^ 53 ≤ 2 ^ Nat.log 2 n := Nat.pow_le_pow_right (by norm_num) (by omega)
    omega
  obtain ⟨q, hq⟩ : ∃ q, Nat.log 2 n + q = 52 := ⟨52 - Nat.log 2 n, by omega⟩
  generalize Nat.log 2 n = p at hp1 hp2 hp52 hq
  have h2q : (0 : ℚ) < (2 : ℚ) ^ q := by positivity
  have h2p : (0 : ℚ) < (2 : ℚ) ^ p := by positivity
  have h52 : (2 : ℚ) ^ p * (2 : ℚ) ^ q = (2 : ℚ) ^ (52 : ℕ) := by
    rw [← pow_add, hq]
  have h53 : (2 : ℚ) ^ (53 : ℕ) = 2 * ((2 : ℚ) ^ p * (2 : ℚ) ^ q) := by
    rw [h52]
    norm_num
  have hp1q : (2 : ℚ) ^ p ≤ (n : ℚ) := by exact_mod_cast hp1
  have hp2q : (n : ℚ) < 2 * (2 : ℚ) ^ p := by
    have : (n : ℚ) < ((2 ^ (p + 1) : ℕ) : ℚ) := by exact_mod_cast hp2
    rw [pow_succ] at this
    push_cast at this
    linarith
  rcases eq_or_lt_of_le hp1 with heq | hgt
  · -- the count is a power of two: the largest possible product is a Number
    have hnp : (n : ℚ) = (2 : ℚ) ^ p := by
      rw [← heq]
      push_cast
      rfl
    have hd : IsNumber ((n : ℚ) - (n : ℚ) / (2 : ℚ) ^ (53 : ℕ)) := by
      refine ⟨2 ^ 53 - 1, -((q : ℤ) + 1), by norm_num, by omega, by omega, ?_⟩
      have e : (2 : ℚ) ^ (-((q : ℤ) + 1)) = (2 : ℚ) ^ p / (2 : ℚ) ^ (53 : ℕ) := by
        rw [zpow_neg, zpow_add₀ (by norm_num), zpow_natCast, zpow_one, h53]
        field_simp
        ring
      rw [hnp, e]
      push_cast
      ring
    apply roundToNumber_lt_of_closer _ _ _ hd
    rw [abs_of_nonneg (by linarith)]
    have : (0 : ℚ) < (n : ℚ) / (2 : ℚ) ^ (53 : ℕ) := by positivity
    linarith
  · -- otherwise the Number just below the count is closer to the product than the count
    have hgtq : (2 : ℚ) ^ p + 1 ≤ (n : ℚ) := by
      have : 2 ^ p + 1 ≤ n := hgt
      exact_mod_cast this
    have hd : IsNumber ((n : ℚ) - 1 / (2 : ℚ) ^ q) := by
      refine ⟨(n : ℤ) * 2 ^ q - 1, -(q : ℤ), ?_, by omega, by omega, ?_⟩
      · have hlt : (n : ℤ) * 2 ^ q < 2 ^ 53 := by
          have h1 : n * 2 ^ q < 2 ^ (p + 1) * 2 ^ q :=
            Nat.mul_lt_mul_of_pos_right hp2 (by positivity)
          have h2 : 2 ^ (p + 1) * 2 ^ q = 2 ^ 53 := by
            rw [← pow_add]
            congr 1
            omega
          rw [h2] at h1
          exact_mod_cast h1
        have hge : (0 : ℤ) ≤ (n : ℤ) * 2 ^ q - 1 := by
          have : (1 : ℤ) ≤ (n : ℤ) * 2 ^ q := by
            have h1 : 1 ≤ n * 2 ^ q := Nat.one_le_iff_ne_zero.mpr (by positivity)
            exact_mod_cast h1
          omega
        rw [abs_of_nonneg hge]
        omega
      · rw [zpow_neg, zpow_natCast]
        push_cast
        field_simp
    apply roundToNumber_lt_of_closer _ _ _ hd
    have hhalf : 1 / (2 : ℚ) ^ q / 2 < (n : ℚ) / (2 : ℚ) ^ (53 : ℕ) := by
      rw [h53, div_div, div_lt_div_iff₀ (by positivity) (by positivity)]
      nlinarith
    have hu : (0 : ℚ) < 1 / (2 : ℚ) ^ q := by positivity
    rw [abs_lt]
    constructor <;> linarith

theorem toNumber_of_bounded (x : ℚ) (h0 : 0 ≤ roundToNumber x)
    (h1 : roundToNumber x ≤ (2 : ℚ) ^ (53 : ℕ)) : toNumber x = some (roundToNumber x) := by
  unfold toNumber
  rw [if_pos]
  rw [abs_of_nonneg h0]
  have : (2 : ℚ) ^ (53 : ℕ) < (2 : ℚ) ^ (1024 : ℕ) :=
    pow_lt_pow_right₀ (by norm_num) (by norm_num)
  linarith

/-- The four binary64 operations of `randomNumber` when the count `max - min + 1` is a natural
number `n` of at most `2^52` and the scaled draw rounds to `s` with `0 ≤ s < n`. -/
theorem randomNumber_eq (r : ℚ) (min max : ℤ) (n : ℕ) (hn : (n : ℤ) = max - min + 1)
    (hn52 : n ≤ 2 ^ 52) (hmin : -2 ^ 53 ≤ min) (hmax : max ≤ 2 ^ 53) (s : ℚ)
    (hs : toNumber (r * (n : ℚ)) = some s)
    (hs0 : 0 ≤ s) (hsn : s < (n : ℚ)) :
    randomNumber r min max = some (((Int.floor s + min : ℤ)) : ℚ) := by
  have hn52z : (n : ℤ) ≤ 2 ^ 52 := by exact_mod_cast hn52
  have e1 : toNumber ((max : ℚ) - (min : ℚ)) = some (((max - min : ℤ)) : ℚ) := by
    have := toNumber_intCast (max - min) (by rw [abs_le]; constructor <;> omega)
    rw [← this]
    push_cast
    rfl
  have e2 : toNumber ((((max - min : ℤ)) : ℚ) + 1) = some (n : ℚ) := by
    have := toNumber_intCast (n : ℤ) (by rw [abs_le]; constructor <;> omega)
    rw [Int.cast_natCast] at this
    rw [← this]
    congr 1
    have : ((n : ℤ) : ℚ) = ((max - min + 1 : ℤ) : ℚ) := by rw [hn]
    rw [Int.cast_natCast] at this
    rw [this]
    push_cast
    rfl
  have hfl0 : 0 ≤ Int.floor s := Int.floor_nonneg.mpr hs0
  have hfln : Int.floor s < (n : ℤ) := by
    rw [Int.floor_lt]
    exact_mod_cast hsn
  have e4 : toNumber ((Int.floor s : ℚ) + (min : ℚ)) = some (((Int.floor s + min : ℤ)) : ℚ) := by
    have := toNumber_intCast (Int.floor s + min) (by rw [abs_le]; constructor <;> omega)
    rw [← this]
    push_cast
    rfl
  unfold randomNumber
  rw [e1]
  simp only [Option.bind_eq_bind, Option.some_bind, e2, hs, e4]

theorem roundToNumber_binade (x : ℚ) (z : ℤ) (hz : -1022 ≤ z) (h1 : (2 : ℚ) ^ z ≤ |x|)
    (h2 : |x| < (2 : ℚ) ^ (z + 1)) :
    roundToNumber x = (roundHalfEven (x / (2 : ℚ) ^ (z - 52)) : ℚ) * (2 : ℚ) ^ (z - 52) := by
  have hpos : 0 < |x| := lt_of_lt_of_le (zpow_pos (by norm_num) z) h1
  have hlog : Int.log 2 |x| = z := by
    apply le_antisymm
    · have := (Int.lt_zpow_iff_log_lt (by norm_num : 1 < 2) hpos).mp (by exact_mod_cast h2)
      omega
    · exact (Int.zpow_le_iff_le_log (by norm_num : 1 < 2) hpos).mp (by exact_mod_cast h1)
  have hu : ulpExponent x = z - 52 := by
    unfold ulpExponent
    rw [hlog, max_eq_left hz]
  unfold roundToNumber
  rw [hu]

theorem roundHalfEven_tie_even (f : ℤ) (hf : f % 2 = 0) :
    roundHalfEven ((f : ℚ) + 1 / 2) = f := by
  have hfl : Int.floor ((f : ℚ) + 1 / 2) = f := by
    rw [Int.floor_eq_iff]
    constructor <;> linarith
  unfold roundHalfEven
  simp only [hfl]
  rw [if_neg (by norm_num), if_neg (by norm_num), if_pos hf]

theorem roundToNumber_two_pow_53_add_one :
    roundToNumber ((2 : ℚ) ^ (53 : ℕ) + 1) = (2 : ℚ) ^ (53 : ℕ) := by
  have h := roundToNumber_binade ((2 : ℚ) ^ (53 : ℕ) + 1) 53 (by norm_num)
    (by rw [abs_of_nonneg (by norm_num)]; norm_num)
    (by rw [abs_of_nonneg (by norm_num)]; norm_num)
  have e : ((2 : ℚ) ^ (53 : ℕ) + 1) / (2 : ℚ) ^ ((53 : ℤ) - 52) =
      (((2 ^ 52 : ℤ)) : ℚ) + 1 / 2 := by norm_num
  rw [h, e, roundHalfEven_tie_even _ (by norm_num)]
  norm_num

theorem randomNumber_steps (r : ℚ) (min max : ℤ) (a b c d : ℚ)
    (h1 : toNumber ((max : ℚ) - (min : ℚ)) = some a) (h2 : toNumber (a + 1) = some b)
    (h3 : toNumber (r * b) = some c) (h4 : toNumber ((Int.floor c : ℚ) + (min : ℚ)) = some d) :
    randomNumber r min max = some d := by
  unfold randomNumber
  rw [h1]
  simp only [Option.bind_eq_bind, Option.some_bind, h2, h3, h4]

/-- C10 (counterexample). With `min = -2^52` and `max = 2^52` the count `max - min + 1`
rounds to `2^53`, and no draw in `[0, 1)` makes `randomNumber` return `max`. -/
theorem randomNumber_max_unreachable :
    (-2 ^ 52 : ℤ) ≤ 2 ^ 52 ∧
      ¬ ∃ r : ℚ, IsNumber r ∧ 0 ≤ r ∧ r < 1 ∧
        randomNumber r (-2 ^ 52) (2 ^ 52) = some (((2 ^ 52 : ℤ)) : ℚ) := by
  refine ⟨by norm_num, ?_⟩
  rintro ⟨r, hr, h0, h1, h⟩
  have e1 : toNumber ((((2 ^ 52 : ℤ)) : ℚ) - (((-2 ^ 52 : ℤ)) : ℚ)) =
      some ((2 : ℚ) ^ (53 : ℕ)) := by
    have := toNumber_intCast (2 ^ 53) (by norm_num)
    have e : (((2 ^ 52 : ℤ)) : ℚ) - (((-2 ^ 52 : ℤ)) : ℚ) = (((2 ^ 53 : ℤ)) : ℚ) := by
      norm_num
    have e' : (2 : ℚ) ^ (53 : ℕ) = (((2 ^ 53 : ℤ)) : ℚ) := by norm_num
    rw [e, e']
    exact this
  have e2 : toNumber ((2 : ℚ) ^ (53 : ℕ) + 1) = some ((2 : ℚ) ^ (53 : ℕ)) := by
    have := toNumber_of_bounded ((2 : ℚ) ^ (53 : ℕ) + 1)
    rw [roundToNumber_two_pow_53_add_one] at this
    exact this (by positivity) le_rfl
  have hrle := isNumber_lt_one r hr h1
  have hx0 : 0 ≤ r * (2 : ℚ) ^ (53 : ℕ) := by positivity
  have hx1 : r * (2 : ℚ) ^ (53 : ℕ) ≤ (((2 ^ 53 - 1 : ℤ)) : ℚ) := by
    have := mul_le_mul_of_nonneg_right hrle (by positivity : (0 : ℚ) ≤ (2 : ℚ) ^ (53 : ℕ))
    have e : (1 - 1 / (2 : ℚ) ^ (53 : ℕ)) * (2 : ℚ) ^ (53 : ℕ) = (((2 ^ 53 - 1 : ℤ)) : ℚ) := by
      norm_num
    rw [e] at this
    exact this
  have hc0 := roundToNumber_ge_of_isNumber _ 0 isNumber_zero hx0
  have hc1 := roundToNumber_le_of_isNumber _ _ (isNumber_intCast (2 ^ 53 - 1) (by norm_num)) hx1
  have e3 : toNumber (r * (2 : ℚ) ^ (53 : ℕ)) = some (roundToNumber (r * (2 : ℚ) ^ (53 : ℕ))) := by
    apply toNumber_of_bounded _ hc0
    have : (((2 ^ 53 - 1 : ℤ)) : ℚ) ≤ (2 : ℚ) ^ (53 : ℕ) := by norm_num
    linarith
  generalize roundToNumber (r * (2 : ℚ) ^ (53 : ℕ)) = c at hc0 hc1 e3
  have hfl0 : 0 ≤ Int.floor c := Int.floor_nonneg.mpr hc0
  have hfl1 : Int.floor c ≤ 2 ^ 53 - 1 := by
    have : (Int.floor c : ℚ) ≤ (((2 ^ 53 - 1 : ℤ)) : ℚ) := le_trans (Int.floor_le c) hc1
    exact_mod_cast this
  have e4 : toNumber ((Int.floor c : ℚ) + (((-2 ^ 52 : ℤ)) : ℚ)) =
      some (((Int.floor c + -2 ^ 52 : ℤ)) : ℚ) := by
    have := toNumber_intCast (Int.floor c + -2 ^ 52) (by rw [abs_le]; constructor <;> omega)
    rw [← this]
    push_cast
    rfl
  rw [randomNumber_steps r _ _ _ _ _ _ e1 e2 e3 e4] at h
  have h' := Option.some.inj h
  have h'' : Int.floor c + -2 ^ 52 = 2 ^ 52 := by exact_mod_cast h'
  omega

/-- A draw that makes the scaled product land in `[j, j + 1/2]`. -/
theorem exists_draw (n j : ℕ) (hn : n ≤ 2 ^ 52) (hj : j < n) :
    ∃ r : ℚ, IsNumber r ∧ 0 ≤ r ∧ r < 1 ∧ (j : ℚ) ≤ r * (n : ℚ) ∧
      r * (n : ℚ) ≤ (j : ℚ) + 1 / 2 := by
  have hn0 : 0 < n := by omega
  have hc1 : (j * 2 ^ 53 + (n - 1)) / n * n ≤ j * 2 ^ 53 + (n - 1) := Nat.div_mul_le_self _ _
  have hc2 : j * 2 ^ 53 + (n - 1) < ((j * 2 ^ 53 + (n - 1)) / n + 1) * n := by
    have := Nat.lt_mul_div_succ (j * 2 ^ 53 + (n - 1)) hn0
    rw [Nat.mul_comm n] at this
    exact this
  generalize (j * 2 ^ 53 + (n - 1)) / n = c at hc1 hc2
  have hlo : j * 2 ^ 53 ≤ c * n := by
    rw [Nat.add_mul, Nat.one_mul] at hc2
    omega
  have hhi : c * n < j * 2 ^ 53 + n := by omega
  have hc53 : c < 2 ^ 53 := by
    by_contra hc
    have h1 : 2 ^ 53 * n ≤ c * n := Nat.mul_le_mul_right n (not_lt.mp hc)
    have h2 : (j + 1) * 2 ^ 53 ≤ n * 2 ^ 53 := Nat.mul_le_mul_right _ hj
    rw [Nat.add_mul, Nat.one_mul] at h2
    rw [Nat.mul_comm] at h1
    omega
  have hloq : (j : ℚ) * (2 : ℚ) ^ (53 : ℕ) ≤ (c : ℚ) * (n : ℚ) := by exact_mod_cast hlo
  have hhiq : (c : ℚ) * (n : ℚ) < (j : ℚ) * (2 : ℚ) ^ (53 : ℕ) + (n : ℚ) := by
    exact_mod_cast hhi
  have hnq : (n : ℚ) ≤ (2 : ℚ) ^ (52 : ℕ) := by exact_mod_cast hn
  have hcq : (c : ℚ) < (2 : ℚ) ^ (53 : ℕ) := by exact_mod_cast hc53
  have h53 : (0 : ℚ) < (2 : ℚ) ^ (53 : ℕ) := by positivity
  refine ⟨(c : ℚ) / (2 : ℚ) ^ (53 : ℕ), ⟨(c : ℤ), -53, ?_, by norm_num, by norm_num, ?_⟩,
    by positivity, ?_, ?_, ?_⟩
  · rw [abs_of_nonneg (by positivity)]
    exact_mod_cast hc53
  · rw [zpow_neg, div_eq_mul_inv]
    norm_num
  · rw [div_lt_one h53]
    exact hcq
  · rw [div_mul_eq_mul_div, le_div_iff₀ h53]
    exact hloq
  · rw [div_mul_eq_mul_div, div_le_iff₀ h53]
    have : (2 : ℚ) ^ (53 : ℕ) = 2 * (2 : ℚ) ^ (52 : ℕ) := by norm_num
    nlinarith

/-- C10 (amended). For integers `min ≤ max` between `-2^53` and `2^53` with
`max - min < 2^52`, and binary64 arithmetic: for every draw `r` that is a Number with
`0 ≤ r < 1`, `randomNumber` returns an integer `k` with `min ≤ k ≤ max`, and every integer of
`[min, max]` is returned for some such draw. -/
theorem randomNumber_range (min max : ℤ) (h : min ≤ max) (hmin : -2 ^ 53 ≤ min)
    (hmax : max ≤ 2 ^ 53) (hspan : max - min < 2 ^ 52) :
    (∀ r : ℚ, IsNumber r → 0 ≤ r → r < 1 →
        ∃ k : ℤ, randomNumber r min max = some (k : ℚ) ∧ min ≤ k ∧ k ≤ max) ∧
      (∀ k : ℤ, min ≤ k → k ≤ max →
        ∃ r : ℚ, IsNumber r ∧ 0 ≤ r ∧ r < 1 ∧ randomNumber r min max = some (k : ℚ)) := by
  obtain ⟨n, hn⟩ : ∃ n : ℕ, (n : ℤ) = max - min + 1 :=
    ⟨(max - min + 1).toNat, Int.toNat_of_nonneg (by omega)⟩
  have hn1 : 1 ≤ n := by omega
  have hn52 : n ≤ 2 ^ 52 := by omega
  constructor
  · intro r hr h0 h1
    obtain ⟨hs0, hsn⟩ := scaled_lt_count n hn1 hn52 r hr h0 h1
    have hs : toNumber (r * (n : ℚ)) = some (roundToNumber (r * (n : ℚ))) := by
      apply toNumber_of_bounded _ hs0
      have : (n : ℚ) ≤ (2 : ℚ) ^ (53 : ℕ) := by
        have : n ≤ 2 ^ 53 := by omega
        exact_mod_cast this
      linarith
    refine ⟨_, randomNumber_eq r min max n hn hn52 hmin hmax _ hs hs0 hsn, ?_, ?_⟩
    · have := Int.floor_nonneg.mpr hs0
      omega
    · have : Int.floor (roundToNumber (r * (n : ℚ))) < (n : ℤ) := by
        rw [Int.floor_lt]
        exact_mod_cast hsn
      omega
  · intro k hk1 hk2
    obtain ⟨j, hj⟩ : ∃ j : ℕ, (j : ℤ) = k - min := ⟨(k - min).toNat, Int.toNat_of_nonneg (by omega)⟩
    have hjn : j < n := by omega
    obtain ⟨r, hr, h0, h1, hlo, hhi⟩ := exists_draw n j hn52 hjn
    have hj53 : j ≤ 2 ^ 53 := by omega
    have hnumj : IsNumber (j : ℚ) := isNumber_natCast j hj53
    have hnumj2 : IsNumber ((j : ℚ) + 1 / 2) := by
      refine ⟨2 * (j : ℤ) + 1, -1, ?_, by norm_num, by norm_num, ?_⟩
      · rw [abs_of_nonneg (by positivity)]
        omega
      · rw [zpow_neg, zpow_one]
        push_cast
        ring
    have hs1 := roundToNumber_ge_of_isNumber _ _ hnumj hlo
    have hs2 := roundToNumber_le_of_isNumber _ _ hnumj2 hhi
    have hs0 : 0 ≤ roundToNumber (r * (n : ℚ)) := le_trans (by positivity) hs1
    have hjnq : (j : ℚ) + 1 ≤ (n : ℚ) := by exact_mod_cast hjn
    have hsn : roundToNumber (r * (n : ℚ)) < (n : ℚ) := by linarith
    have hs : toNumber (r * (n : ℚ)) = some (roundToNumber (r * (n : ℚ))) := by
      apply toNumber_of_bounded _ hs0
      have : (n : ℚ) ≤ (2 : ℚ) ^ (53 : ℕ) := by
        have : n ≤ 2 ^ 53 := by omega
        exact_mod_cast this
      linarith
    have hfl : Int.floor (roundToNumber (r * (n : ℚ))) = (j : ℤ) := by
      rw [Int.floor_eq_iff]
      push_cast
      constructor <;> linarith
    refine ⟨r, hr, h0, h1, ?_⟩
    rw [randomNumber_eq r min max n hn hn52 hmin hmax _ hs hs0 hsn, hfl, hj, sub_add_cancel]

theorem randomNumber_range_witness :
    (1 : ℤ) ≤ 6 ∧
      (∀ r : ℚ, IsNumber r → 0 ≤ r → r < 1 →
        ∃ k : ℤ, randomNumber r 1 6 = some (k : ℚ) ∧ 1 ≤ k ∧ k ≤ 6) ∧
      (∀ k : ℤ, 1 ≤ k → k ≤ 6 →
        ∃ r : ℚ, IsNumber r ∧ 0 ≤ r ∧ r < 1 ∧ randomNumber r 1 6 = some (k : ℚ)) :=
  ⟨by decide, randomNumber_range 1 6 (by decide) (by decide) (by decide) (by decide)⟩

/-! ### Element Registry and the handlers of navigation and accessibility -/

/-- C11 (code defect). Handlers that read a registry entry without a null check throw a
`TypeError` when that entry is absent: the Escape keydown with the nav menu absent, and with
the loading overlay absent; a scroll with the header absent; a click on the toggle (present,
so the listener is installed) with the menu absent; and a click outside the toggle with the
menu absent. -/
theorem handlers_throw_on_absent_elements :
    escapeKeydown { Registry.full with navMenu := none } "Escape" =
      Except.error JsError.typeError ∧
    escapeKeydown { Registry.full with loadingOverlay := none } "Escape" =
      Except.error JsError.typeError ∧
    headerScroll { Registry.full with header := none } 0 = Except.error JsError.typeError ∧
    headerScroll { Registry.full with header := none } 250 = Except.error JsError.typeError ∧
    mobileMenuInstalled { Registry.full with navMenu := none } = true ∧
    toggleClick { Registry.full with navMenu := none } = Except.error JsError.typeError ∧
    outsideClick { Registry.full with navMenu := none } false false =
      Except.error JsError.typeError :=
  ⟨rfl, rfl, rfl, rfl, rfl, rfl, rfl⟩

/-! ### analytics.trackUserEngagement -/

theorem trackScroll_max (s : EngagementState) (p : Int) :
    (trackScroll s p).maxScrollDepth = max s.maxScrollDepth p := by
  unfold trackScroll
  by_cases h : p > s.maxScrollDepth
  · rw [if_pos h]
    dsimp only
    split <;> exact (max_eq_right (le_of_lt h)).symm
  · rw [if_neg h]
    exact (max_eq_left (not_lt.mp h)).symm

theorem trackScroll_events (s : EngagementState) (p : Int) :
    (trackScroll s p).scrollDepthEvents =
      if p > s.maxScrollDepth ∧ (25 : Int) ∣ p then s.scrollDepthEvents ++ [p]
      else s.scrollDepthEvents := by
  unfold trackScroll
  by_cases h : p > s.maxScrollDepth
  · rw [if_pos h]
    dsimp only
    by_cases hd : Int.tmod p 25 = 0
    · rw [if_pos hd, if_pos ⟨h, Int.dvd_of_tmod_eq_zero hd⟩]
    · rw [if_neg hd, if_neg]
      intro hc
      exact hd (Int.tmod_eq_zero_of_dvd hc.2)
  · rw [if_neg h, if_neg (fun hc => h hc.1)]

theorem trackScrolls_snoc (s : EngagementState) (ps : List Int) (p : Int) :
    trackScrolls s (ps ++ [p]) = trackScroll (trackScrolls s ps) p := by
  simp [trackScrolls, List.foldl_append]

theorem trackScrolls_max (ps : List Int) : ∀ s : EngagementState,
    (trackScrolls s ps).maxScrollDepth = ps.foldl max s.maxScrollDepth := by
  induction ps with
  | nil => intro s; rfl
  | cons p ps ih =>
    intro s
    simp only [trackScrolls, List.foldl_cons] at ih ⊢
    rw [ih, trackScroll_max]

/-- The events are strictly increasing and none exceeds the stored maximum. -/
theorem trackScrolls_sorted (ps : List Int) : ∀ s : EngagementState,
    s.scrollDepthEvents.Pairwise (fun a b => a < b) →
    (∀ e ∈ s.scrollDepthEvents, e ≤ s.maxScrollDepth) →
    (trackScrolls s ps).scrollDepthEvents.Pairwise (fun a b => a < b) ∧
      (∀ e ∈ (trackScrolls s ps).scrollDepthEvents,
        e ≤ (trackScrolls s ps).maxScrollDepth) := by
  induction ps with
  | nil => intro s h1 h2; exact ⟨h1, h2⟩
  | cons p ps ih =>
    intro s h1 h2
    simp only [trackScrolls, List.foldl_cons] at ih ⊢
    apply ih
    · rw [trackScroll_events]
      split
      · rename_i hc
        rw [List.pairwise_append]
        refine ⟨h1, by simp, ?_⟩
        intro a ha b hb
        simp only [List.mem_singleton] at hb
        subst hb
        exact lt_of_le_of_lt (h2 a ha) hc.1
      · exact h1
    · intro e he
      rw [trackScroll_max]
      rw [trackScroll_events] at he
      split at he
      · simp only [List.mem_append, List.mem_singleton] at he
        rcases he with he | he
        · exact le_trans (h2 e he) (le_max_left _ _)
        · subst he
          exact le_max_right _ _
      · exact le_trans (h2 e he) (le_max_left _ _)

/-- C12. For every sequence of observed scroll percentages: each tick leaves the stored maximum
at the larger of its old value and the percentage seen, so it never decreases and is the
running maximum of `0` and the percentages; a tick emits a `scroll_depth` event, labelled with
the percentage, iff the percentage is strictly greater than the stored maximum and a multiple
of `25`; and the labels of the emitted events are strictly increasing. -/
theorem scroll_depth_tracking (percents : List Int) (p : Int) :
    (trackScrolls EngagementState.init percents).maxScrollDepth = percents.foldl max 0 ∧
    (trackScrolls EngagementState.init percents).maxScrollDepth ≤
      (trackScrolls EngagementState.init (percents ++ [p])).maxScrollDepth ∧
    (trackScrolls EngagementState.init (percents ++ [p])).maxScrollDepth =
      max (trackScrolls EngagementState.init percents).maxScrollDepth p ∧
    (trackScrolls EngagementState.init (percents ++ [p])).scrollDepthEvents =
      (if p > (trackScrolls EngagementState.init percents).maxScrollDepth ∧ (25 : Int) ∣ p then
        (trackScrolls EngagementState.init percents).scrollDepthEvents ++ [p]
      else (trackScrolls EngagementState.init percents).scrollDepthEvents) ∧
    (trackScrolls EngagementState.init percents).scrollDepthEvents.Pairwise
      (fun a b => a < b) := by
  refine ⟨trackScrolls_max percents _, ?_, ?_, ?_, ?_⟩
  · rw [trackScrolls_snoc, trackScroll_max]
    exact le_max_left _ _
  · rw [trackScrolls_snoc, trackScroll_max]
  · rw [trackScrolls_snoc, trackScroll_events]
  · exact (trackScrolls_sorted percents EngagementState.init (by simp [EngagementState.init])
      (by simp [EngagementState.init])).1

/-! ### navigation.handleActiveLinks -/

theorem findLink_setLinkActive (id : String) (b : Bool) :
    ∀ (j : Nat) (links : List NavLink), findLink id (setLinkActive b j links) = findLink id links
  | _, [] => by simp [setLinkActive]
  | 0, l :: ls => by
    simp only [setLinkActive, findLink]
  | j + 1, l :: ls => by
    simp only [setLinkActive, findLink]
    rw [findLink_setLinkActive id b j ls]

theorem setLinkActive_getElem?_ne (b : Bool) : ∀ (j k : Nat) (links : List NavLink), j ≠ k →
    (setLinkActive b j links)[k]? = links[k]?
  | _, _, [], _ => by simp [setLinkActive]
  | 0, 0, _ :: _, h => absurd rfl h
  | 0, k + 1, l :: ls, _ => by simp [setLinkActive]
  | j + 1, 0, l :: ls, _ => by simp [setLinkActive]
  | j + 1, k + 1, l :: ls, h => by
    simp only [setLinkActive, List.getElem?_cons_succ]
    exact setLinkActive_getElem?_ne b j k ls (fun e => h (by rw [e]))

theorem setLinkActive_getElem?_eq (b : Bool) : ∀ (j : Nat) (links : List NavLink),
    j < links.length → ∃ l, (setLinkActive b j links)[j]? = some l ∧ l.active = b
  | _, [], h => by simp at h
  | 0, l :: ls, _ => ⟨{ l with active := b }, by simp [setLinkActive], rfl⟩
  | j + 1, l :: ls, h => by
    simp only [setLinkActive, List.getElem?_cons_succ]
    exact setLinkActive_getElem?_eq b j ls (by simpa using h)

theorem findLink_markLink (id : String) (y : ℚ) (links : List NavLink) (s : Section)
    (r : Option Nat) : findLink id (markLink y links s r) = findLink id links := by
  cases r with
  | none => rfl
  | some j => exact findLink_setLinkActive id _ j links

theorem findLink_lt (id : String) : ∀ (links : List NavLink) (j : Nat),
    findLink id links = some j → j < links.length
  | [], j, h => by simp [findLink] at h
  | l :: ls, j, h => by
    simp only [findLink] at h
    split at h
    · simp only [Option.some.injEq] at h
      subst h
      simp
    · cases hr : findLink id ls with
      | none => rw [hr] at h; simp at h
      | some k =>
        rw [hr] at h
        simp only [Option.map_some', Option.some.injEq] at h
        subst h
        have := findLink_lt id ls k hr
        simp only [List.length_cons]
        omega

theorem markLink_getElem?_other (y : ℚ) (links : List NavLink) (s : Section) (r : Option Nat)
    (j : Nat) (h : r ≠ some j) : (markLink y links s r)[j]? = links[j]? := by
  cases r with
  | none => rfl
  | some k => exact setLinkActive_getElem?_ne _ k j links (fun e => h (by rw [e]))

theorem markLink_getElem?_own (y : ℚ) (links : List NavLink) (s : Section) (j : Nat)
    (h : findLink s.id links = some j) :
    ∃ l, (markLink y links s (some j))[j]? = some l ∧ l.active = sectionInRange y s :=
  setLinkActive_getElem?_eq _ j links (findLink_lt s.id links j h)

theorem markAll_cons (y : ℚ) (s : Section) (rest : List Section) (links : List NavLink) :
    markAll y (s :: rest) links = markAll y rest (markLink y links s (findLink s.id links)) :=
  rfl

theorem markAll_getElem?_other (y : ℚ) (j : Nat) : ∀ (sections : List Section)
    (links : List NavLink), (∀ s ∈ sections, findLink s.id links ≠ some j) →
    (markAll y sections links)[j]? = links[j]?
  | [], links, _ => rfl
  | s :: rest, links, h => by
    rw [markAll_cons]
    have ih := markAll_getElem?_other y j rest (markLink y links s (findLink s.id links))
      (fun s' hs' => by
        rw [findLink_markLink]
        exact h s' (by simp [hs']))
    rw [ih, markLink_getElem?_other y links s _ j (h s (by simp))]

theorem findLink_markAll (id : String) (y : ℚ) : ∀ (sections : List Section)
    (links : List NavLink), findLink id (markAll y sections links) = findLink id links
  | [], links => rfl
  | s :: rest, links => by
    rw [markAll_cons, findLink_markAll id y rest, findLink_markLink]

theorem markAll_getElem?_own (y : ℚ) : ∀ (sections : List Section)
    (links : List NavLink),
    (sections.map (fun s => findLink s.id links)).Nodup →
    ∀ s ∈ sections, ∀ j, findLink s.id links = some j →
      ∃ l, (markAll y sections links)[j]? = some l ∧ l.active = sectionInRange y s
  | [], links, _, s, hs, _, _ => by simp at hs
  | s0 :: rest, links, hnd, s, hs, j, hj => by
    simp only [List.map_cons, List.nodup_cons, List.mem_map, not_exists, not_and] at hnd
    rw [markAll_cons]
    have hmap : rest.map (fun s => findLink s.id (markLink y links s0 (findLink s0.id links))) =
        rest.map (fun s => findLink s.id links) := by
      apply List.map_congr_left
      intro a _
      exact findLink_markLink a.id y links s0 _
    by_cases hin : s ∈ rest
    · exact markAll_getElem?_own y rest _ (by rw [hmap]; exact hnd.2) s hin j
        (by rw [findLink_markLink]; exact hj)
    · simp only [List.mem_cons] at hs
      rcases hs with rfl | hs
      · have hother := markAll_getElem?_other y j rest (markLink y links s (findLink s.id links))
          (fun s' hs' => by
            rw [findLink_markLink]
            intro hc
            exact hnd.1 s' hs' (by rw [hc, hj]))
        rw [hother, hj]
        exact markLink_getElem?_own y links s j hj
      · exact absurd hs hin

theorem querySelector_isFound (id : String) (links : List NavLink)
    (h : (querySelector id links).isFound = true) :
    ∀ links', querySelector id links' =
      match findLink id links' with
      | some j => QueryResult.found j
      | none => QueryResult.null := by
  intro links'
  unfold querySelector at h ⊢
  split at h
  · exact absurd h (by simp [QueryResult.isFound])
  · rename_i h1
    split at h
    · exact absurd h (by simp [QueryResult.isFound])
    · rename_i h2
      rw [if_neg h1, if_neg h2]

theorem highlightSection_isFound (y : ℚ) (links links' : List NavLink) (s : Section)
    (h : (querySelector s.id links).isFound = true) :
    highlightSection y links' s = Except.ok (markLink y links' s (findLink s.id links')) := by
  unfold highlightSection
  rw [querySelector_isFound s.id links h links']
  cases findLink s.id links' <;> rfl

theorem isFound_markLink (id : String) (y : ℚ) (links : List NavLink) (s : Section)
    (r : Option Nat) (h : (querySelector id links).isFound = true) :
    (querySelector id (markLink y links s r)).isFound = true := by
  have h1 := querySelector_isFound id links h links
  have h2 := querySelector_isFound id links h (markLink y links s r)
  rw [findLink_markLink] at h2
  rw [h2, ← h1]
  exact h

theorem highlightPass_eq_markAll (y : ℚ) : ∀ (sections : List Section) (links : List NavLink),
    (∀ s ∈ sections, (querySelector s.id links).isFound = true) →
    highlightPass y sections links = (markAll y sections links, none)
  | [], links, _ => rfl
  | s :: rest, links, h => by
    have ih := highlightPass_eq_markAll y rest (markLink y links s (findLink s.id links))
      (fun s' hs' => isFound_markLink s'.id y links s _ (h s' (by simp [hs'])))
    rw [markAll_cons, ← ih]
    simp only [highlightPass, highlightSection_isFound y links links s (h s (by simp))]

theorem findLink_of_isFound (id : String) (links : List NavLink)
    (h : (querySelector id links).isFound = true) :
    ∃ j, findLink id links = some j ∧ querySelector id links = QueryResult.found j := by
  have h1 := querySelector_isFound id links h links
  cases hj : findLink id links with
  | none =>
    rw [hj] at h1
    rw [h1] at h
    exact absurd h (by simp [QueryResult.isFound])
  | some j =>
    rw [hj] at h1
    exact ⟨j, rfl, h1⟩

theorem findLink_nodup (sections : List Section) (links : List NavLink)
    (hown : ∀ s ∈ sections, (querySelector s.id links).isFound = true)
    (hnd : (sections.map (fun s => querySelector s.id links)).Nodup) :
    (sections.map (fun s => findLink s.id links)).Nodup := by
  have hmap : sections.map (fun s => querySelector s.id links) =
      (sections.map (fun s => findLink s.id links)).map
        (fun r => match r with
          | some j => QueryResult.found j
          | none => QueryResult.null) := by
    rw [List.map_map]
    apply List.map_congr_left
    intro s hs
    exact querySelector_isFound s.id links (hown s hs) links
  rw [hmap] at hnd
  exact List.Nodup.of_map _ hnd

theorem sectionInRange_iff (y : ℚ) (s : Section) :
    sectionInRange y s = true ↔
      ((s.offsetTop - 100 : Int) : ℚ) < y ∧
        y ≤ ((s.offsetTop - 100 : Int) : ℚ) + (s.offsetHeight : ℚ) := by
  simp only [sectionInRange, decide_eq_true_eq, gt_iff_lt]
  push_cast
  rfl

theorem sectionLinkActive_highlightPass (y : ℚ) (sections : List Section)
    (links : List NavLink)
    (hown : ∀ s ∈ sections, (querySelector s.id links).isFound = true)
    (hnd : (sections.map (fun s => querySelector s.id links)).Nodup) (s : Section)
    (hs : s ∈ sections) :
    sectionLinkActive (highlightPass y sections links).1 s = sectionInRange y s := by
  rw [highlightPass_eq_markAll y sections links hown]
  obtain ⟨j, hj, _⟩ := findLink_of_isFound s.id links (hown s hs)
  obtain ⟨l, hl, hact⟩ := markAll_getElem?_own y sections links
    (findLink_nodup sections links hown hnd) s hs j hj
  simp only [sectionLinkActive, querySelector_isFound s.id links (hown s hs)
    (markAll y sections links), findLink_markAll, hj, hl]
  exact hact

theorem inRange_filter_le_one (y : ℚ) : ∀ (sections : List Section),
    sections.Pairwise rangesDisjoint →
    (sections.filter (sectionInRange y)).length ≤ 1
  | [], _ => by simp
  | s :: rest, h => by
    rw [List.pairwise_cons] at h
    have ih := inRange_filter_le_one y rest h.2
    simp only [List.filter_cons]
    split
    · rename_i hs
      have hnone : rest.filter (sectionInRange y) = [] := by
        rw [List.filter_eq_nil_iff]
        intro r hr hin
        rw [sectionInRange_iff] at hs hin
        have hd := h.1 r hr
        unfold rangesDisjoint at hd
        have hd' : ((s.offsetTop - 100 + s.offsetHeight : Int) : ℚ) ≤
            ((r.offsetTop - 100 : Int) : ℚ) ∨
            ((r.offsetTop - 100 + r.offsetHeight : Int) : ℚ) ≤
              ((s.offsetTop - 100 : Int) : ℚ) := by
          rcases hd with hd | hd
          · left; exact_mod_cast hd
          · right; exact_mod_cast hd
        push_cast at hd' hs hin
        rcases hd' with hd' | hd' <;> linarith [hs.1, hs.2, hin.1, hin.2]
      rw [hnone]
      simp
    · exact ih

/-- C13 (counterexample). Three pages on which the claim fails. Overlap: sections "about" at
`offsetTop 0` with height `1000` and, inside it, "faq" at `offsetTop 200` with height `300`,
each with its own link; at `scrollY = 250` one pass marks both links active. Substring:
sections "faq-more" (`offsetTop 0`, height `500`) and "faq" (`offsetTop 500`, height `500`),
each with its own link; at `scrollY = 600`, inside "faq" only, the query for "faq" selects the
link `#faq-more`, so that link ends active and the link `#faq` stays inactive. Syntax error:
for a section with id `1` the query throws and the pass ends with the exception. -/
theorem highlightPass_two_active :
    (highlightPass 250
        [{ offsetTop := 0, offsetHeight := 1000, id := "about" },
          { offsetTop := 200, offsetHeight := 300, id := "faq" }]
        [{ href := "#about", active := false }, { href := "#faq", active := false }] =
      ([{ href := "#about", active := true }, { href := "#faq", active := true }], none) ∧
    ([{ offsetTop := 0, offsetHeight := 1000, id := "about" },
        { offsetTop := 200, offsetHeight := 300, id := "faq" }].filter
      (sectionLinkActive
        [{ href := "#about", active := true }, { href := "#faq", active := true }])).length
      = 2) ∧
    (highlightPass 600
        [{ offsetTop := 0, offsetHeight := 500, id := "faq-more" },
          { offsetTop := 500, offsetHeight := 500, id := "faq" }]
        [{ href := "#faq-more", active := false }, { href := "#faq", active := false }] =
      ([{ href := "#faq-more", active := true }, { href := "#faq", active := false }], none) ∧
    sectionInRange 600 { offsetTop := 0, offsetHeight := 500, id := "faq-more" } = false ∧
    sectionInRange 600 { offsetTop := 500, offsetHeight := 500, id := "faq" } = true ∧
    sectionLinkActive
        [{ href := "#faq-more", active := true }, { href := "#faq", active := false }]
        { offsetTop := 0, offsetHeight := 500, id := "faq-more" } = true) ∧
    highlightPass 50 [{ offsetTop := 0, offsetHeight := 500, id := "1" }]
        [{ href := "#1", active := false }] =
      ([{ href := "#1", active := false }], some QueryError.syntaxError) := by
  have q0 : ∀ b, querySelector "about"
      [{ href := "#about", active := b }, { href := "#faq", active := false }] =
      QueryResult.found 0 := by
    decide
  have q1 : ∀ b, querySelector "faq"
      [{ href := "#about", active := b }, { href := "#faq", active := false }] =
      QueryResult.found 1 := by
    decide
  have q2 : querySelector "faq-more"
      [{ href := "#faq-more", active := false }, { href := "#faq", active := false }] =
      QueryResult.found 0 := by
    decide
  have q3 : ∀ b, querySelector "faq"
      [{ href := "#faq-more", active := b }, { href := "#faq", active := false }] =
      QueryResult.found 0 := by
    decide
  have r0 : sectionInRange 250 { offsetTop := 0, offsetHeight := 1000, id := "about" } = true := by
    rw [sectionInRange_iff]
    norm_num
  have r1 : sectionInRange 250 { offsetTop := 200, offsetHeight := 300, id := "faq" } = true := by
    rw [sectionInRange_iff]
    norm_num
  have r2 : sectionInRange 600 { offsetTop := 0, offsetHeight := 500, id := "faq-more" } =
      false := by
    rw [← Bool.not_eq_true, sectionInRange_iff]
    norm_num
  have r3 : sectionInRange 600 { offsetTop := 500, offsetHeight := 500, id := "faq" } = true := by
    rw [sectionInRange_iff]
    norm_num
  refine ⟨⟨?_, by decide⟩, ⟨?_, r2, r3, by decide⟩, by decide⟩
  · simp only [highlightPass, highlightSection, q0, q1, setLinkActive, r0, r1]
  · simp only [highlightPass, highlightSection, q2, q3, setLinkActive, r2, r3]

/-- C13 (amended). When for every section the query `.nav__link[href*=id]` parses and selects a
link, and no two sections select the same link: one pass ends without an exception; after it
the link selected for a section is active iff `sectionTop < scrollY ≤ sectionTop +
sectionHeight` with `sectionTop = offsetTop - 100`; the sections with an active link are
exactly those whose interval holds `scrollY`; and when the intervals of the sections are
pairwise disjoint at most one section has an active link. -/
theorem highlightPass_active_iff (scrollY : ℚ) (sections : List Section)
    (links : List NavLink)
    (hown : ∀ s ∈ sections, (querySelector s.id links).isFound = true)
    (hdistinct : (sections.map (fun s => querySelector s.id links)).Nodup) :
    (highlightPass scrollY sections links).2 = none ∧
    (∀ s ∈ sections,
      (sectionLinkActive (highlightPass scrollY sections links).1 s = true ↔
        ((s.offsetTop - 100 : Int) : ℚ) < scrollY ∧
          scrollY ≤ ((s.offsetTop - 100 : Int) : ℚ) + (s.offsetHeight : ℚ))) ∧
    sections.filter (sectionLinkActive (highlightPass scrollY sections links).1) =
      sections.filter (sectionInRange scrollY) ∧
    (sections.Pairwise rangesDisjoint →
      (sections.filter
        (sectionLinkActive (highlightPass scrollY sections links).1)).length ≤ 1) := by
  have hact := sectionLinkActive_highlightPass scrollY sections links hown hdistinct
  have hfilter : sections.filter (sectionLinkActive (highlightPass scrollY sections links).1) =
      sections.filter (sectionInRange scrollY) :=
    List.filter_congr (fun s hs => hact s hs)
  refine ⟨?_, ?_, hfilter, ?_⟩
  · rw [highlightPass_eq_markAll scrollY sections links hown]
  · intro s hs
    rw [hact s hs, sectionInRange_iff]
  · intro hd
    rw [hfilter]
    exact inRange_filter_le_one scrollY sections hd

theorem highlightPass_active_iff_witness :
    (sectionLinkActive
        (highlightPass 450
          [{ offsetTop := 0, offsetHeight := 500, id := "about" },
            { offsetTop := 500, offsetHeight := 500, id := "faq" }]
          [{ href := "#about", active := true }, { href := "#faq", active := false }]).1
        { offsetTop := 500, offsetHeight := 500, id := "faq" } = true ↔
      (((500 - 100 : Int) : ℚ) < 450 ∧
        (450 : ℚ) ≤ ((500 - 100 : Int) : ℚ) + ((500 : Int) : ℚ))) :=
  (highlightPass_active_iff 450
    [{ offsetTop := 0, offsetHeight := 500, id := "about" },
      { offsetTop := 500, offsetHeight := 500, id := "faq" }]
    [{ href := "#about", active := true }, { href := "#faq", active := false }]
    (by decide) (by decide)).2.1 { offsetTop := 500, offsetHeight := 500, id := "faq" }
    (by decide)

/-! ### download.startDownload -/

theorem downloadInv_step (T : Nat) (dom : Registry) (d : Bool) (s s' : DownloadState)
    (e : DownloadEvent) (hinv : DownloadInv T dom d s) (hns : e.isStart = false)
    (h : downloadStep s e = some s') : DownloadInv T dom (d || e.isDismiss) s' := by
  cases e with
  | start t => simp [DownloadEvent.isStart] at hns
  | expire =>
    simp only [DownloadEvent.isDismiss, Bool.or_false]
    rcases hinv with
      ⟨hs, hd⟩ | ⟨hdom, hc, hl, htm, h1, h2, hto⟩ | ⟨hdom, hc, hl, htm, h1, hto⟩
    · subst hs
      subst hd
      simp only [downloadStep, le_add_iff_nonneg_right, Nat.zero_le, if_true,
        Option.some.injEq] at h
      subst h
      right; left
      simp [runDownloadTimer, triggerDownload, showSuccessMessage, insertTimer]
    · simp only [downloadStep, htm] at h
      rw [if_pos (by omega)] at h
      simp only [Option.some.injEq] at h
      subst h
      right; right
      refine ⟨hdom, hc, hl, rfl, rfl, ?_⟩
      simp only [runDownloadTimer, hto]
      cases d <;> simp
    · simp [downloadStep, htm] at h
  | dismiss t toast =>
    simp only [DownloadEvent.isDismiss, Bool.or_true]
    rcases hinv with
      ⟨hs, hd⟩ | ⟨hdom, hc, hl, htm, h1, h2, hto⟩ | ⟨hdom, hc, hl, htm, h1, hto⟩
    · subst hs
      simp [downloadStep] at h
    · simp only [downloadStep, htm, List.all_cons, List.all_nil, Bool.and_true,
        decide_eq_true_eq] at h
      split at h
      · rename_i hg
        simp only [Option.some.injEq] at h
        subst h
        right; left
        refine ⟨hdom, hc, hl, rfl, by simp only; omega, by simp only; omega, ?_⟩
        simp only [if_true]
        have hmem := hg.2.2
        rw [hto] at hmem ⊢
        cases d with
        | true => simp at hmem
        | false =>
          simp only [Bool.false_eq_true, if_false, List.mem_singleton] at hmem ⊢
          subst hmem
          simp
      · exact absurd h (by simp)
    · simp [downloadStep, hto] at h

theorem downloadInv_run (T : Nat) (dom : Registry) : ∀ (evs : List DownloadEvent) (d : Bool)
    (s s' : DownloadState), DownloadInv T dom d s → (∀ e ∈ evs, e.isStart = false) →
    downloadRun s evs = some s' → DownloadInv T dom (d || evs.any DownloadEvent.isDismiss) s'
  | [], d, s, s', hinv, _, h => by
    simp only [downloadRun, Option.some.injEq] at h
    subst h
    simpa using hinv
  | e :: es, d, s, s', hinv, hns, h => by
    simp only [downloadRun] at h
    cases hs : downloadStep s e with
    | none => rw [hs] at h; exact absurd h (by simp)
    | some s1 =>
      rw [hs] at h
      have h1 := downloadInv_step T dom d s s1 e hinv (hns e (by simp)) hs
      have := downloadInv_run T dom es _ s1 s' h1 (fun x hx => hns x (by simp [hx])) h
      simpa [List.any_cons, Bool.or_assoc] using this

theorem showLoading_visible (dom : Registry) (overlay : Element)
    (h : dom.loadingOverlay = some overlay) :
    overlayVisible (showLoading dom) = true ∧ scrollDisabled (showLoading dom) = true := by
  simp only [showLoading, h, overlayVisible, scrollDisabled, Element.contains, Element.add]
  split <;> simp_all

theorem hideLoading_hidden (dom : Registry) (overlay : Element)
    (h : dom.loadingOverlay = some overlay) :
    overlayVisible (hideLoading (showLoading dom)) = false ∧
      scrollDisabled (hideLoading (showLoading dom)) = false := by
  simp only [showLoading, hideLoading, h, overlayVisible, scrollDisabled, Element.contains,
    Element.remove]
  constructor
  · simp
  · decide

theorem downloadStep_start_idle (dom : Registry) (T : Nat) :
    downloadStep (DownloadState.idle dom) (DownloadEvent.start T) =
      some { dom := showLoading dom, toasts := [], toastsCreated := 0, linkClicks := 0,
             timers := [(T + 2000, DownloadTimer.finish)], clock := T } := by
  simp [downloadStep, DownloadState.idle, startDownload, insertTimer]

theorem downloadRun_start_expire (dom : Registry) (T : Nat) :
    downloadRun (DownloadState.idle dom) [DownloadEvent.start T, DownloadEvent.expire] =
      some { dom := hideLoading (showLoading dom), toasts := [0], toastsCreated := 1,
             linkClicks := 1, timers := [(T + 7000, DownloadTimer.removeToast 0)],
             clock := T + 2000 } := by
  simp only [downloadRun]
  rw [downloadStep_start_idle]
  simp [downloadStep, runDownloadTimer, triggerDownload, showSuccessMessage, insertTimer]

theorem downloadRun_start_expire_expire (dom : Registry) (T : Nat) :
    downloadRun (DownloadState.idle dom)
        [DownloadEvent.start T, DownloadEvent.expire, DownloadEvent.expire] =
      some { dom := hideLoading (showLoading dom), toasts := [], toastsCreated := 1,
             linkClicks := 1, timers := [], clock := T + 7000 } := by
  simp only [downloadRun]
  rw [downloadStep_start_idle]
  simp [downloadStep, runDownloadTimer, triggerDownload, showSuccessMessage, insertTimer]

/-- C14. A single `startDownload` at time `T` on an idle page whose overlay exists, followed by
any enabled sequence of timer expiries and toast dismissals (timers exact): at once the overlay
is visible and scroll disabled, with no toast; while the clock is before `T + 2000` that
stays so; the first timer runs at exactly `T + 2000`, hides the overlay, re-enables scroll and
adds the one toast; from then on exactly one toast has been created; the toast is on the page
exactly while the clock is in `[T + 2000, T + 7000)` and it has not been dismissed; the second
timer runs at exactly `T + 7000` and leaves no toast and no timer. -/
theorem download_flow (dom : Registry) (overlay : Element)
    (hov : dom.loadingOverlay = some overlay) (T : Nat) (evs : List DownloadEvent)
    (s : DownloadState) (hns : ∀ e ∈ evs, e.isStart = false)
    (h : downloadRun (DownloadState.idle dom) (DownloadEvent.start T :: evs) = some s) :
    (∃ s1, downloadStep (DownloadState.idle dom) (DownloadEvent.start T) = some s1 ∧
      overlayVisible s1.dom = true ∧ scrollDisabled s1.dom = true ∧ s1.toasts = [] ∧
      s1.clock = T ∧ s1.timers = [(T + 2000, DownloadTimer.finish)]) ∧
    (s.clock < T + 2000 →
      overlayVisible s.dom = true ∧ scrollDisabled s.dom = true ∧ s.toasts = [] ∧
        s.toastsCreated = 0) ∧
    (T + 2000 ≤ s.clock →
      overlayVisible s.dom = false ∧ scrollDisabled s.dom = false ∧ s.toastsCreated = 1) ∧
    s.toasts =
      (if T + 2000 ≤ s.clock ∧ s.clock < T + 7000 ∧ evs.any DownloadEvent.isDismiss = false
        then [0] else []) ∧
    s.toastsCreated ≤ 1 ∧ s.clock ≤ T + 7000 ∧
    downloadRun (DownloadState.idle dom) [DownloadEvent.start T, DownloadEvent.expire] =
      some { dom := hideLoading (showLoading dom), toasts := [0], toastsCreated := 1,
             linkClicks := 1, timers := [(T + 7000, DownloadTimer.removeToast 0)],
             clock := T + 2000 } ∧
    downloadRun (DownloadState.idle dom)
        [DownloadEvent.start T, DownloadEvent.expire, DownloadEvent.expire] =
      some { dom := hideLoading (showLoading dom), toasts := [], toastsCreated := 1,
             linkClicks := 1, timers := [], clock := T + 7000 } := by
  have hshow := showLoading_visible dom overlay hov
  have hhide := hideLoading_hidden dom overlay hov
  simp only [downloadRun] at h
  rw [downloadStep_start_idle] at h
  have hinv := downloadInv_run T dom evs false _ s (Or.inl ⟨rfl, rfl⟩) hns
    (by simpa using h)
  simp only [Bool.false_or] at hinv
  refine ⟨⟨_, downloadStep_start_idle dom T, hshow.1, hshow.2, rfl, rfl, rfl⟩, ?_, ?_, ?_, ?_,
    ?_, downloadRun_start_expire dom T, downloadRun_start_expire_expire dom T⟩
  · intro hlt
    rcases hinv with ⟨hs, _⟩ | ⟨_, _, _, _, h1, _, _⟩ | ⟨_, _, _, _, h1, _⟩
    · subst hs
      exact ⟨hshow.1, hshow.2, rfl, rfl⟩
    · omega
    · omega
  · intro hge
    rcases hinv with ⟨hs, _⟩ | ⟨hdom, hc, _, _, _, _, _⟩ | ⟨hdom, hc, _, _, _, _⟩
    · subst hs
      simp only at hge
      omega
    · rw [hdom]
      exact ⟨hhide.1, hhide.2, hc⟩
    · rw [hdom]
      exact ⟨hhide.1, hhide.2, hc⟩
  · rcases hinv with ⟨hs, _⟩ | ⟨_, _, _, _, h1, h2, hto⟩ | ⟨_, _, _, _, h1, hto⟩
    · subst hs
      simp
    · rw [hto]
      cases hd : evs.any DownloadEvent.isDismiss <;> simp [h1, h2]
    · rw [hto, if_neg]
      omega
  · rcases hinv with ⟨hs, _⟩ | ⟨_, hc, _, _, _, _, _⟩ | ⟨_, hc, _, _, _, _⟩
    · subst hs
      simp
    · omega
    · omega
  · rcases hinv with ⟨hs, _⟩ | ⟨_, _, _, _, _, h2, _⟩ | ⟨_, _, _, _, h1, _⟩
    · subst hs
      simp
    · omega
    · omega

theorem download_flow_witness :
    downloadRun (DownloadState.idle Registry.full)
        [DownloadEvent.start 100, DownloadEvent.expire, DownloadEvent.dismiss 3000 0,
          DownloadEvent.expire] =
      some { dom := hideLoading (showLoading Registry.full), toasts := [], toastsCreated := 1,
             linkClicks := 1, timers := [], clock := 7100 } ∧
    (DownloadState.mk (hideLoading (showLoading Registry.full)) [] 1 1 []
      7100).toastsCreated ≤ 1 :=
  ⟨by decide,
    (download_flow Registry.full { classList := [] } rfl 100
      [DownloadEvent.expire, DownloadEvent.dismiss 3000 0, DownloadEvent.expire]
      { dom := hideLoading (showLoading Registry.full), toasts := [], toastsCreated := 1,
        linkClicks := 1, timers := [], clock := 7100 }
      (by decide) (by decide)).2.2.2.2.1⟩

/-! ### animations.animateStats: interpolation in exact arithmetic -/

theorem counterText_final (t : ℚ) : counterText t t = finalCounterText t := by
  unfold counterText finalCounterText
  by_cases h1 : t ≥ 1000
  · simp [h1]
  · simp only [h1, if_false]
    by_cases h2 : Int.fract t ≠ 0
    · rw [if_pos ((jsMod1_ne_zero_iff t).mpr h2), if_pos h2]
    · rw [if_neg (fun h => h2 ((jsMod1_ne_zero_iff t).mp h)), if_neg h2]

theorem counterTick_running (t : ℚ) (s : CounterState) (hr : s.running = true) :
    counterTick t s =
      if s.current + t / 125 ≥ t then
        { current := t, running := false, text := counterText t t }
      else
        { current := s.current + t / 125, running := true,
          text := counterText t (s.current + t / 125) } := by
  have e : (2000 : ℚ) / 16 = 125 := by norm_num
  simp only [counterTick, hr, if_true, e]

theorem counterTick_stopped (t : ℚ) (s : CounterState) (hr : s.running = false) :
    counterTick t s = s := by
  simp [counterTick, hr]

theorem counterRun_progress (t : ℚ) (txt : String) (ht : 0 < t) : ∀ k : Nat, k < 125 →
    (counterRun t txt k).running = true ∧ (counterRun t txt k).current = k * (t / 125)
  | 0, _ => by simp [counterRun, CounterState.init]
  | k + 1, hk => by
    obtain ⟨hr, hc⟩ := counterRun_progress t txt ht k (by omega)
    have hk' : ((k : ℚ) + 1) < 125 := by exact_mod_cast hk
    have hlt : ¬ ((k : ℚ) * (t / 125) + t / 125 ≥ t) := by
      have : (k : ℚ) * (t / 125) + t / 125 = (↑k + 1) * t / 125 := by ring
      rw [ge_iff_le, not_le, this, div_lt_iff₀ (by norm_num)]
      nlinarith
    rw [counterRun, counterTick_running t _ hr, hc, if_neg hlt]
    refine ⟨rfl, ?_⟩
    push_cast
    ring

theorem counterRun_first_nonpos (t : ℚ) (txt : String) (ht : t ≤ 0) :
    counterRun t txt 1 = { current := t, running := false, text := counterText t t } := by
  have hge : (0 : ℚ) + t / 125 ≥ t := by linarith
  rw [counterRun, counterRun, counterTick_running t _ rfl]
  simp only [CounterState.init]
  rw [if_pos hge]

theorem counterRun_stopped_add (t : ℚ) (txt : String) (n : Nat)
    (h : (counterRun t txt n).running = false) :
    ∀ k, counterRun t txt (n + k) = counterRun t txt n
  | 0 => rfl
  | k + 1 => by
    have ih := counterRun_stopped_add t txt n h k
    rw [← Nat.add_assoc, counterRun, ih, counterTick_stopped t _ h]

theorem counterRun_stop (t : ℚ) (txt : String) :
    counterRun t txt 125 = { current := t, running := false, text := finalCounterText t } := by
  rw [← counterText_final]
  rcases lt_or_le 0 t with ht | ht
  · obtain ⟨hr, hc⟩ := counterRun_progress t txt ht 124 (by omega)
    have hge : ((124 : Nat) : ℚ) * (t / 125) + t / 125 ≥ t := by
      push_cast
      linarith
    rw [counterRun, counterTick_running t _ hr, hc, if_pos hge]
  · have h1 := counterRun_first_nonpos t txt ht
    have := counterRun_stopped_add t txt 1 (by rw [h1]) 124
    rw [show 1 + 124 = 125 from rfl] at this
    rw [this, h1]

theorem counterRun_le_target (t : ℚ) (txt : String) (ht : 0 < t) (k : Nat) :
    (counterRun t txt k).current ≤ t := by
  rcases Nat.lt_or_ge k 125 with hk | hk
  · rw [(counterRun_progress t txt ht k hk).2]
    have hk' : (k : ℚ) < 125 := by exact_mod_cast hk
    have : (k : ℚ) * (t / 125) = k * t / 125 := by ring
    rw [this, div_le_iff₀ (by norm_num)]
    nlinarith
  · obtain ⟨j, rfl⟩ := Nat.exists_eq_add_of_le hk
    rw [counterRun_stopped_add t txt 125 (by rw [counterRun_stop]) j, counterRun_stop]

/-- C15. In exact arithmetic, for every target `t > 0`: the increment is `t / 125`; after tick
`k < 125` the timer is still set and the value is `k * t / 125`, strictly below `t` and
strictly below the value after the next tick; tick 125, which runs `125 * 16 = 2000` ms after
the start, sets the value to exactly `t` and clears the timer; the value never exceeds `t`;
and nothing changes after tick 125. -/
theorem counter_interpolation (t : ℚ) (initialText : String) (ht : 0 < t) :
    t / (2000 / 16) = t / 125 ∧
    (∀ k, k < 125 →
      (counterRun t initialText k).running = true ∧
      (counterRun t initialText k).current = k * t / 125 ∧
      (counterRun t initialText k).current < t ∧
      (counterRun t initialText k).current < (counterRun t initialText (k + 1)).current) ∧
    counterRun t initialText 125 =
      { current := t, running := false, text := finalCounterText t } ∧
    counterTickTime 125 = 2000 ∧
    (∀ k, (counterRun t initialText k).current ≤ t) ∧
    (∀ k, counterRun t initialText (125 + k) = counterRun t initialText 125) := by
  have hval : ∀ k : Nat, k < 125 → (counterRun t initialText k).current = k * t / 125 ∧
      (counterRun t initialText k).current < t := by
    intro k hk
    have h := (counterRun_progress t initialText ht k hk).2
    have hk' : (k : ℚ) < 125 := by exact_mod_cast hk
    have e : (k : ℚ) * (t / 125) = k * t / 125 := by ring
    rw [h, e]
    refine ⟨rfl, ?_⟩
    rw [div_lt_iff₀ (by norm_num)]
    nlinarith
  refine ⟨by norm_num, ?_, counterRun_stop t initialText, rfl,
    counterRun_le_target t initialText ht, ?_⟩
  · intro k hk
    refine ⟨(counterRun_progress t initialText ht k hk).1, (hval k hk).1, (hval k hk).2, ?_⟩
    rcases Nat.lt_or_ge (k + 1) 125 with h1 | h1
    · rw [(hval k hk).1, (hval (k + 1) h1).1]
      push_cast
      rw [div_lt_div_iff_of_pos_right (by norm_num)]
      linarith
    · have hk1 : k + 1 = 125 := by omega
      rw [hk1, counterRun_stop]
      exact (hval k hk).2
  · intro k
    exact counterRun_stopped_add t initialText 125 (by rw [counterRun_stop]) k

theorem counter_interpolation_witness :
    (0 : ℚ) < 1500 ∧
    (counterRun 1500 "0" 125).current = 1500 ∧ (counterRun 1500 "0" 125).running = false :=
  ⟨by norm_num,
    by rw [(counter_interpolation 1500 "0" (by norm_num)).2.2.1],
    by rw [(counter_interpolation 1500 "0" (by norm_num)).2.2.1]⟩

/-! ### window.DataHubWebsite.toggleFAQ -/

theorem toggleFAQ_collapsed (items : List FaqItem) (i : Nat) (item : FaqItem)
    (hi : items[i]? = some item) (hc : item.active = false) :
    toggleFAQ items i = faqClick items i := by
  simp [toggleFAQ, faqClick, hi, hc]

theorem expandedCount_pos_of_getElem? : ∀ (items : List FaqItem) (j : Nat) (b : FaqItem),
    items[j]? = some b → b.active = true → 1 ≤ expandedCount items := by
  intro items j b hj hb
  unfold expandedCount
  exact List.countP_pos_iff.mpr ⟨b, List.getElem?_mem hj, hb⟩

theorem expandedCount_two : ∀ (items : List FaqItem) (i j : Nat) (a b : FaqItem),
    i ≠ j → items[i]? = some a → items[j]? = some b → a.active = true →
    b.active = true → 2 ≤ expandedCount items
  | [], i, _, a, _, _, hi, _, _, _ => by simp at hi
  | x :: xs, 0, 0, _, _, hij, _, _, _, _ => absurd rfl hij
  | x :: xs, 0, j + 1, a, b, _, hi, hj, ha, hb => by
    simp only [List.getElem?_cons_zero, Option.some.injEq] at hi
    simp only [List.getElem?_cons_succ] at hj
    subst hi
    have := expandedCount_pos_of_getElem? xs j b hj hb
    simp only [expandedCount, List.countP_cons, ha, if_true] at this ⊢
    omega
  | x :: xs, i + 1, 0, a, b, _, hi, hj, ha, hb => by
    simp only [List.getElem?_cons_zero, Option.some.injEq] at hj
    simp only [List.getElem?_cons_succ] at hi
    subst hj
    have := expandedCount_pos_of_getElem? xs i a hi ha
    simp only [expandedCount, List.countP_cons, hb, if_true] at this ⊢
    omega
  | x :: xs, i + 1, j + 1, a, b, hij, hi, hj, ha, hb => by
    simp only [List.getElem?_cons_succ] at hi hj
    have := expandedCount_two xs i j a b (fun h => hij (by rw [h])) hi hj ha hb
    simp only [expandedCount, List.countP_cons] at this ⊢
    omega

theorem toggleFAQ_expanded (items : List FaqItem) (i : Nat) (item : FaqItem)
    (hi : items[i]? = some item) (ha : item.active = true) (h1 : expandedCount items ≤ 1)
    (hplus : collapsedShowPlus items) :
    toggleFAQ items i = faqClick items i := by
  rw [faqClick_expanded items i item hi ha]
  have hilt : i < items.length := by
    rcases Nat.lt_or_ge i items.length with h | h
    · exact h
    · rw [List.getElem?_eq_none h] at hi
      exact absurd hi (by simp)
  apply List.ext_getElem?
  intro j
  simp only [toggleFAQ, hi, ha, if_true, List.getElem?_set, List.getElem?_replicate]
  by_cases hij : i = j
  · subst hij
    simp [hilt, FaqItem.collapse]
  · rw [if_neg hij]
    by_cases hj : j < items.length
    · rw [if_pos hj, List.getElem?_eq_getElem hj]
      have hjget : items[j]? = some items[j] := List.getElem?_eq_getElem hj
      have hact : items[j].active = false := by
        by_contra hne
        have hb : items[j].active = true := by simpa using hne
        have := expandedCount_two items i j item items[j] hij hi hjget ha hb
        omega
      have hicon := hplus items[j] (List.getElem_mem hj) hact
      congr 1
      cases hx : items[j] with
      | mk act icon =>
        rw [hx] at hact hicon
        simp only at hact hicon
        rw [hact, hicon]
    · rw [if_neg hj]
      exact List.getElem?_eq_none (by omega)

theorem toggleFAQ_eq_faqClick (items : List FaqItem) (i : Nat)
    (h1 : expandedCount items ≤ 1) (hplus : collapsedShowPlus items) :
    toggleFAQ items i = faqClick items i := by
  cases hi : items[i]? with
  | none => simp [toggleFAQ, faqClick, hi]
  | some item =>
    cases ha : item.active with
    | true => exact toggleFAQ_expanded items i item hi ha h1 hplus
    | false => exact toggleFAQ_collapsed items i item hi ha

theorem faqClick_collapsedShowPlus (items : List FaqItem) (i : Nat) (hi : i < items.length) :
    collapsedShowPlus (faqClick items i) := by
  have hget : items[i]? = some items[i] := List.getElem?_eq_getElem hi
  intro x hx hxa
  cases ha : items[i].active with
  | true =>
    rw [faqClick_expanded items i _ hget ha] at hx
    rw [List.eq_of_mem_replicate hx]
  | false =>
    rw [faqClick_collapsed items i _ hget ha, List.mem_map] at hx
    obtain ⟨j, _, hj⟩ := hx
    by_cases hji : j = i
    · rw [if_pos hji] at hj
      rw [← hj] at hxa
      exact absurd hxa (by simp)
    · rw [if_neg hji] at hj
      rw [← hj]

/-- C16. On a state in which at most one answer is expanded and every collapsed item shows
"+", `toggleFAQ` on the question of an existing item `i` gives exactly the state that a click
on that question gives; so after `toggleFAQ` at most one answer is expanded and every
collapsed item again shows "+". -/
theorem toggleFAQ_refines_click (items : List FaqItem) (i : Nat) (hi : i < items.length)
    (h1 : expandedCount items ≤ 1) (hplus : collapsedShowPlus items) :
    toggleFAQ items i = faqClick items i ∧
    expandedCount (toggleFAQ items i) ≤ 1 ∧
    collapsedShowPlus (toggleFAQ items i) := by
  have h := toggleFAQ_eq_faqClick items i h1 hplus
  rw [h]
  exact ⟨rfl, faqClick_expandedCount items i hi, faqClick_collapsedShowPlus items i hi⟩

theorem toggleFAQ_refines_click_witness :
    toggleFAQ [{ active := false, icon := "+" }, { active := true, icon := "−" },
        { active := false, icon := "+" }] 1 =
      faqClick [{ active := false, icon := "+" }, { active := true, icon := "−" },
        { active := false, icon := "+" }] 1 :=
  (toggleFAQ_refines_click
    [{ active := false, icon := "+" }, { active := true, icon := "−" },
      { active := false, icon := "+" }] 1 (by decide) (by decide)
    (by
      intro x hx hxa
      simp only [List.mem_cons, List.mem_singleton, List.not_mem_nil, or_false] at hx
      rcases hx with rfl | rfl | rfl
      · rfl
      · exact absurd hxa (by decide)
      · rfl)).1

end DataHub
